import Mathlib

/-!
# hashcat `src/convert.c`: byte/text transcoding and the `$HEX[...]` escaping policy

A shallow embedding of the functions of `convert.c` followed by the properties
proved about them.

Conventions of the embedding.

* A `u8` is a natural number below 256; a byte buffer together with its length
  is a `List Nat` (the C length argument is the length of the list).
* An alphabet function `u8 (*f) (const u8)` is a function `Nat → Option Nat`;
  `none` stands for a table read outside the table (undefined behaviour in C).
* A function that fills a caller-supplied output buffer returns the bytes it
  leaves in `out_buf[0 .. k)`, where `k` is the number of bytes it writes.
* Integer promotion makes every `<<`, `>>`, `&`, `|` of the source an operation
  on non-negative `int`s that cannot overflow, so they are the operations of
  `Nat`; a truncation to `u8` is written `% 256` wherever the value can exceed
  255.
-/

namespace Convert

set_option maxRecDepth 100000

/-! ## Alphabet tables (`convert.c` lines 444-654) -/

/-- Table `tbl[0x20]` of `int_to_base32`. -/
def int_to_base32_tbl : List Nat :=
  [ 0x41, 0x42, 0x43, 0x44, 0x45, 0x46, 0x47, 0x48, 0x49, 0x4a, 0x4b, 0x4c, 0x4d, 0x4e, 0x4f, 0x50,
    0x51, 0x52, 0x53, 0x54, 0x55, 0x56, 0x57, 0x58, 0x59, 0x5a, 0x32, 0x33, 0x34, 0x35, 0x36, 0x37 ]

/-- Embedding of `int_to_base32`: `return tbl[c]` over a 32-entry table. -/
def int_to_base32 (c : Nat) : Option Nat := int_to_base32_tbl[c]?

/-- Embedding of `base32_to_int`. -/
def base32_to_int (c : Nat) : Option Nat :=
  if c ≥ 0x41 ∧ c ≤ 0x5a then some (c - 0x41)
  else if c ≥ 0x32 ∧ c ≤ 0x37 then some (c - 0x32 + 26)
  else some 0

/-- Table `tbl[0x20]` of `int_to_itoa32`. -/
def int_to_itoa32_tbl : List Nat :=
  [ 0x30, 0x31, 0x32, 0x33, 0x34, 0x35, 0x36, 0x37, 0x38, 0x39, 0x61, 0x62, 0x63, 0x64, 0x65, 0x66,
    0x67, 0x68, 0x69, 0x6a, 0x6b, 0x6c, 0x6d, 0x6e, 0x6f, 0x70, 0x71, 0x72, 0x73, 0x74, 0x75, 0x76 ]

/-- Embedding of `int_to_itoa32`: `return tbl[c]` over a 32-entry table. -/
def int_to_itoa32 (c : Nat) : Option Nat := int_to_itoa32_tbl[c]?

/-- Embedding of `itoa32_to_int`. -/
def itoa32_to_int (c : Nat) : Option Nat :=
  if c ≥ 0x30 ∧ c ≤ 0x39 then some (c - 0x30)
  else if c ≥ 0x61 ∧ c ≤ 0x76 then some (c - 0x61 + 10)
  else some 0

/-- Table `tbl[0x40]` of `int_to_itoa64`. -/
def int_to_itoa64_tbl : List Nat :=
  [ 0x2e, 0x2f, 0x30, 0x31, 0x32, 0x33, 0x34, 0x35, 0x36, 0x37, 0x38, 0x39, 0x41, 0x42, 0x43, 0x44,
    0x45, 0x46, 0x47, 0x48, 0x49, 0x4a, 0x4b, 0x4c, 0x4d, 0x4e, 0x4f, 0x50, 0x51, 0x52, 0x53, 0x54,
    0x55, 0x56, 0x57, 0x58, 0x59, 0x5a, 0x61, 0x62, 0x63, 0x64, 0x65, 0x66, 0x67, 0x68, 0x69, 0x6a,
    0x6b, 0x6c, 0x6d, 0x6e, 0x6f, 0x70, 0x71, 0x72, 0x73, 0x74, 0x75, 0x76, 0x77, 0x78, 0x79, 0x7a ]

/-- Embedding of `int_to_itoa64`: `return tbl[c]` over a 64-entry table. -/
def int_to_itoa64 (c : Nat) : Option Nat := int_to_itoa64_tbl[c]?

/-- Table `tbl[0x100]` of `itoa64_to_int`. -/
def itoa64_to_int_tbl : List Nat :=
  [ 0x12, 0x13, 0x14, 0x15, 0x16, 0x17, 0x18, 0x19, 0x1a, 0x1b, 0x1c, 0x1d, 0x1e, 0x1f, 0x20, 0x21,
    0x22, 0x23, 0x24, 0x25, 0x26, 0x27, 0x28, 0x29, 0x2a, 0x2b, 0x2c, 0x2d, 0x2e, 0x2f, 0x30, 0x31,
    0x32, 0x33, 0x34, 0x35, 0x36, 0x37, 0x38, 0x39, 0x3a, 0x3b, 0x3c, 0x3d, 0x3e, 0x3f, 0x00, 0x01,
    0x02, 0x03, 0x04, 0x05, 0x06, 0x07, 0x08, 0x09, 0x0a, 0x0b, 0x05, 0x06, 0x07, 0x08, 0x09, 0x0a,
    0x0b, 0x0c, 0x0d, 0x0e, 0x0f, 0x10, 0x11, 0x12, 0x13, 0x14, 0x15, 0x16, 0x17, 0x18, 0x19, 0x1a,
    0x1b, 0x1c, 0x1d, 0x1e, 0x1f, 0x20, 0x21, 0x22, 0x23, 0x24, 0x25, 0x20, 0x21, 0x22, 0x23, 0x24,
    0x25, 0x26, 0x27, 0x28, 0x29, 0x2a, 0x2b, 0x2c, 0x2d, 0x2e, 0x2f, 0x30, 0x31, 0x32, 0x33, 0x34,
    0x35, 0x36, 0x37, 0x38, 0x39, 0x3a, 0x3b, 0x3c, 0x3d, 0x3e, 0x3f, 0x00, 0x01, 0x02, 0x03, 0x04,
    0x05, 0x06, 0x07, 0x08, 0x09, 0x0a, 0x0b, 0x0c, 0x0d, 0x0e, 0x0f, 0x10, 0x11, 0x12, 0x13, 0x14,
    0x15, 0x16, 0x17, 0x18, 0x19, 0x1a, 0x1b, 0x1c, 0x1d, 0x1e, 0x1f, 0x20, 0x21, 0x22, 0x23, 0x24,
    0x25, 0x26, 0x27, 0x28, 0x29, 0x2a, 0x2b, 0x2c, 0x2d, 0x2e, 0x2f, 0x30, 0x31, 0x32, 0x33, 0x34,
    0x35, 0x36, 0x37, 0x38, 0x39, 0x3a, 0x3b, 0x3c, 0x3d, 0x3e, 0x3f, 0x00, 0x01, 0x02, 0x03, 0x04,
    0x05, 0x06, 0x07, 0x08, 0x09, 0x0a, 0x0b, 0x0c, 0x0d, 0x0e, 0x0f, 0x10, 0x11, 0x12, 0x13, 0x14,
    0x15, 0x16, 0x17, 0x18, 0x19, 0x1a, 0x1b, 0x1c, 0x1d, 0x1e, 0x1f, 0x20, 0x21, 0x22, 0x23, 0x24,
    0x25, 0x26, 0x27, 0x28, 0x29, 0x2a, 0x2b, 0x2c, 0x2d, 0x2e, 0x2f, 0x30, 0x31, 0x32, 0x33, 0x34,
    0x35, 0x36, 0x37, 0x38, 0x39, 0x3a, 0x3b, 0x3c, 0x3d, 0x3e, 0x3f, 0x00, 0x01, 0x02, 0x03, 0x04 ]

/-- Embedding of `itoa64_to_int`: `return tbl[c]` over a 256-entry table. -/
def itoa64_to_int (c : Nat) : Option Nat := itoa64_to_int_tbl[c]?

/-- Table `tbl[0x40]` of `int_to_base64`. -/
def int_to_base64_tbl : List Nat :=
  [ 0x41, 0x42, 0x43, 0x44, 0x45, 0x46, 0x47, 0x48, 0x49, 0x4a, 0x4b, 0x4c, 0x4d, 0x4e, 0x4f, 0x50,
    0x51, 0x52, 0x53, 0x54, 0x55, 0x56, 0x57, 0x58, 0x59, 0x5a, 0x61, 0x62, 0x63, 0x64, 0x65, 0x66,
    0x67, 0x68, 0x69, 0x6a, 0x6b, 0x6c, 0x6d, 0x6e, 0x6f, 0x70, 0x71, 0x72, 0x73, 0x74, 0x75, 0x76,
    0x77, 0x78, 0x79, 0x7a, 0x30, 0x31, 0x32, 0x33, 0x34, 0x35, 0x36, 0x37, 0x38, 0x39, 0x2b, 0x2f ]

/-- Embedding of `int_to_base64`: `return tbl[c]` over a 64-entry table. -/
def int_to_base64 (c : Nat) : Option Nat := int_to_base64_tbl[c]?

/-- Table `tbl[0x100]` of `base64_to_int`. -/
def base64_to_int_tbl : List Nat :=
  [ 0x00, 0x00, 0x00, 0x00, 0x00, 0x00, 0x00, 0x00, 0x00, 0x00, 0x00, 0x00, 0x00, 0x00, 0x00, 0x00,
    0x00, 0x00, 0x00, 0x00, 0x00, 0x00, 0x00, 0x00, 0x00, 0x00, 0x00, 0x00, 0x00, 0x00, 0x00, 0x00,
    0x00, 0x00, 0x00, 0x00, 0x00, 0x00, 0x00, 0x00, 0x00, 0x00, 0x00, 0x3e, 0x00, 0x00, 0x00, 0x3f,
    0x34, 0x35, 0x36, 0x37, 0x38, 0x39, 0x3a, 0x3b, 0x3c, 0x3d, 0x00, 0x00, 0x00, 0x00, 0x00, 0x00,
    0x00, 0x00, 0x01, 0x02, 0x03, 0x04, 0x05, 0x06, 0x07, 0x08, 0x09, 0x0a, 0x0b, 0x0c, 0x0d, 0x0e,
    0x0f, 0x10, 0x11, 0x12, 0x13, 0x14, 0x15, 0x16, 0x17, 0x18, 0x19, 0x00, 0x00, 0x00, 0x00, 0x00,
    0x00, 0x1a, 0x1b, 0x1c, 0x1d, 0x1e, 0x1f, 0x20, 0x21, 0x22, 0x23, 0x24, 0x25, 0x26, 0x27, 0x28,
    0x29, 0x2a, 0x2b, 0x2c, 0x2d, 0x2e, 0x2f, 0x30, 0x31, 0x32, 0x33, 0x00, 0x00, 0x00, 0x00, 0x00,
    0x00, 0x00, 0x00, 0x00, 0x00, 0x00, 0x00, 0x00, 0x00, 0x00, 0x00, 0x00, 0x00, 0x00, 0x00, 0x00,
    0x00, 0x00, 0x00, 0x00, 0x00, 0x00, 0x00, 0x00, 0x00, 0x00, 0x00, 0x00, 0x00, 0x00, 0x00, 0x00,
    0x00, 0x00, 0x00, 0x00, 0x00, 0x00, 0x00, 0x00, 0x00, 0x00, 0x00, 0x00, 0x00, 0x00, 0x00, 0x00,
    0x00, 0x00, 0x00, 0x00, 0x00, 0x00, 0x00, 0x00, 0x00, 0x00, 0x00, 0x00, 0x00, 0x00, 0x00, 0x00,
    0x00, 0x00, 0x00, 0x00, 0x00, 0x00, 0x00, 0x00, 0x00, 0x00, 0x00, 0x00, 0x00, 0x00, 0x00, 0x00,
    0x00, 0x00, 0x00, 0x00, 0x00, 0x00, 0x00, 0x00, 0x00, 0x00, 0x00, 0x00, 0x00, 0x00, 0x00, 0x00,
    0x00, 0x00, 0x00, 0x00, 0x00, 0x00, 0x00, 0x00, 0x00, 0x00, 0x00, 0x00, 0x00, 0x00, 0x00, 0x00,
    0x00, 0x00, 0x00, 0x00, 0x00, 0x00, 0x00, 0x00, 0x00, 0x00, 0x00, 0x00, 0x00, 0x00, 0x00, 0x00 ]

/-- Embedding of `base64_to_int`: `return tbl[c]` over a 256-entry table. -/
def base64_to_int (c : Nat) : Option Nat := base64_to_int_tbl[c]?

/-- Table `tbl[0x40]` of `int_to_base64url`. -/
def int_to_base64url_tbl : List Nat :=
  [ 0x41, 0x42, 0x43, 0x44, 0x45, 0x46, 0x47, 0x48, 0x49, 0x4a, 0x4b, 0x4c, 0x4d, 0x4e, 0x4f, 0x50,
    0x51, 0x52, 0x53, 0x54, 0x55, 0x56, 0x57, 0x58, 0x59, 0x5a, 0x61, 0x62, 0x63, 0x64, 0x65, 0x66,
    0x67, 0x68, 0x69, 0x6a, 0x6b, 0x6c, 0x6d, 0x6e, 0x6f, 0x70, 0x71, 0x72, 0x73, 0x74, 0x75, 0x76,
    0x77, 0x78, 0x79, 0x7a, 0x30, 0x31, 0x32, 0x33, 0x34, 0x35, 0x36, 0x37, 0x38, 0x39, 0x2d, 0x5f ]

/-- Embedding of `int_to_base64url`: `return tbl[c]` over a 64-entry table. -/
def int_to_base64url (c : Nat) : Option Nat := int_to_base64url_tbl[c]?

/-- Table `tbl[0x100]` of `base64url_to_int`. -/
def base64url_to_int_tbl : List Nat :=
  [ 0x00, 0x00, 0x00, 0x00, 0x00, 0x00, 0x00, 0x00, 0x00, 0x00, 0x00, 0x00, 0x00, 0x00, 0x00, 0x00,
    0x00, 0x00, 0x00, 0x00, 0x00, 0x00, 0x00, 0x00, 0x00, 0x00, 0x00, 0x00, 0x00, 0x00, 0x00, 0x00,
    0x00, 0x00, 0x00, 0x00, 0x00, 0x00, 0x00, 0x00, 0x00, 0x00, 0x00, 0x00, 0x00, 0x3e, 0x00, 0x00,
    0x34, 0x35, 0x36, 0x37, 0x38, 0x39, 0x3a, 0x3b, 0x3c, 0x3d, 0x00, 0x00, 0x00, 0x00, 0x00, 0x00,
    0x00, 0x00, 0x01, 0x02, 0x03, 0x04, 0x05, 0x06, 0x07, 0x08, 0x09, 0x0a, 0x0b, 0x0c, 0x0d, 0x0e,
    0x0f, 0x10, 0x11, 0x12, 0x13, 0x14, 0x15, 0x16, 0x17, 0x18, 0x19, 0x00, 0x00, 0x00, 0x00, 0x3f,
    0x00, 0x1a, 0x1b, 0x1c, 0x1d, 0x1e, 0x1f, 0x20, 0x21, 0x22, 0x23, 0x24, 0x25, 0x26, 0x27, 0x28,
    0x29, 0x2a, 0x2b, 0x2c, 0x2d, 0x2e, 0x2f, 0x30, 0x31, 0x32, 0x33, 0x00, 0x00, 0x00, 0x00, 0x00,
    0x00, 0x00, 0x00, 0x00, 0x00, 0x00, 0x00, 0x00, 0x00, 0x00, 0x00, 0x00, 0x00, 0x00, 0x00, 0x00,
    0x00, 0x00, 0x00, 0x00, 0x00, 0x00, 0x00, 0x00, 0x00, 0x00, 0x00, 0x00, 0x00, 0x00, 0x00, 0x00,
    0x00, 0x00, 0x00, 0x00, 0x00, 0x00, 0x00, 0x00, 0x00, 0x00, 0x00, 0x00, 0x00, 0x00, 0x00, 0x00,
    0x00, 0x00, 0x00, 0x00, 0x00, 0x00, 0x00, 0x00, 0x00, 0x00, 0x00, 0x00, 0x00, 0x00, 0x00, 0x00,
    0x00, 0x00, 0x00, 0x00, 0x00, 0x00, 0x00, 0x00, 0x00, 0x00, 0x00, 0x00, 0x00, 0x00, 0x00, 0x00,
    0x00, 0x00, 0x00, 0x00, 0x00, 0x00, 0x00, 0x00, 0x00, 0x00, 0x00, 0x00, 0x00, 0x00, 0x00, 0x00,
    0x00, 0x00, 0x00, 0x00, 0x00, 0x00, 0x00, 0x00, 0x00, 0x00, 0x00, 0x00, 0x00, 0x00, 0x00, 0x00,
    0x00, 0x00, 0x00, 0x00, 0x00, 0x00, 0x00, 0x00, 0x00, 0x00, 0x00, 0x00, 0x00, 0x00, 0x00, 0x00 ]

/-- Embedding of `base64url_to_int`: `return tbl[c]` over a 256-entry table. -/
def base64url_to_int (c : Nat) : Option Nat := base64url_to_int_tbl[c]?

/-- Table `tbl[0x40]` of `int_to_bf64`. -/
def int_to_bf64_tbl : List Nat :=
  [ 0x2e, 0x2f, 0x41, 0x42, 0x43, 0x44, 0x45, 0x46, 0x47, 0x48, 0x49, 0x4a, 0x4b, 0x4c, 0x4d, 0x4e,
    0x4f, 0x50, 0x51, 0x52, 0x53, 0x54, 0x55, 0x56, 0x57, 0x58, 0x59, 0x5a, 0x61, 0x62, 0x63, 0x64,
    0x65, 0x66, 0x67, 0x68, 0x69, 0x6a, 0x6b, 0x6c, 0x6d, 0x6e, 0x6f, 0x70, 0x71, 0x72, 0x73, 0x74,
    0x75, 0x76, 0x77, 0x78, 0x79, 0x7a, 0x30, 0x31, 0x32, 0x33, 0x34, 0x35, 0x36, 0x37, 0x38, 0x39 ]

/-- Embedding of `int_to_bf64`: `return tbl[c]` over a 64-entry table. -/
def int_to_bf64 (c : Nat) : Option Nat := int_to_bf64_tbl[c]?

/-- Table `tbl[0x100]` of `bf64_to_int`. -/
def bf64_to_int_tbl : List Nat :=
  [ 0x00, 0x00, 0x00, 0x00, 0x00, 0x00, 0x00, 0x00, 0x00, 0x00, 0x00, 0x00, 0x00, 0x00, 0x00, 0x00,
    0x00, 0x00, 0x00, 0x00, 0x00, 0x00, 0x00, 0x00, 0x00, 0x00, 0x00, 0x00, 0x00, 0x00, 0x00, 0x00,
    0x00, 0x00, 0x00, 0x00, 0x00, 0x00, 0x00, 0x00, 0x00, 0x00, 0x00, 0x00, 0x00, 0x00, 0x00, 0x01,
    0x36, 0x37, 0x38, 0x39, 0x3a, 0x3b, 0x3c, 0x3d, 0x3e, 0x3f, 0x00, 0x00, 0x00, 0x00, 0x00, 0x00,
    0x00, 0x02, 0x03, 0x04, 0x05, 0x06, 0x07, 0x08, 0x09, 0x0a, 0x0b, 0x0c, 0x0d, 0x0e, 0x0f, 0x10,
    0x11, 0x12, 0x13, 0x14, 0x15, 0x16, 0x17, 0x18, 0x19, 0x1a, 0x1b, 0x00, 0x00, 0x00, 0x00, 0x00,
    0x00, 0x1c, 0x1d, 0x1e, 0x1f, 0x20, 0x21, 0x22, 0x23, 0x24, 0x25, 0x26, 0x27, 0x28, 0x29, 0x2a,
    0x2b, 0x2c, 0x2d, 0x2e, 0x2f, 0x30, 0x31, 0x32, 0x33, 0x34, 0x35, 0x00, 0x00, 0x00, 0x00, 0x00,
    0x00, 0x00, 0x00, 0x00, 0x00, 0x00, 0x00, 0x00, 0x00, 0x00, 0x00, 0x00, 0x00, 0x00, 0x00, 0x00,
    0x00, 0x00, 0x00, 0x00, 0x00, 0x00, 0x00, 0x00, 0x00, 0x00, 0x00, 0x00, 0x00, 0x00, 0x00, 0x00,
    0x00, 0x00, 0x00, 0x00, 0x00, 0x00, 0x00, 0x00, 0x00, 0x00, 0x00, 0x00, 0x00, 0x00, 0x00, 0x00,
    0x00, 0x00, 0x00, 0x00, 0x00, 0x00, 0x00, 0x00, 0x00, 0x00, 0x00, 0x00, 0x00, 0x00, 0x00, 0x00,
    0x00, 0x00, 0x00, 0x00, 0x00, 0x00, 0x00, 0x00, 0x00, 0x00, 0x00, 0x00, 0x00, 0x00, 0x00, 0x00,
    0x00, 0x00, 0x00, 0x00, 0x00, 0x00, 0x00, 0x00, 0x00, 0x00, 0x00, 0x00, 0x00, 0x00, 0x00, 0x00,
    0x00, 0x00, 0x00, 0x00, 0x00, 0x00, 0x00, 0x00, 0x00, 0x00, 0x00, 0x00, 0x00, 0x00, 0x00, 0x00,
    0x00, 0x00, 0x00, 0x00, 0x00, 0x00, 0x00, 0x00, 0x00, 0x00, 0x00, 0x00, 0x00, 0x00, 0x00, 0x00 ]

/-- Embedding of `bf64_to_int`: `return tbl[c]` over a 256-entry table. -/
def bf64_to_int (c : Nat) : Option Nat := bf64_to_int_tbl[c]?

/-- Embedding of `int_to_lotus64`; the sums are computed in `int` and returned
as `u8`. -/
def int_to_lotus64 (c : Nat) : Option Nat :=
  if c < 10 then some ((0x30 + c) % 256)
  else if c < 36 then some ((0x41 + c - 10) % 256)
  else if c < 62 then some ((0x61 + c - 36) % 256)
  else if c = 62 then some 0x2b
  else if c = 63 then some 0x2f
  else some 0

/-- Embedding of `lotus64_to_int`. -/
def lotus64_to_int (c : Nat) : Option Nat :=
  if c ≥ 0x30 ∧ c ≤ 0x39 then some (c - 0x30)
  else if c ≥ 0x41 ∧ c ≤ 0x5a then some (c - 0x41 + 10)
  else if c ≥ 0x61 ∧ c ≤ 0x7a then some (c - 0x61 + 36)
  else if c = 0x2b then some 62
  else if c = 0x2f then some 63
  else some 0

/-! ## Generic bit-packing transcoder (`convert.c` lines 656-830) -/

/-- The scan `for (i = 0; i < in_len; i++, tmp_len++) { if (in_buf[i] != '=') continue; break; }`
shared by `base32_decode` and `base64_decode`: the value of `tmp_len` when the
loop ends. -/
def decode_tmp_len : List Nat → Nat
  | [] => 0
  | c :: rest => if c ≠ 0x3d then decode_tmp_len rest + 1 else 0

/-- Write `buf[i] = v` inside the region of the output buffer filled so far;
`none` when `i` lies outside that region. -/
def poke (buf : List Nat) (i v : Nat) : Option (List Nat) :=
  if i < buf.length then some (buf.set i v) else none

/-- The value of `INT_MAX`, the largest `int`. -/
def INT_MAX : Nat := 2 ^ 31 - 1

/-- The initial `int out_len = (int) (((0.5 + in_len) * 8) / bits)` of the two
encoders (`bits` is 5 or 6). The product is `8 * in_len + 4` exactly in double
precision and the conversion truncates the quotient, giving the integer
quotient of `8 * in_len + 4` by `bits`; `none` when that does not fit an `int`
(the conversion is then undefined). -/
def encode_out_len (bits in_len : Nat) : Option Nat :=
  if (8 * in_len + 4) / bits ≤ INT_MAX then some ((8 * in_len + 4) / bits) else none

/-- The loop `while (out_len % k) { out_buf[out_len] = '='; out_len++; }` of the
two encoders (`k` is 4 or 8); it runs fewer than `k` times, `fuel` bounds the
number of iterations. `none`: a store outside the bytes written by the main
loop, or `out_len++` overflowing `int`. -/
def encode_pad (k : Nat) : Nat → List Nat → Nat → Option (List Nat × Nat)
  | 0, out_buf, out_len => if out_len % k ≠ 0 then none else some (out_buf, out_len)
  | fuel + 1, out_buf, out_len =>
    if out_len % k ≠ 0 then
      if out_len + 1 ≤ INT_MAX then
        (poke out_buf out_len 0x3d).bind fun out_buf => encode_pad k fuel out_buf (out_len + 1)
      else none
    else some (out_buf, out_len)

/-- Body of the loop of `base32_decode` on the eight input bytes `f0 .. f7`:
the five bytes stored at `out_ptr[0 .. 5)`. -/
def base32_decode_group (f : Nat → Option Nat) (f0 f1 f2 f3 f4 f5 f6 f7 : Nat) :
    Option (List Nat) := do
  let out_val0 ← f (f0 &&& 0x7f)
  let out_val1 ← f (f1 &&& 0x7f)
  let out_val2 ← f (f2 &&& 0x7f)
  let out_val3 ← f (f3 &&& 0x7f)
  let out_val4 ← f (f4 &&& 0x7f)
  let out_val5 ← f (f5 &&& 0x7f)
  let out_val6 ← f (f6 &&& 0x7f)
  let out_val7 ← f (f7 &&& 0x7f)
  pure
    [ ((out_val0 <<< 3) &&& 0xf8) ||| ((out_val1 >>> 2) &&& 0x07),
      ((out_val1 <<< 6) &&& 0xc0) ||| ((out_val2 <<< 1) &&& 0x3e) ||| ((out_val3 >>> 4) &&& 0x01),
      ((out_val3 <<< 4) &&& 0xf0) ||| ((out_val4 >>> 1) &&& 0x0f),
      ((out_val4 <<< 7) &&& 0x80) ||| ((out_val5 <<< 2) &&& 0x7c) ||| ((out_val6 >>> 3) &&& 0x03),
      ((out_val6 <<< 5) &&& 0xe0) ||| ((out_val7 >>> 0) &&& 0x1f) ]

/-- The main loop of `base32_decode`. The argument is the input from `in_ptr` to
the end of the buffer, so `(i + k) < in_len ? in_ptr[k] : 0` is the `k`-th
element of the list, or 0 when the list is shorter; the result is everything
stored through `out_ptr`. -/
def base32_decode_loop (f : Nat → Option Nat) : List Nat → Option (List Nat)
  | [] => some []
  | [f0] => base32_decode_group f f0 0 0 0 0 0 0 0
  | [f0, f1] => base32_decode_group f f0 f1 0 0 0 0 0 0
  | [f0, f1, f2] => base32_decode_group f f0 f1 f2 0 0 0 0 0
  | [f0, f1, f2, f3] => base32_decode_group f f0 f1 f2 f3 0 0 0 0
  | [f0, f1, f2, f3, f4] => base32_decode_group f f0 f1 f2 f3 f4 0 0 0
  | [f0, f1, f2, f3, f4, f5] => base32_decode_group f f0 f1 f2 f3 f4 f5 0 0
  | [f0, f1, f2, f3, f4, f5, f6] => base32_decode_group f f0 f1 f2 f3 f4 f5 f6 0
  | f0 :: f1 :: f2 :: f3 :: f4 :: f5 :: f6 :: f7 :: rest => do
    let g ← base32_decode_group f f0 f1 f2 f3 f4 f5 f6 f7
    let r ← base32_decode_loop f rest
    pure (g ++ r)

/-- Embedding of `base32_decode`: the bytes stored in `out_buf` and the returned
`out_len = (tmp_len * 5) / 8`. -/
def base32_decode (f : Nat → Option Nat) (in_buf : List Nat) : Option (List Nat × Nat) := do
  let out_buf ← base32_decode_loop f in_buf
  pure (out_buf, (decode_tmp_len in_buf * 5) / 8)

/-- Body of the loop of `base32_encode` on the five input bytes `f0 .. f4`:
the eight symbols stored at `out_ptr[0 .. 8)`. -/
def base32_encode_group (f : Nat → Option Nat) (f0 f1 f2 f3 f4 : Nat) : Option (List Nat) := do
  let out_val0 ← f ((f0 >>> 3) &&& 0x1f)
  let out_val1 ← f (((f0 <<< 2) &&& 0x1c) ||| ((f1 >>> 6) &&& 0x03))
  let out_val2 ← f ((f1 >>> 1) &&& 0x1f)
  let out_val3 ← f (((f1 <<< 4) &&& 0x10) ||| ((f2 >>> 4) &&& 0x0f))
  let out_val4 ← f (((f2 <<< 1) &&& 0x1e) ||| ((f3 >>> 7) &&& 0x01))
  let out_val5 ← f ((f3 >>> 2) &&& 0x1f)
  let out_val6 ← f (((f3 <<< 3) &&& 0x18) ||| ((f4 >>> 5) &&& 0x07))
  let out_val7 ← f ((f4 >>> 0) &&& 0x1f)
  pure
    [ out_val0 &&& 0x7f, out_val1 &&& 0x7f, out_val2 &&& 0x7f, out_val3 &&& 0x7f,
      out_val4 &&& 0x7f, out_val5 &&& 0x7f, out_val6 &&& 0x7f, out_val7 &&& 0x7f ]

/-- The main loop of `base32_encode`, on the input from `in_ptr` to the end of
the buffer (missing bytes of the last group read as 0). -/
def base32_encode_loop (f : Nat → Option Nat) : List Nat → Option (List Nat)
  | [] => some []
  | [f0] => base32_encode_group f f0 0 0 0 0
  | [f0, f1] => base32_encode_group f f0 f1 0 0 0
  | [f0, f1, f2] => base32_encode_group f f0 f1 f2 0 0
  | [f0, f1, f2, f3] => base32_encode_group f f0 f1 f2 f3 0
  | f0 :: f1 :: f2 :: f3 :: f4 :: rest => do
    let g ← base32_encode_group f f0 f1 f2 f3 f4
    let r ← base32_encode_loop f rest
    pure (g ++ r)

/-- Embedding of `base32_encode`: the symbols left in `out_buf` and the returned
`out_len`. -/
def base32_encode (f : Nat → Option Nat) (in_buf : List Nat) : Option (List Nat × Nat) := do
  let out_buf ← base32_encode_loop f in_buf
  let out_len ← encode_out_len 5 in_buf.length
  encode_pad 8 8 out_buf out_len

/-- Body of the loop of `base64_decode` on the four input bytes `f0 .. f3`:
the three bytes stored at `out_ptr[0 .. 3)`. -/
def base64_decode_group (f : Nat → Option Nat) (f0 f1 f2 f3 : Nat) : Option (List Nat) := do
  let out_val0 ← f (f0 &&& 0x7f)
  let out_val1 ← f (f1 &&& 0x7f)
  let out_val2 ← f (f2 &&& 0x7f)
  let out_val3 ← f (f3 &&& 0x7f)
  pure
    [ ((out_val0 <<< 2) &&& 0xfc) ||| ((out_val1 >>> 4) &&& 0x03),
      ((out_val1 <<< 4) &&& 0xf0) ||| ((out_val2 >>> 2) &&& 0x0f),
      ((out_val2 <<< 6) &&& 0xc0) ||| ((out_val3 >>> 0) &&& 0x3f) ]

/-- The main loop of `base64_decode`, on the input from `in_ptr` to the end of
the buffer (missing bytes of the last group read as 0). -/
def base64_decode_loop (f : Nat → Option Nat) : List Nat → Option (List Nat)
  | [] => some []
  | [f0] => base64_decode_group f f0 0 0 0
  | [f0, f1] => base64_decode_group f f0 f1 0 0
  | [f0, f1, f2] => base64_decode_group f f0 f1 f2 0
  | f0 :: f1 :: f2 :: f3 :: rest => do
    let g ← base64_decode_group f f0 f1 f2 f3
    let r ← base64_decode_loop f rest
    pure (g ++ r)

/-- Embedding of `base64_decode`: the bytes stored in `out_buf` and the returned
`out_len = (tmp_len * 6) / 8`. -/
def base64_decode (f : Nat → Option Nat) (in_buf : List Nat) : Option (List Nat × Nat) := do
  let out_buf ← base64_decode_loop f in_buf
  pure (out_buf, (decode_tmp_len in_buf * 6) / 8)

/-- Body of the loop of `base64_encode` on the three input bytes `f0 f1 f2`:
the four symbols stored at `out_ptr[0 .. 4)`. -/
def base64_encode_group (f : Nat → Option Nat) (f0 f1 f2 : Nat) : Option (List Nat) := do
  let out_val0 ← f ((f0 >>> 2) &&& 0x3f)
  let out_val1 ← f (((f0 <<< 4) &&& 0x30) ||| ((f1 >>> 4) &&& 0x0f))
  let out_val2 ← f (((f1 <<< 2) &&& 0x3c) ||| ((f2 >>> 6) &&& 0x03))
  let out_val3 ← f ((f2 >>> 0) &&& 0x3f)
  pure [out_val0 &&& 0x7f, out_val1 &&& 0x7f, out_val2 &&& 0x7f, out_val3 &&& 0x7f]

/-- The main loop of `base64_encode`, on the input from `in_ptr` to the end of
the buffer (missing bytes of the last group read as 0). -/
def base64_encode_loop (f : Nat → Option Nat) : List Nat → Option (List Nat)
  | [] => some []
  | [f0] => base64_encode_group f f0 0 0
  | [f0, f1] => base64_encode_group f f0 f1 0
  | f0 :: f1 :: f2 :: rest => do
    let g ← base64_encode_group f f0 f1 f2
    let r ← base64_encode_loop f rest
    pure (g ++ r)

/-- Embedding of `base64_encode`: the symbols left in `out_buf` and the returned
`out_len`. -/
def base64_encode (f : Nat → Option Nat) (in_buf : List Nat) : Option (List Nat × Nat) := do
  let out_buf ← base64_encode_loop f in_buf
  let out_len ← encode_out_len 6 in_buf.length
  encode_pad 4 4 out_buf out_len

/-! ## Hex nibbles (`convert.c` lines 293-398) -/

/-- Embedding of `is_valid_hex_char`. -/
def is_valid_hex_char (c : Nat) : Bool :=
  if c ≥ 0x30 ∧ c ≤ 0x39 then true
  else if c ≥ 0x41 ∧ c ≤ 0x46 then true
  else if c ≥ 0x61 ∧ c ≤ 0x66 then true
  else false

/-- Embedding of `is_valid_hex_string`: the loop returns `false` at the first
byte that is not a hex digit. -/
def is_valid_hex_string : List Nat → Bool
  | [] => true
  | c :: rest => if is_valid_hex_char c = false then false else is_valid_hex_string rest

/-- Embedding of `hex_convert`; the sum is computed in `int` and returned as
`u8`. -/
def hex_convert (c : Nat) : Nat := ((c &&& 15) + (c >>> 6) * 9) % 256

/-- Embedding of `hex_to_u8` on the two bytes `hex[0]`, `hex[1]`; each `v |= ...`
stores into a `u8`. -/
def hex_to_u8 (hex0 hex1 : Nat) : Nat :=
  let v := 0
  let v := (v ||| (hex_convert hex1 <<< 0)) % 256
  let v := (v ||| (hex_convert hex0 <<< 4)) % 256
  v

/-- Table `tbl[0x10]` of `u8_to_hex`. -/
def u8_to_hex_tbl : List Nat :=
  [ 0x30, 0x31, 0x32, 0x33, 0x34, 0x35, 0x36, 0x37, 0x38, 0x39,
    0x61, 0x62, 0x63, 0x64, 0x65, 0x66 ]

/-- Embedding of `u8_to_hex`: the two bytes `hex[0]`, `hex[1]` it stores. Both
indices are masked with `& 15`, inside the 16-entry table. -/
def u8_to_hex (v : Nat) : List Nat :=
  [ u8_to_hex_tbl.getD ((v >>> 4) &&& 15) 0, u8_to_hex_tbl.getD ((v >>> 0) &&& 15) 0 ]

/-! ## UTF-8 scanner and printability (`convert.c` lines 30-126) -/

/-- Table `cp_types[256]` of `printable_utf8`. -/
def cp_types : List Int :=
  [ -1, -1, -1, -1, -1, -1, -1, -1, -1, -1, -1, -1, -1, -1, -1, -1,
    -1, -1, -1, -1, -1, -1, -1, -1, -1, -1, -1, -1, -1, -1, -1, -1,
     0,  0,  0,  0,  0,  0,  0,  0,  0,  0,  0,  0,  0,  0,  0,  0,
     0,  0,  0,  0,  0,  0,  0,  0,  0,  0,  0,  0,  0,  0,  0,  0,
     0,  0,  0,  0,  0,  0,  0,  0,  0,  0,  0,  0,  0,  0,  0,  0,
     0,  0,  0,  0,  0,  0,  0,  0,  0,  0,  0,  0,  0,  0,  0,  0,
     0,  0,  0,  0,  0,  0,  0,  0,  0,  0,  0,  0,  0,  0,  0,  0,
     0,  0,  0,  0,  0,  0,  0,  0,  0,  0,  0,  0,  0,  0,  0,  0,
    -1, -1, -1, -1, -1, -1, -1, -1, -1, -1, -1, -1, -1, -1, -1, -1,
    -1, -1, -1, -1, -1, -1, -1, -1, -1, -1, -1, -1, -1, -1, -1, -1,
    -1, -1, -1, -1, -1, -1, -1, -1, -1, -1, -1, -1, -1, -1, -1, -1,
    -1, -1, -1, -1, -1, -1, -1, -1, -1, -1, -1, -1, -1, -1, -1, -1,
    -1, -1,  1,  1,  1,  1,  1,  1,  1,  1,  1,  1,  1,  1,  1,  1,
     1,  1,  1,  1,  1,  1,  1,  1,  1,  1,  1,  1,  1,  1,  1,  1,
     2,  3,  3,  3,  3,  3,  3,  3,  3,  3,  3,  3,  3,  4,  5,  5,
     6,  7,  7,  7,  8, -1, -1, -1, -1, -1, -1, -1, -1, -1, -1, -1 ]

/-- Table `cp_lens[9]` of `printable_utf8`. -/
def cp_lens : List Nat := [1, 2, 3, 3, 3, 3, 4, 4, 4]

/-- The `switch (cp_type)` on the second byte `c1` of a sequence: `true` when the
selected case executes `return false`. -/
def utf8_c1_rejected (cp_type : Int) (c1 : Nat) : Bool :=
  if cp_type = 2 then decide (c1 < 0xa0 ∨ c1 > 0xbf)
  else if cp_type = 4 then decide (c1 < 0x80 ∨ c1 > 0x9f)
  else if cp_type = 6 then decide (c1 < 0x90 ∨ c1 > 0xbf)
  else if cp_type = 8 then decide (c1 < 0x80 ∨ c1 > 0x8f)
  else decide (c1 < 0x80 ∨ c1 > 0xbf)

/-- The inner loop `for (j = 2; j < cp_len; j++) { pos++; cx = buf[pos]; ... }`
with `n = cp_len - j` iterations left. `none`: a read outside `buf`;
`some none`: the loop executes `return false`; `some (some p)`: the loop ends
with `pos = p`. -/
def utf8_tail (buf : List Nat) : Nat → Nat → Option (Option Nat)
  | 0, pos => some (some pos)
  | n + 1, pos =>
    match buf[pos + 1]? with
    | none => none
    | some cx =>
      if cx < 0x80 ∨ cx > 0xbf then some none else utf8_tail buf n (pos + 1)

/-- The outer loop `for (pos = 0; pos < len; pos++)` of `printable_utf8`, entered
at the test `pos < len`. Every iteration advances `pos`, so `len` iterations
suffice and `fuel` counts them down. `none`: a read outside `buf` or outside a
table. -/
def printable_utf8_loop (buf : List Nat) : Nat → Nat → Option Bool
  | 0, pos => if pos < buf.length then none else some true
  | fuel + 1, pos =>
    if pos < buf.length then
      match buf[pos]? with
      | none => none
      | some c0 =>
        match cp_types[c0]? with
        | none => none
        | some cp_type =>
          if cp_type = -1 then some false
          else
            match cp_lens[cp_type.toNat]? with
            | none => none
            | some cp_len =>
              if pos + cp_len > buf.length then some false
              else if cp_len ≥ 2 then
                match buf[pos + 1]? with
                | none => none
                | some c1 =>
                  if utf8_c1_rejected cp_type c1 then some false
                  else
                    match utf8_tail buf (cp_len - 2) (pos + 1) with
                    | none => none
                    | some none => some false
                    | some (some pos) => printable_utf8_loop buf fuel (pos + 1)
              else printable_utf8_loop buf fuel (pos + 1)
    else some true

/-- Embedding of `printable_utf8`. -/
def printable_utf8 (buf : List Nat) : Option Bool :=
  printable_utf8_loop buf buf.length 0

/-- Embedding of `printable_ascii`. -/
def printable_ascii : List Nat → Bool
  | [] => true
  | c :: rest =>
    if c < 0x20 then false
    else if c > 0x7e then false
    else printable_ascii rest

/-- The conversion `(char) buf[i]` of a byte to a (signed) `char`. -/
def to_char (b : Nat) : Int :=
  if b % 256 < 128 then (b % 256 : Nat) else ((b % 256 : Nat) : Int) - 256

/-- Embedding of `matches_separator`; `separator` is a `char`. -/
def matches_separator : List Nat → Int → Bool
  | [], _ => false
  | b :: rest, separator =>
    if to_char b = separator then true else matches_separator rest separator

/-! ## Escaping policy (`convert.c` lines 128-216) -/

/-- Embedding of `is_hexify`. After the two length tests every index read is
inside the buffer. -/
def is_hexify (buf : List Nat) : Bool :=
  let len := buf.length
  if len < 6 then false
  else if (len &&& 1) = 1 then false
  else if buf[0]? ≠ some 0x24 then false
  else if buf[1]? ≠ some 0x48 then false
  else if buf[2]? ≠ some 0x45 then false
  else if buf[3]? ≠ some 0x58 then false
  else if buf[4]? ≠ some 0x5b then false
  else if buf[len - 1]? ≠ some 0x5d then false
  else if is_valid_hex_string ((buf.drop 5).take (len - 6)) = false then false
  else true

/-- The loop `for (i = 0, j = 5; j < in_len - 1; i += 1, j += 2)` of
`exec_unhexify`, on the input from `in_buf + j` to the end of the buffer: for a
non-empty buffer the test `j < in_len - 1` holds exactly when two more bytes are
left. The result is what is stored at `out_buf[i ..]`. -/
def exec_unhexify_loop : List Nat → List Nat
  | hex0 :: hex1 :: rest => hex_to_u8 hex0 hex1 :: exec_unhexify_loop rest
  | _ => []

/-- Embedding of `exec_unhexify`: the contents of `out_buf[0 .. out_sz)` and the
returned count. `none` stands for undefined behaviour: with `in_len = 0` the
bound `in_len - 1` wraps around and `in_buf[5]` is read outside the buffer; with
fewer than `i` bytes of capacity the stores overflow `out_buf` and `out_sz - i`
wraps around. -/
def exec_unhexify (in_buf : List Nat) (out_sz : Nat) : Option (List Nat × Nat) :=
  if in_buf.length = 0 then none
  else
    let out := exec_unhexify_loop (in_buf.drop 5)
    let i := out.length
    if out_sz < i then none
    else some (out ++ List.replicate (out_sz - i) 0, i)

/-- Embedding of `need_hexify`; `separator` is a `char`. The result is `none`
only when `printable_utf8` is. -/
def need_hexify (buf : List Nat) (separator : Int) (always_ascii : Bool) : Option Bool := do
  let rc := false
  let rc ←
    if always_ascii = true then
      pure (if printable_ascii buf = false then true else rc)
    else do
      let p ← printable_utf8 buf
      pure (if p = false then true else rc)
  let rc :=
    if rc = false then (if matches_separator buf separator = true then true else rc) else rc
  let rc :=
    if rc = false then (if is_hexify buf then true else rc) else rc
  pure rc

/-- The loop `for (i = max_len - 1, j = i * 2; i >= 0; i -= 1, j -= 2)` of
`exec_hexify`: the first argument is `i + 1`, the second the bytes already
stored at `out[2 * (i + 1) ..]`; `i` stays below `max_len <= len`. -/
def exec_hexify_loop (buf : List Nat) : Nat → List Nat → List Nat
  | 0, out => out
  | i + 1, out => exec_hexify_loop buf i (u8_to_hex (buf.getD i 0) ++ out)

/-- Embedding of `exec_hexify`: the bytes stored at `out[0 .. 2 * max_len]`, the
last one being the terminating `out[max_len * 2] = 0`. `PW_MAX` is a constant of
`types.h`, taken as a parameter. -/
def exec_hexify (PW_MAX : Nat) (buf : List Nat) : List Nat :=
  let len := buf.length
  let max_len := if len > PW_MAX then PW_MAX else len
  exec_hexify_loop buf max_len [] ++ [0]

/-- Modelled from the spec: the escape envelope of `buf`, laid out by the callers
of `exec_hexify` (which are outside `convert.c`): the five bytes `$HEX[`, the
hex digits `exec_hexify` stores for `buf`, and the byte `]`. -/
def hex_envelope (PW_MAX : Nat) (buf : List Nat) : List Nat :=
  [0x24, 0x48, 0x45, 0x58, 0x5b] ++ (exec_hexify PW_MAX buf).dropLast ++ [0x5d]

/-! ## Hex words and hex strings (`convert.c` lines 348-442 and 898-916) -/

/-- Embedding of `hex_to_u32` on the bytes `hex[0 .. 8)`. Every operand is a
`u32`, so a shifted digit is reduced modulo `2 ^ 32`. `none`: fewer than eight
bytes to read. -/
def hex_to_u32 : List Nat → Option Nat
  | hex0 :: hex1 :: hex2 :: hex3 :: hex4 :: hex5 :: hex6 :: hex7 :: _ =>
    let v := 0
    let v := v ||| ((hex_convert hex1 <<< 0) % 2 ^ 32)
    let v := v ||| ((hex_convert hex0 <<< 4) % 2 ^ 32)
    let v := v ||| ((hex_convert hex3 <<< 8) % 2 ^ 32)
    let v := v ||| ((hex_convert hex2 <<< 12) % 2 ^ 32)
    let v := v ||| ((hex_convert hex5 <<< 16) % 2 ^ 32)
    let v := v ||| ((hex_convert hex4 <<< 20) % 2 ^ 32)
    let v := v ||| ((hex_convert hex7 <<< 24) % 2 ^ 32)
    let v := v ||| ((hex_convert hex6 <<< 28) % 2 ^ 32)
    some v
  | _ => none

/-- Embedding of `hex_to_u64` on the bytes `hex[0 .. 16)`. Every operand is a
`u64`, so a shifted digit is reduced modulo `2 ^ 64`. `none`: fewer than sixteen
bytes to read. -/
def hex_to_u64 : List Nat → Option Nat
  | hex0 :: hex1 :: hex2 :: hex3 :: hex4 :: hex5 :: hex6 :: hex7 ::
      hex8 :: hex9 :: hex10 :: hex11 :: hex12 :: hex13 :: hex14 :: hex15 :: _ =>
    let v := 0
    let v := v ||| ((hex_convert hex1 <<< 0) % 2 ^ 64)
    let v := v ||| ((hex_convert hex0 <<< 4) % 2 ^ 64)
    let v := v ||| ((hex_convert hex3 <<< 8) % 2 ^ 64)
    let v := v ||| ((hex_convert hex2 <<< 12) % 2 ^ 64)
    let v := v ||| ((hex_convert hex5 <<< 16) % 2 ^ 64)
    let v := v ||| ((hex_convert hex4 <<< 20) % 2 ^ 64)
    let v := v ||| ((hex_convert hex7 <<< 24) % 2 ^ 64)
    let v := v ||| ((hex_convert hex6 <<< 28) % 2 ^ 64)
    let v := v ||| ((hex_convert hex9 <<< 32) % 2 ^ 64)
    let v := v ||| ((hex_convert hex8 <<< 36) % 2 ^ 64)
    let v := v ||| ((hex_convert hex11 <<< 40) % 2 ^ 64)
    let v := v ||| ((hex_convert hex10 <<< 44) % 2 ^ 64)
    let v := v ||| ((hex_convert hex13 <<< 48) % 2 ^ 64)
    let v := v ||| ((hex_convert hex12 <<< 52) % 2 ^ 64)
    let v := v ||| ((hex_convert hex15 <<< 56) % 2 ^ 64)
    let v := v ||| ((hex_convert hex14 <<< 60) % 2 ^ 64)
    some v
  | _ => none

/-- Embedding of `u32_to_hex`: the eight bytes `hex[0 .. 8)` it stores (its
table is the table of `u8_to_hex`). -/
def u32_to_hex (v : Nat) : List Nat :=
  [ u8_to_hex_tbl.getD ((v >>> 4) &&& 15) 0, u8_to_hex_tbl.getD ((v >>> 0) &&& 15) 0,
    u8_to_hex_tbl.getD ((v >>> 12) &&& 15) 0, u8_to_hex_tbl.getD ((v >>> 8) &&& 15) 0,
    u8_to_hex_tbl.getD ((v >>> 20) &&& 15) 0, u8_to_hex_tbl.getD ((v >>> 16) &&& 15) 0,
    u8_to_hex_tbl.getD ((v >>> 28) &&& 15) 0, u8_to_hex_tbl.getD ((v >>> 24) &&& 15) 0 ]

/-- Embedding of `u64_to_hex`: the sixteen bytes `hex[0 .. 16)` it stores (its
table is the table of `u8_to_hex`). -/
def u64_to_hex (v : Nat) : List Nat :=
  [ u8_to_hex_tbl.getD ((v >>> 4) &&& 15) 0, u8_to_hex_tbl.getD ((v >>> 0) &&& 15) 0,
    u8_to_hex_tbl.getD ((v >>> 12) &&& 15) 0, u8_to_hex_tbl.getD ((v >>> 8) &&& 15) 0,
    u8_to_hex_tbl.getD ((v >>> 20) &&& 15) 0, u8_to_hex_tbl.getD ((v >>> 16) &&& 15) 0,
    u8_to_hex_tbl.getD ((v >>> 28) &&& 15) 0, u8_to_hex_tbl.getD ((v >>> 24) &&& 15) 0,
    u8_to_hex_tbl.getD ((v >>> 36) &&& 15) 0, u8_to_hex_tbl.getD ((v >>> 32) &&& 15) 0,
    u8_to_hex_tbl.getD ((v >>> 44) &&& 15) 0, u8_to_hex_tbl.getD ((v >>> 40) &&& 15) 0,
    u8_to_hex_tbl.getD ((v >>> 52) &&& 15) 0, u8_to_hex_tbl.getD ((v >>> 48) &&& 15) 0,
    u8_to_hex_tbl.getD ((v >>> 60) &&& 15) 0, u8_to_hex_tbl.getD ((v >>> 56) &&& 15) 0 ]

/-- The loop `for (i = 0, j = 0; i < in_len; i += 2, j += 1)` of `hex_decode`, on
the input from `in_buf + i` to the end of the buffer: the bytes stored at
`out_buf[j ..]`. `none`: with one byte left, `hex_to_u8` reads `in_buf[i + 1]`
outside the buffer. -/
def hex_decode_loop : List Nat → Option (List Nat)
  | [] => some []
  | [_] => none
  | hex0 :: hex1 :: rest => (hex_decode_loop rest).map fun out => hex_to_u8 hex0 hex1 :: out

/-- Embedding of `hex_decode`: the bytes stored in `out_buf` and the returned
`in_len / 2`. The length is an `int`. -/
def hex_decode (in_buf : List Nat) : Option (List Nat × Nat) :=
  if in_buf.length ≤ INT_MAX then
    (hex_decode_loop in_buf).map fun out => (out, in_buf.length / 2)
  else none

/-- The loop `for (i = 0, j = 0; i < in_len; i += 1, j += 2)` of `hex_encode`: the
bytes stored in `out_buf`. -/
def hex_encode_loop : List Nat → List Nat
  | [] => []
  | v :: rest => u8_to_hex v ++ hex_encode_loop rest

/-- Embedding of `hex_encode`: the bytes stored in `out_buf` and the returned
`in_len * 2`, an `int`. -/
def hex_encode (in_buf : List Nat) : Option (List Nat × Nat) :=
  if in_buf.length * 2 ≤ INT_MAX then some (hex_encode_loop in_buf, in_buf.length * 2)
  else none

/-! ## Vocabulary of the specification -/

/-- The lowercase hex digit of a nibble `d < 16`: `0`-`9`, then `a`-`f`. -/
def lower_hex_digit (d : Nat) : Nat := if d < 10 then 0x30 + d else 0x61 + (d - 10)

/-- The lowercase hex text of a byte sequence: two digits per byte, high nibble
first. -/
def lower_hex : List Nat → List Nat
  | [] => []
  | b :: rest => lower_hex_digit (b / 16 % 16) :: lower_hex_digit (b % 16) :: lower_hex rest

/-- A hex digit: `0`-`9`, `a`-`f` or `A`-`F`. -/
def hex_digit (c : Nat) : Prop :=
  (0x30 ≤ c ∧ c ≤ 0x39) ∨ (0x61 ≤ c ∧ c ≤ 0x66) ∨ (0x41 ≤ c ∧ c ≤ 0x46)

instance (c : Nat) : Decidable (hex_digit c) := by unfold hex_digit; infer_instance

/-- Table 3-7, "Well-Formed UTF-8 Byte Sequences" (quoted at the top of
`convert.c`): one row per code point range, each row the inclusive range of
the first, second, third and fourth byte. -/
def utf8_table_3_7 : List (List (Nat × Nat)) :=
  [ [(0x00, 0x7F)],
    [(0xC2, 0xDF), (0x80, 0xBF)],
    [(0xE0, 0xE0), (0xA0, 0xBF), (0x80, 0xBF)],
    [(0xE1, 0xEC), (0x80, 0xBF), (0x80, 0xBF)],
    [(0xED, 0xED), (0x80, 0x9F), (0x80, 0xBF)],
    [(0xEE, 0xEF), (0x80, 0xBF), (0x80, 0xBF)],
    [(0xF0, 0xF0), (0x90, 0xBF), (0x80, 0xBF), (0x80, 0xBF)],
    [(0xF1, 0xF3), (0x80, 0xBF), (0x80, 0xBF), (0x80, 0xBF)],
    [(0xF4, 0xF4), (0x80, 0x8F), (0x80, 0xBF), (0x80, 0xBF)] ]

/-- A byte sequence matches a row of the table: as many bytes as the row has
ranges, each byte inside its range. -/
def matches_row : List (Nat × Nat) → List Nat → Bool
  | [], [] => true
  | r :: row, b :: s => decide (r.1 ≤ b ∧ b ≤ r.2) && matches_row row s
  | _, _ => false

/-- Well-formed UTF-8: the empty buffer, or a sequence matching one row of
Table 3-7 followed by well-formed UTF-8. -/
inductive well_formed_utf8 : List Nat → Prop
  | nil : well_formed_utf8 []
  | seq (row : List (Nat × Nat)) (s rest : List Nat) :
      row ∈ utf8_table_3_7 → matches_row row s = true → well_formed_utf8 rest →
      well_formed_utf8 (s ++ rest)

/-- What `cp_types` holds: the class of a lead byte fixes its range. -/
def cp_type_range (c0 : Nat) (t : Int) : Prop :=
  (t = -1 ∧ (c0 < 0x20 ∨ (0x80 ≤ c0 ∧ c0 ≤ 0xc1) ∨ 0xf5 ≤ c0)) ∨
  (t = 0 ∧ 0x20 ≤ c0 ∧ c0 ≤ 0x7f) ∨ (t = 1 ∧ 0xc2 ≤ c0 ∧ c0 ≤ 0xdf) ∨
  (t = 2 ∧ c0 = 0xe0) ∨ (t = 3 ∧ 0xe1 ≤ c0 ∧ c0 ≤ 0xec) ∨ (t = 4 ∧ c0 = 0xed) ∨
  (t = 5 ∧ 0xee ≤ c0 ∧ c0 ≤ 0xef) ∨ (t = 6 ∧ c0 = 0xf0) ∨
  (t = 7 ∧ 0xf1 ≤ c0 ∧ c0 ≤ 0xf3) ∨ (t = 8 ∧ c0 = 0xf4)

instance (c0 : Nat) (t : Int) : Decidable (cp_type_range c0 t) := by
  unfold cp_type_range; infer_instance

/-- An alphabet pair inverts on the first `n` indices: `to_symbol i` is defined
and `from_symbol` maps it back to `i`. -/
def alphabet_inverse (n : Nat) (to_symbol from_symbol : Nat → Option Nat) : Prop :=
  ∀ i, i < n → (to_symbol i).bind from_symbol = some i

instance (n : Nat) (t f : Nat → Option Nat) : Decidable (alphabet_inverse n t f) := by
  unfold alphabet_inverse; infer_instance

/-- What the generic transcoder needs of an alphabet pair on the index `i`:
`to_symbol i` is a 7-bit symbol other than the pad `=` and `from_symbol` maps it
back to `i`. -/
def symbol_ok (to_symbol from_symbol : Nat → Option Nat) (i : Nat) : Bool :=
  match to_symbol i with
  | some s => decide (s < 128) && decide (s ≠ 0x3d) && decide (from_symbol s = some i)
  | none => false

/-- An alphabet pair with `n` symbols that the generic transcoder can use:
every index below `n` is `symbol_ok` and `from_symbol` is defined on the pad
symbol `=`, with a `u8` value. -/
def codec_alphabet (n : Nat) (to_symbol from_symbol : Nat → Option Nat) : Prop :=
  (∀ i, i < n → symbol_ok to_symbol from_symbol i = true) ∧
  ∃ w, w < 256 ∧ from_symbol 0x3d = some w

/-- Round trip of an encoder/decoder pair at the input `x` for the alphabet
functions `to_symbol` and `from_symbol`: the encoder stores `out` and returns
`m`, the decoder applied to `out[0 .. m)` returns the length of `x`, and the
first bytes it stores are `x`. -/
def round_trip (encode decode : (Nat → Option Nat) → List Nat → Option (List Nat × Nat))
    (to_symbol from_symbol : Nat → Option Nat) (x : List Nat) : Prop :=
  ∃ out m dec, encode to_symbol x = some (out, m) ∧
    decode from_symbol (out.take m) = some (dec, x.length) ∧ dec.take x.length = x

/-- Zero fallback of an alphabet pair with `n` symbols: every byte that is not
the symbol of an index below `n` is mapped to 0 by `from_symbol`. -/
def zero_fallback (n : Nat) (to_symbol from_symbol : Nat → Option Nat) : Prop :=
  ∀ c, c < 256 → (∀ i, i < n → to_symbol i ≠ some c) → from_symbol c = some 0

/-- A check that implies the zero fallback at the byte `c`: `from_symbol c` is 0,
or it is an index below `n` whose symbol is `c`. -/
def fallback_ok (n : Nat) (to_symbol from_symbol : Nat → Option Nat) (c : Nat) : Bool :=
  match from_symbol c with
  | some v => v == 0 || (decide (v < n) && to_symbol v == some c)
  | none => false

/-- The eight bits of a byte, most significant first. -/
def byte_bits (b : Nat) : List Nat :=
  [b / 128 % 2, b / 64 % 2, b / 32 % 2, b / 16 % 2, b / 8 % 2, b / 4 % 2, b / 2 % 2, b % 2]

/-- The input `x` followed by the zero bytes that complete its last group of
`g` bytes. -/
def zero_fill (g : Nat) (x : List Nat) : List Nat :=
  x ++ List.replicate ((g - x.length % g) % g) 0

/-- The bit string of `x`: the bits of its bytes, most significant first,
followed by zero bits up to the end of the last group of `g` bytes. -/
def bit_string (g : Nat) (x : List Nat) : List Nat :=
  (zero_fill g x).flatMap byte_bits

/-- The number written by a list of bits, most significant first. -/
def bits_value (bits : List Nat) : Nat :=
  bits.foldl (fun acc b => 2 * acc + b) 0

/-- The `w`-bit value formed by the bits `[w * k, w * k + w)` of a bit string. -/
def bit_slice (w : Nat) (bits : List Nat) (k : Nat) : Nat :=
  bits_value ((bits.drop (w * k)).take w)

/-- The value of a hex digit of either letter case. -/
def hex_digit_value (c : Nat) : Nat :=
  if 0x30 ≤ c ∧ c ≤ 0x39 then c - 0x30
  else if 0x61 ≤ c ∧ c ≤ 0x66 then c - 0x61 + 10
  else c - 0x41 + 10

/-- An alphabet function with `n` symbols and nothing else: the symbol of an
index `i < n` is `i` itself, and any other argument is a read outside its
table. -/
def table_probe (n : Nat) (i : Nat) : Option Nat := if i < n then some i else none

/-- A symbol of the standard base64 alphabet: `A`-`Z`, `a`-`z`, `0`-`9`, `+` or
`/` (not the pad `=`). -/
def base64_symbol (c : Nat) : Prop :=
  (0x41 ≤ c ∧ c ≤ 0x5a) ∨ (0x61 ≤ c ∧ c ≤ 0x7a) ∨ (0x30 ≤ c ∧ c ≤ 0x39) ∨ c = 0x2b ∨ c = 0x2f

instance (c : Nat) : Decidable (base64_symbol c) := by unfold base64_symbol; infer_instance

/-- A symbol of the URL-safe base64 alphabet: `A`-`Z`, `a`-`z`, `0`-`9`, `-` or
`_` (not the pad `=`). -/
def base64url_symbol (c : Nat) : Prop :=
  (0x41 ≤ c ∧ c ≤ 0x5a) ∨ (0x61 ≤ c ∧ c ≤ 0x7a) ∨ (0x30 ≤ c ∧ c ≤ 0x39) ∨ c = 0x2d ∨ c = 0x5f

instance (c : Nat) : Decidable (base64url_symbol c) := by unfold base64url_symbol; infer_instance

/-- What the reverse round trip needs of an alphabet pair on the symbol `c`: `c`
is a 7-bit byte other than the pad `=`, `from_symbol` maps it to an index below
64 and `to_symbol` maps that index back to `c`. -/
def symbol_inverts (to_symbol from_symbol : Nat → Option Nat) (c : Nat) : Bool :=
  match from_symbol (c &&& 0x7f) with
  | some w =>
    decide (w < 64) && decide (to_symbol w = some c) && decide (c &&& 0x7f = c) &&
      decide (c ≠ 0x3d)
  | none => false

/-! ## Properties -/

/-! ### Hex nibbles and the escape envelope -/

theorem is_valid_hex_char_iff (c : Nat) : is_valid_hex_char c = true ↔ hex_digit c := by
  unfold is_valid_hex_char hex_digit
  split_ifs <;> simp <;> omega

theorem is_valid_hex_string_iff (s : List Nat) :
    is_valid_hex_string s = true ↔ ∀ c ∈ s, hex_digit c := by
  induction s with
  | nil => simp [is_valid_hex_string]
  | cons c rest ih =>
    rw [is_valid_hex_string, List.forall_mem_cons, ← ih, ← is_valid_hex_char_iff]
    cases is_valid_hex_char c <;> simp

theorem u8_to_hex_eq (v : Nat) :
    u8_to_hex v = [lower_hex_digit (v / 16 % 16), lower_hex_digit (v % 16)] := by
  have h1 : (v >>> 4) &&& 15 = v / 16 % 16 := by
    rw [Nat.shiftRight_eq_div_pow]; exact Nat.and_pow_two_sub_one_eq_mod _ 4
  have h2 : (v >>> 0) &&& 15 = v % 16 := by
    rw [Nat.shiftRight_eq_div_pow]; simpa using Nat.and_pow_two_sub_one_eq_mod v 4
  have key : ∀ d, d < 16 → u8_to_hex_tbl.getD d 0 = lower_hex_digit d := by decide
  unfold u8_to_hex
  rw [h1, h2, key _ (Nat.mod_lt _ (by norm_num)), key _ (Nat.mod_lt _ (by norm_num))]

theorem exec_hexify_loop_eq (buf : List Nat) :
    ∀ (i : Nat) (out : List Nat), i ≤ buf.length →
      exec_hexify_loop buf i out = lower_hex (buf.take i) ++ out := by
  intro i
  induction i with
  | zero => intro out _; simp [exec_hexify_loop, lower_hex]
  | succ i ih =>
    intro out hi
    have hlt : i < buf.length := hi
    have hsnoc : ∀ (l : List Nat) (b : Nat), lower_hex (l ++ [b]) = lower_hex l ++ u8_to_hex b := by
      intro l b
      induction l with
      | nil => simp [lower_hex, u8_to_hex_eq]
      | cons a l ihl => simp [lower_hex, ihl]
    have htake : buf.take (i + 1) = buf.take i ++ [buf[i]] := by
      rw [List.take_succ, List.getElem?_eq_getElem hlt]; rfl
    rw [exec_hexify_loop, ih _ (Nat.le_of_lt hlt), htake, hsnoc, List.getD_eq_getElem _ _ hlt,
      List.append_assoc]

theorem exec_hexify_eq (PW_MAX : Nat) (buf : List Nat) :
    exec_hexify PW_MAX buf = lower_hex (buf.take (min buf.length PW_MAX)) ++ [0] := by
  unfold exec_hexify
  simp only []
  have hm : (if buf.length > PW_MAX then PW_MAX else buf.length) = min buf.length PW_MAX := by
    split_ifs <;> omega
  have hle : min buf.length PW_MAX ≤ buf.length := Nat.min_le_left _ _
  rw [hm]
  have := exec_hexify_loop_eq buf _ [] hle
  rw [this, List.append_nil]

theorem hex_envelope_eq (PW_MAX : Nat) (buf : List Nat) :
    hex_envelope PW_MAX buf =
      [0x24, 0x48, 0x45, 0x58, 0x5b] ++ lower_hex (buf.take (min buf.length PW_MAX)) ++ [0x5d] := by
  unfold hex_envelope
  rw [exec_hexify_eq]
  simp

theorem length_lower_hex (l : List Nat) : (lower_hex l).length = 2 * l.length := by
  induction l with
  | nil => rfl
  | cons a l ih => simp [lower_hex, ih]; omega

theorem lower_hex_digit_is_hex : ∀ d, d < 16 → hex_digit (lower_hex_digit d) := by decide

theorem lower_hex_all_hex (l : List Nat) : ∀ c ∈ lower_hex l, hex_digit c := by
  induction l with
  | nil => simp [lower_hex]
  | cons a l ih =>
    intro c hc
    simp only [lower_hex, List.mem_cons] at hc
    rcases hc with h | h | h
    · subst h; exact lower_hex_digit_is_hex _ (Nat.mod_lt _ (by norm_num))
    · subst h; exact lower_hex_digit_is_hex _ (Nat.mod_lt _ (by norm_num))
    · exact ih c h

theorem forall_mem_take_drop (l : List Nat) (a n : Nat) (P : Nat → Prop) :
    (∀ c ∈ (l.drop a).take n, P c) ↔ ∀ i c, a ≤ i → i < a + n → l[i]? = some c → P c := by
  constructor
  · intro h i c hai hin hc
    apply h
    rw [List.mem_iff_getElem?]
    refine ⟨i - a, ?_⟩
    rw [List.getElem?_take_of_lt (by omega), List.getElem?_drop]
    rw [show a + (i - a) = i by omega]
    exact hc
  · intro h c hc
    rw [List.mem_iff_getElem?] at hc
    obtain ⟨j, hj⟩ := hc
    by_cases hjn : j < n
    · rw [List.getElem?_take_of_lt hjn, List.getElem?_drop] at hj
      exact h (a + j) c (by omega) (by omega) hj
    · rw [List.getElem?_take_eq_none (by omega)] at hj
      cases hj

theorem is_hexify_iff :
    (∀ buf : List Nat,
      is_hexify buf = true ↔
        (6 ≤ buf.length ∧ buf.length % 2 = 0 ∧
          buf.take 5 = [0x24, 0x48, 0x45, 0x58, 0x5b] ∧
          buf[buf.length - 1]? = some 0x5d ∧
          ∀ i c, 5 ≤ i → i < buf.length - 1 → buf[i]? = some c → hex_digit c)) := by
  intro buf
  have hint : is_valid_hex_string ((buf.drop 5).take (buf.length - 6)) = true ↔
      ∀ i c, 5 ≤ i → i < buf.length - 1 → buf[i]? = some c → hex_digit c := by
    rw [is_valid_hex_string_iff, forall_mem_take_drop]
    constructor
    · intro h i c h1 h2 h3
      exact h i c h1 (by omega) h3
    · intro h i c h1 h2 h3
      have hi : i < buf.length := by
        by_contra hge
        rw [List.getElem?_eq_none (by omega)] at h3
        cases h3
      exact h i c h1 (by omega) h3
  rw [← hint]
  unfold is_hexify
  simp only [Nat.and_one_is_mod]
  generalize is_valid_hex_string ((buf.drop 5).take (buf.length - 6)) = v
  rcases buf with _ | ⟨a, _ | ⟨b, _ | ⟨c, _ | ⟨d, _ | ⟨e, _ | ⟨f, rest⟩⟩⟩⟩⟩⟩
  · simp
  · simp
  · simp
  · simp
  · simp
  · simp
  · have hlen : (a :: b :: c :: d :: e :: f :: rest).length = rest.length + 6 := rfl
    rw [hlen]
    have h6 : ¬ rest.length + 6 < 6 := by omega
    rcases Nat.mod_two_eq_zero_or_one (rest.length + 6) with hpar | hpar
    · have hpar1 : ¬ (rest.length + 6) % 2 = 1 := by omega
      cases v <;> simp [h6, hpar, hpar1]
      tauto
    · simp [h6, hpar]

/-- C8: `is_hexify` accepts exactly the escape envelopes: a length of at least 6
that is even, the prefix `$HEX[`, the last byte `]`, and hex digits (of either
letter case) at every index from 5 to `len - 2`. `$HEX[]` and `$HEX[41]` are
accepted, `$HEX[4` is rejected. -/
theorem C8_is_hexify_iff :
    (∀ buf : List Nat,
      is_hexify buf = true ↔
        (6 ≤ buf.length ∧ buf.length % 2 = 0 ∧
          buf.take 5 = [0x24, 0x48, 0x45, 0x58, 0x5b] ∧
          buf[buf.length - 1]? = some 0x5d ∧
          ∀ i c, 5 ≤ i → i < buf.length - 1 → buf[i]? = some c → hex_digit c)) ∧
    is_hexify [0x24, 0x48, 0x45, 0x58, 0x5b, 0x5d] = true ∧
    is_hexify [0x24, 0x48, 0x45, 0x58, 0x5b, 0x34, 0x31, 0x5d] = true ∧
    is_hexify [0x24, 0x48, 0x45, 0x58, 0x5b, 0x34] = false :=
  ⟨is_hexify_iff, by decide, by decide, by decide⟩

/-- C9 (as stated, refuted): on the empty buffer `exec_hexify` stores the single
terminating byte 0, not the six bytes `$HEX[]`. -/
theorem C9_counterexample :
    exec_hexify 256 [] = [0] ∧
    exec_hexify 256 [] ≠ [0x24, 0x48, 0x45, 0x58, 0x5b] ++ lower_hex [] ++ [0x5d] := by
  decide

/-- C9 (amended): for every buffer, `exec_hexify` stores the lowercase hex digits
of the first `min (len, PW_MAX)` bytes, two per byte and high nibble first,
followed by one terminating byte 0; it stores no `$HEX[` and no `]`. -/
theorem C9_exec_hexify_digits (PW_MAX : Nat) (buf : List Nat) :
    exec_hexify PW_MAX buf = lower_hex (buf.take (min buf.length PW_MAX)) ++ [0] ∧
    (exec_hexify PW_MAX buf).length = 2 * min buf.length PW_MAX + 1 := by
  refine ⟨exec_hexify_eq PW_MAX buf, ?_⟩
  rw [exec_hexify_eq, List.length_append, length_lower_hex, List.length_take]
  simp

theorem hex_to_u8_lower_hex :
    ∀ b, b < 256 → hex_to_u8 (lower_hex_digit (b / 16 % 16)) (lower_hex_digit (b % 16)) = b := by
  decide

theorem exec_unhexify_loop_lower_hex (x : List Nat) (hx : ∀ b ∈ x, b < 256) (t : Nat) :
    exec_unhexify_loop (lower_hex x ++ [t]) = x := by
  induction x with
  | nil => simp [lower_hex, exec_unhexify_loop]
  | cons a l ih =>
    have ha : a < 256 := hx a (List.mem_cons_self _ _)
    have hl : ∀ b ∈ l, b < 256 := fun b hb => hx b (List.mem_cons_of_mem _ hb)
    have := ih hl
    simp only [lower_hex, List.cons_append, exec_unhexify_loop, hex_to_u8_lower_hex a ha]
    exact congrArg _ this

/-- C3: escape round trip. For a byte buffer `x` no longer than `PW_MAX` and an
output capacity of at least `|x|`, `exec_unhexify` applied to the envelope
`$HEX[` + digits stored by `exec_hexify` + `]` returns `|x|` and the first `|x|`
bytes of its output are `x`. -/
theorem C3_escape_round_trip (PW_MAX : Nat) (x : List Nat) (out_sz : Nat)
    (hx : ∀ b ∈ x, b < 256) (hlen : x.length ≤ PW_MAX) (hsz : x.length ≤ out_sz) :
    ∃ out, exec_unhexify (hex_envelope PW_MAX x) out_sz = some (out, x.length) ∧
      out.take x.length = x := by
  have henv : hex_envelope PW_MAX x = [0x24, 0x48, 0x45, 0x58, 0x5b] ++ (lower_hex x ++ [0x5d]) := by
    rw [hex_envelope_eq, Nat.min_eq_left hlen, List.take_length, List.append_assoc]
  have hdrop : (hex_envelope PW_MAX x).drop 5 = lower_hex x ++ [0x5d] := by
    rw [henv]; rfl
  have hne : (hex_envelope PW_MAX x).length ≠ 0 := by
    rw [henv]; simp
  refine ⟨x ++ List.replicate (out_sz - x.length) 0, ?_, ?_⟩
  · unfold exec_unhexify
    rw [if_neg hne, hdrop, exec_unhexify_loop_lower_hex x hx]
    simp only []
    rw [if_neg (by omega)]
  · exact List.take_left _ _

/-- Witness for C3 at `x = "A"`, `PW_MAX = 256`, capacity 4. -/
theorem C3_escape_round_trip_witness :
    (∀ b ∈ [0x41], b < 256) ∧ [0x41].length ≤ 256 ∧ [0x41].length ≤ 4 ∧
    ∃ out, exec_unhexify (hex_envelope 256 [0x41]) 4 = some (out, [0x41].length) ∧
      out.take [0x41].length = [0x41] :=
  ⟨by decide, by decide, by decide,
    C3_escape_round_trip 256 [0x41] 4 (by decide) (by decide) (by decide)⟩

/-! ### The UTF-8 scanner -/

theorem cp_types_length : cp_types.length = 256 := by decide

theorem cp_types_getD_range : ∀ c0, c0 < 256 → cp_type_range c0 (cp_types.getD c0 0) := by
  decide

theorem cp_types_range (c0 : Nat) (t : Int) (h : cp_types[c0]? = some t) : cp_type_range c0 t := by
  have hlt : c0 < 256 := by
    by_contra hge
    rw [List.getElem?_eq_none (by rw [cp_types_length]; omega)] at h
    cases h
  have := cp_types_getD_range c0 hlt
  rwa [List.getD_eq_getElem?_getD, h] at this

theorem cp_types_isSome (c0 : Nat) (h : c0 < 256) : ∃ t, cp_types[c0]? = some t := by
  have hl : c0 < cp_types.length := by rw [cp_types_length]; exact h
  exact ⟨_, List.getElem?_eq_getElem hl⟩

theorem drop_two (buf : List Nat) (pos : Nat) (h : pos + 1 < buf.length) :
    buf.drop pos = [buf[pos], buf[pos + 1]] ++ buf.drop (pos + 2) := by
  rw [List.drop_eq_getElem_cons (by omega), List.drop_eq_getElem_cons h]; rfl

theorem drop_three (buf : List Nat) (pos : Nat) (h : pos + 2 < buf.length) :
    buf.drop pos = [buf[pos], buf[pos + 1], buf[pos + 2]] ++ buf.drop (pos + 3) := by
  rw [List.drop_eq_getElem_cons (by omega), List.drop_eq_getElem_cons (by omega),
    List.drop_eq_getElem_cons h]; rfl

theorem drop_four (buf : List Nat) (pos : Nat) (h : pos + 3 < buf.length) :
    buf.drop pos = [buf[pos], buf[pos + 1], buf[pos + 2], buf[pos + 3]] ++ buf.drop (pos + 4) := by
  rw [List.drop_eq_getElem_cons (by omega), List.drop_eq_getElem_cons (by omega),
    List.drop_eq_getElem_cons (by omega), List.drop_eq_getElem_cons h]; rfl

theorem printable_utf8_loop_sound (buf : List Nat) :
    ∀ fuel pos, printable_utf8_loop buf fuel pos = some true → well_formed_utf8 (buf.drop pos) := by
  intro fuel
  induction fuel with
  | zero =>
    intro pos h
    rw [printable_utf8_loop] at h
    split_ifs at h with hpos
    rw [List.drop_eq_nil_of_le (by omega)]
    exact well_formed_utf8.nil
  | succ fuel ih =>
    intro pos h
    rw [printable_utf8_loop] at h
    by_cases hpos : pos < buf.length
    · rw [if_pos hpos, List.getElem?_eq_getElem hpos] at h
      simp only at h
      cases htype : cp_types[buf[pos]]? with
      | none => rw [htype] at h; cases h
      | some t =>
        rw [htype] at h
        simp only at h
        rcases cp_types_range _ _ htype with ⟨ht, hr⟩ | ⟨ht, hr⟩ | ⟨ht, hr⟩ | ⟨ht, hr⟩ | ⟨ht, hr⟩ |
          ⟨ht, hr⟩ | ⟨ht, hr⟩ | ⟨ht, hr⟩ | ⟨ht, hr⟩ | ⟨ht, hr⟩
        all_goals subst ht
        all_goals simp [cp_lens, utf8_c1_rejected, utf8_tail, Nat.add_assoc] at h
        · -- one byte
          rw [if_neg (by omega)] at h
          rw [List.drop_eq_getElem_cons hpos]
          exact well_formed_utf8.seq [(0x00, 0x7F)] [buf[pos]] _ (by simp [utf8_table_3_7])
            (by simp [matches_row]; omega) (ih _ h)
        · -- two bytes
          by_cases hlen : buf.length < pos + 2
          · rw [if_pos hlen] at h; cases h
          rw [if_neg hlen] at h
          have h1 : pos + 1 < buf.length := by omega
          simp only [List.getElem?_eq_getElem h1] at h
          by_cases hc1 : buf[pos + 1] < 128 ∨ 191 < buf[pos + 1]
          · rw [if_pos hc1] at h; cases h
          rw [if_neg hc1] at h
          rw [drop_two buf pos h1]
          exact well_formed_utf8.seq [(0xC2, 0xDF), (0x80, 0xBF)] _ _ (by simp [utf8_table_3_7])
            (by simp [matches_row]; omega) (ih _ h)
        · by_cases hlen : buf.length < pos + 3
          · rw [if_pos hlen] at h; cases h
          rw [if_neg hlen] at h
          have h1 : pos + 1 < buf.length := by omega
          have h2 : pos + 2 < buf.length := by omega
          simp only [List.getElem?_eq_getElem h1, List.getElem?_eq_getElem h2] at h
          by_cases hc1 : buf[pos + 1] < 160 ∨ 191 < buf[pos + 1]
          · rw [if_pos hc1] at h; cases h
          rw [if_neg hc1] at h
          by_cases hc2 : buf[pos + 2] < 128 ∨ 191 < buf[pos + 2]
          · rw [if_pos hc2] at h; cases h
          rw [if_neg hc2] at h
          simp only at h
          rw [drop_three buf pos h2]
          exact well_formed_utf8.seq [(0xE0, 0xE0), (0xA0, 0xBF), (0x80, 0xBF)] _ _
            (by simp [utf8_table_3_7]) (by simp [matches_row]; omega) (ih _ h)
        · by_cases hlen : buf.length < pos + 3
          · rw [if_pos hlen] at h; cases h
          rw [if_neg hlen] at h
          have h1 : pos + 1 < buf.length := by omega
          have h2 : pos + 2 < buf.length := by omega
          simp only [List.getElem?_eq_getElem h1, List.getElem?_eq_getElem h2] at h
          by_cases hc1 : buf[pos + 1] < 128 ∨ 191 < buf[pos + 1]
          · rw [if_pos hc1] at h; cases h
          rw [if_neg hc1] at h
          by_cases hc2 : buf[pos + 2] < 128 ∨ 191 < buf[pos + 2]
          · rw [if_pos hc2] at h; cases h
          rw [if_neg hc2] at h
          simp only at h
          rw [drop_three buf pos h2]
          exact well_formed_utf8.seq [(0xE1, 0xEC), (0x80, 0xBF), (0x80, 0xBF)] _ _
            (by simp [utf8_table_3_7]) (by simp [matches_row]; omega) (ih _ h)
        · by_cases hlen : buf.length < pos + 3
          · rw [if_pos hlen] at h; cases h
          rw [if_neg hlen] at h
          have h1 : pos + 1 < buf.length := by omega
          have h2 : pos + 2 < buf.length := by omega
          simp only [List.getElem?_eq_getElem h1, List.getElem?_eq_getElem h2] at h
          by_cases hc1 : buf[pos + 1] < 128 ∨ 159 < buf[pos + 1]
          · rw [if_pos hc1] at h; cases h
          rw [if_neg hc1] at h
          by_cases hc2 : buf[pos + 2] < 128 ∨ 191 < buf[pos + 2]
          · rw [if_pos hc2] at h; cases h
          rw [if_neg hc2] at h
          simp only at h
          rw [drop_three buf pos h2]
          exact well_formed_utf8.seq [(0xED, 0xED), (0x80, 0x9F), (0x80, 0xBF)] _ _
            (by simp [utf8_table_3_7]) (by simp [matches_row]; omega) (ih _ h)
        · by_cases hlen : buf.length < pos + 3
          · rw [if_pos hlen] at h; cases h
          rw [if_neg hlen] at h
          have h1 : pos + 1 < buf.length := by omega
          have h2 : pos + 2 < buf.length := by omega
          simp only [List.getElem?_eq_getElem h1, List.getElem?_eq_getElem h2] at h
          by_cases hc1 : buf[pos + 1] < 128 ∨ 191 < buf[pos + 1]
          · rw [if_pos hc1] at h; cases h
          rw [if_neg hc1] at h
          by_cases hc2 : buf[pos + 2] < 128 ∨ 191 < buf[pos + 2]
          · rw [if_pos hc2] at h; cases h
          rw [if_neg hc2] at h
          simp only at h
          rw [drop_three buf pos h2]
          exact well_formed_utf8.seq [(0xEE, 0xEF), (0x80, 0xBF), (0x80, 0xBF)] _ _
            (by simp [utf8_table_3_7]) (by simp [matches_row]; omega) (ih _ h)
        · by_cases hlen : buf.length < pos + 4
          · rw [if_pos hlen] at h; cases h
          rw [if_neg hlen] at h
          have h1 : pos + 1 < buf.length := by omega
          have h2 : pos + 2 < buf.length := by omega
          have h3 : pos + 3 < buf.length := by omega
          simp only [List.getElem?_eq_getElem h1, List.getElem?_eq_getElem h2,
            List.getElem?_eq_getElem h3] at h
          by_cases hc1 : buf[pos + 1] < 144 ∨ 191 < buf[pos + 1]
          · rw [if_pos hc1] at h; cases h
          rw [if_neg hc1] at h
          by_cases hc2 : buf[pos + 2] < 128 ∨ 191 < buf[pos + 2]
          · rw [if_pos hc2] at h; cases h
          rw [if_neg hc2] at h
          by_cases hc3 : buf[pos + 3] < 128 ∨ 191 < buf[pos + 3]
          · rw [if_pos hc3] at h; cases h
          rw [if_neg hc3] at h
          simp only at h
          rw [drop_four buf pos h3]
          exact well_formed_utf8.seq [(0xF0, 0xF0), (0x90, 0xBF), (0x80, 0xBF), (0x80, 0xBF)] _ _
            (by simp [utf8_table_3_7]) (by simp [matches_row]; omega) (ih _ h)
        · by_cases hlen : buf.length < pos + 4
          · rw [if_pos hlen] at h; cases h
          rw [if_neg hlen] at h
          have h1 : pos + 1 < buf.length := by omega
          have h2 : pos + 2 < buf.length := by omega
          have h3 : pos + 3 < buf.length := by omega
          simp only [List.getElem?_eq_getElem h1, List.getElem?_eq_getElem h2,
            List.getElem?_eq_getElem h3] at h
          by_cases hc1 : buf[pos + 1] < 128 ∨ 191 < buf[pos + 1]
          · rw [if_pos hc1] at h; cases h
          rw [if_neg hc1] at h
          by_cases hc2 : buf[pos + 2] < 128 ∨ 191 < buf[pos + 2]
          · rw [if_pos hc2] at h; cases h
          rw [if_neg hc2] at h
          by_cases hc3 : buf[pos + 3] < 128 ∨ 191 < buf[pos + 3]
          · rw [if_pos hc3] at h; cases h
          rw [if_neg hc3] at h
          simp only at h
          rw [drop_four buf pos h3]
          exact well_formed_utf8.seq [(0xF1, 0xF3), (0x80, 0xBF), (0x80, 0xBF), (0x80, 0xBF)] _ _
            (by simp [utf8_table_3_7]) (by simp [matches_row]; omega) (ih _ h)
        · by_cases hlen : buf.length < pos + 4
          · rw [if_pos hlen] at h; cases h
          rw [if_neg hlen] at h
          have h1 : pos + 1 < buf.length := by omega
          have h2 : pos + 2 < buf.length := by omega
          have h3 : pos + 3 < buf.length := by omega
          simp only [List.getElem?_eq_getElem h1, List.getElem?_eq_getElem h2,
            List.getElem?_eq_getElem h3] at h
          by_cases hc1 : buf[pos + 1] < 128 ∨ 143 < buf[pos + 1]
          · rw [if_pos hc1] at h; cases h
          rw [if_neg hc1] at h
          by_cases hc2 : buf[pos + 2] < 128 ∨ 191 < buf[pos + 2]
          · rw [if_pos hc2] at h; cases h
          rw [if_neg hc2] at h
          by_cases hc3 : buf[pos + 3] < 128 ∨ 191 < buf[pos + 3]
          · rw [if_pos hc3] at h; cases h
          rw [if_neg hc3] at h
          simp only at h
          rw [drop_four buf pos h3]
          exact well_formed_utf8.seq [(0xF4, 0xF4), (0x80, 0x8F), (0x80, 0xBF), (0x80, 0xBF)] _ _
            (by simp [utf8_table_3_7]) (by simp [matches_row]; omega) (ih _ h)
    · rw [if_neg hpos] at h
      rw [List.drop_eq_nil_of_le (by omega)]
      exact well_formed_utf8.nil

theorem getElem?_of_drop_eq (buf : List Nat) (pos : Nat) (s rest : List Nat)
    (h : buf.drop pos = s ++ rest) (k : Nat) (hk : k < s.length) : buf[pos + k]? = s[k]? := by
  rw [← List.getElem?_drop, h, List.getElem?_append_left hk]

theorem length_of_drop_eq (buf : List Nat) (pos : Nat) (s rest : List Nat)
    (h : buf.drop pos = s ++ rest) : buf.length - pos = s.length + rest.length := by
  rw [← List.length_drop, h, List.length_append]

theorem drop_of_drop_eq (buf : List Nat) (pos : Nat) (s rest : List Nat)
    (h : buf.drop pos = s ++ rest) : buf.drop (pos + s.length) = rest := by
  rw [← List.drop_drop, h, List.drop_left]

theorem cp_types_of_range (c0 : Nat) (t : Int) (ht : t ≠ -1) (h : cp_type_range c0 t) :
    cp_types[c0]? = some t := by
  have hlt : c0 < 256 := by unfold cp_type_range at h; omega
  obtain ⟨t1, h1⟩ := cp_types_isSome c0 hlt
  have h2 := cp_types_range c0 t1 h1
  have : t1 = t := by unfold cp_type_range at h h2; omega
  rw [h1, this]

theorem printable_utf8_loop_complete (buf : List Nat) :
    ∀ l, well_formed_utf8 l → (∀ b ∈ l, 0x20 ≤ b) →
      ∀ fuel pos, buf.drop pos = l → buf.length - pos ≤ fuel →
        printable_utf8_loop buf fuel pos = some true := by
  intro l hwf
  induction hwf with
  | nil =>
    intro _ fuel pos hdrop _
    have hlen : ¬ pos < buf.length := by
      have := congrArg List.length hdrop
      simp at this
      omega
    cases fuel <;> rw [printable_utf8_loop, if_neg hlen]
  | seq row s rest hrow hmatch _ ih =>
    intro hge fuel pos hdrop hfuel
    have hrest : ∀ b ∈ rest, 0x20 ≤ b := fun b hb => hge b (List.mem_append_right _ hb)
    have hlen := length_of_drop_eq buf pos s rest hdrop
    have hnext := drop_of_drop_eq buf pos s rest hdrop
    have hread := getElem?_of_drop_eq buf pos s rest hdrop
    simp only [utf8_table_3_7, List.mem_cons, List.mem_singleton, List.not_mem_nil, or_false] at hrow
    rcases hrow with rfl | rfl | rfl | rfl | rfl | rfl | rfl | rfl | rfl
    · rcases s with _ | ⟨c0, _ | ⟨c1, _ | ⟨c2, _ | ⟨c3, _ | ⟨c4, s⟩⟩⟩⟩⟩
      all_goals simp [matches_row] at hmatch
      have hc0 : 0x20 ≤ c0 := hge c0 (by simp)
      simp at hlen hnext
      have h0 := hread 0 (by simp)
      simp at h0
      cases fuel with
      | zero => omega
      | succ fuel =>
        have hty := cp_types_of_range c0 0 (by decide) (by unfold cp_type_range; omega)
        have hl : ¬ buf.length < pos + 1 := by omega
        rw [printable_utf8_loop, if_pos (by omega), h0]
        simp only [hty]
        simp [cp_lens, utf8_c1_rejected, utf8_tail, Nat.add_assoc, hl]
        exact ih hrest fuel (pos + 1) hnext (by omega)
    · rcases s with _ | ⟨c0, _ | ⟨c1, _ | ⟨c2, _ | ⟨c3, _ | ⟨c4, s⟩⟩⟩⟩⟩
      all_goals simp [matches_row] at hmatch
      have hc0 : 0x20 ≤ c0 := hge c0 (by simp)
      simp at hlen hnext
      have h0 := hread 0 (by simp)
      have h1 := hread 1 (by simp)
      simp at h0 h1
      cases fuel with
      | zero => omega
      | succ fuel =>
        have hty := cp_types_of_range c0 1 (by decide) (by unfold cp_type_range; omega)
        have hl : ¬ buf.length < pos + 2 := by omega
        have hb1 : ¬ (c1 < 128 ∨ 191 < c1) := by omega
        rw [printable_utf8_loop, if_pos (by omega), h0]
        simp only [hty]
        simp [cp_lens, utf8_c1_rejected, utf8_tail, Nat.add_assoc, hl, h1, hb1]
        exact ih hrest fuel (pos + 2) hnext (by omega)
    · rcases s with _ | ⟨c0, _ | ⟨c1, _ | ⟨c2, _ | ⟨c3, _ | ⟨c4, s⟩⟩⟩⟩⟩
      all_goals simp [matches_row] at hmatch
      have hc0 : 0x20 ≤ c0 := hge c0 (by simp)
      simp at hlen hnext
      have h0 := hread 0 (by simp)
      have h1 := hread 1 (by simp)
      have h2 := hread 2 (by simp)
      simp at h0 h1 h2
      cases fuel with
      | zero => omega
      | succ fuel =>
        have hty := cp_types_of_range c0 2 (by decide) (by unfold cp_type_range; omega)
        have hl : ¬ buf.length < pos + 3 := by omega
        have hb1 : ¬ (c1 < 160 ∨ 191 < c1) := by omega
        have hb2 : ¬ (c2 < 128 ∨ 191 < c2) := by omega
        rw [printable_utf8_loop, if_pos (by omega), h0]
        simp only [hty]
        simp [cp_lens, utf8_c1_rejected, utf8_tail, Nat.add_assoc, hl, h1, h2, hb1, hb2]
        exact ih hrest fuel (pos + 3) hnext (by omega)
    · rcases s with _ | ⟨c0, _ | ⟨c1, _ | ⟨c2, _ | ⟨c3, _ | ⟨c4, s⟩⟩⟩⟩⟩
      all_goals simp [matches_row] at hmatch
      have hc0 : 0x20 ≤ c0 := hge c0 (by simp)
      simp at hlen hnext
      have h0 := hread 0 (by simp)
      have h1 := hread 1 (by simp)
      have h2 := hread 2 (by simp)
      simp at h0 h1 h2
      cases fuel with
      | zero => omega
      | succ fuel =>
        have hty := cp_types_of_range c0 3 (by decide) (by unfold cp_type_range; omega)
        have hl : ¬ buf.length < pos + 3 := by omega
        have hb1 : ¬ (c1 < 128 ∨ 191 < c1) := by omega
        have hb2 : ¬ (c2 < 128 ∨ 191 < c2) := by omega
        rw [printable_utf8_loop, if_pos (by omega), h0]
        simp only [hty]
        simp [cp_lens, utf8_c1_rejected, utf8_tail, Nat.add_assoc, hl, h1, h2, hb1, hb2]
        exact ih hrest fuel (pos + 3) hnext (by omega)
    · rcases s with _ | ⟨c0, _ | ⟨c1, _ | ⟨c2, _ | ⟨c3, _ | ⟨c4, s⟩⟩⟩⟩⟩
      all_goals simp [matches_row] at hmatch
      have hc0 : 0x20 ≤ c0 := hge c0 (by simp)
      simp at hlen hnext
      have h0 := hread 0 (by simp)
      have h1 := hread 1 (by simp)
      have h2 := hread 2 (by simp)
      simp at h0 h1 h2
      cases fuel with
      | zero => omega
      | succ fuel =>
        have hty := cp_types_of_range c0 4 (by decide) (by unfold cp_type_range; omega)
        have hl : ¬ buf.length < pos + 3 := by omega
        have hb1 : ¬ (c1 < 128 ∨ 159 < c1) := by omega
        have hb2 : ¬ (c2 < 128 ∨ 191 < c2) := by omega
        rw [printable_utf8_loop, if_pos (by omega), h0]
        simp only [hty]
        simp [cp_lens, utf8_c1_rejected, utf8_tail, Nat.add_assoc, hl, h1, h2, hb1, hb2]
        exact ih hrest fuel (pos + 3) hnext (by omega)
    · rcases s with _ | ⟨c0, _ | ⟨c1, _ | ⟨c2, _ | ⟨c3, _ | ⟨c4, s⟩⟩⟩⟩⟩
      all_goals simp [matches_row] at hmatch
      have hc0 : 0x20 ≤ c0 := hge c0 (by simp)
      simp at hlen hnext
      have h0 := hread 0 (by simp)
      have h1 := hread 1 (by simp)
      have h2 := hread 2 (by simp)
      simp at h0 h1 h2
      cases fuel with
      | zero => omega
      | succ fuel =>
        have hty := cp_types_of_range c0 5 (by decide) (by unfold cp_type_range; omega)
        have hl : ¬ buf.length < pos + 3 := by omega
        have hb1 : ¬ (c1 < 128 ∨ 191 < c1) := by omega
        have hb2 : ¬ (c2 < 128 ∨ 191 < c2) := by omega
        rw [printable_utf8_loop, if_pos (by omega), h0]
        simp only [hty]
        simp [cp_lens, utf8_c1_rejected, utf8_tail, Nat.add_assoc, hl, h1, h2, hb1, hb2]
        exact ih hrest fuel (pos + 3) hnext (by omega)
    · rcases s with _ | ⟨c0, _ | ⟨c1, _ | ⟨c2, _ | ⟨c3, _ | ⟨c4, s⟩⟩⟩⟩⟩
      all_goals simp [matches_row] at hmatch
      have hc0 : 0x20 ≤ c0 := hge c0 (by simp)
      simp at hlen hnext
      have h0 := hread 0 (by simp)
      have h1 := hread 1 (by simp)
      have h2 := hread 2 (by simp)
      have h3 := hread 3 (by simp)
      simp at h0 h1 h2 h3
      cases fuel with
      | zero => omega
      | succ fuel =>
        have hty := cp_types_of_range c0 6 (by decide) (by unfold cp_type_range; omega)
        have hl : ¬ buf.length < pos + 4 := by omega
        have hb1 : ¬ (c1 < 144 ∨ 191 < c1) := by omega
        have hb2 : ¬ (c2 < 128 ∨ 191 < c2) := by omega
        have hb3 : ¬ (c3 < 128 ∨ 191 < c3) := by omega
        rw [printable_utf8_loop, if_pos (by omega), h0]
        simp only [hty]
        simp [cp_lens, utf8_c1_rejected, utf8_tail, Nat.add_assoc, hl, h1, h2, h3, hb1, hb2, hb3]
        exact ih hrest fuel (pos + 4) hnext (by omega)
    · rcases s with _ | ⟨c0, _ | ⟨c1, _ | ⟨c2, _ | ⟨c3, _ | ⟨c4, s⟩⟩⟩⟩⟩
      all_goals simp [matches_row] at hmatch
      have hc0 : 0x20 ≤ c0 := hge c0 (by simp)
      simp at hlen hnext
      have h0 := hread 0 (by simp)
      have h1 := hread 1 (by simp)
      have h2 := hread 2 (by simp)
      have h3 := hread 3 (by simp)
      simp at h0 h1 h2 h3
      cases fuel with
      | zero => omega
      | succ fuel =>
        have hty := cp_types_of_range c0 7 (by decide) (by unfold cp_type_range; omega)
        have hl : ¬ buf.length < pos + 4 := by omega
        have hb1 : ¬ (c1 < 128 ∨ 191 < c1) := by omega
        have hb2 : ¬ (c2 < 128 ∨ 191 < c2) := by omega
        have hb3 : ¬ (c3 < 128 ∨ 191 < c3) := by omega
        rw [printable_utf8_loop, if_pos (by omega), h0]
        simp only [hty]
        simp [cp_lens, utf8_c1_rejected, utf8_tail, Nat.add_assoc, hl, h1, h2, h3, hb1, hb2, hb3]
        exact ih hrest fuel (pos + 4) hnext (by omega)
    · rcases s with _ | ⟨c0, _ | ⟨c1, _ | ⟨c2, _ | ⟨c3, _ | ⟨c4, s⟩⟩⟩⟩⟩
      all_goals simp [matches_row] at hmatch
      have hc0 : 0x20 ≤ c0 := hge c0 (by simp)
      simp at hlen hnext
      have h0 := hread 0 (by simp)
      have h1 := hread 1 (by simp)
      have h2 := hread 2 (by simp)
      have h3 := hread 3 (by simp)
      simp at h0 h1 h2 h3
      cases fuel with
      | zero => omega
      | succ fuel =>
        have hty := cp_types_of_range c0 8 (by decide) (by unfold cp_type_range; omega)
        have hl : ¬ buf.length < pos + 4 := by omega
        have hb1 : ¬ (c1 < 128 ∨ 143 < c1) := by omega
        have hb2 : ¬ (c2 < 128 ∨ 191 < c2) := by omega
        have hb3 : ¬ (c3 < 128 ∨ 191 < c3) := by omega
        rw [printable_utf8_loop, if_pos (by omega), h0]
        simp only [hty]
        simp [cp_lens, utf8_c1_rejected, utf8_tail, Nat.add_assoc, hl, h1, h2, h3, hb1, hb2, hb3]
        exact ih hrest fuel (pos + 4) hnext (by omega)

theorem printable_utf8_loop_total (buf : List Nat) (hb : ∀ b ∈ buf, b < 256) :
    ∀ fuel pos, buf.length - pos ≤ fuel → printable_utf8_loop buf fuel pos ≠ none := by
  intro fuel
  induction fuel with
  | zero =>
    intro pos hfuel
    rw [printable_utf8_loop, if_neg (by omega)]; exact Option.some_ne_none _
  | succ fuel ih =>
    intro pos hfuel
    by_cases hpos : pos < buf.length
    · have hbyte : buf[pos] < 256 := hb _ (List.getElem_mem hpos)
      obtain ⟨t, htype⟩ := cp_types_isSome _ hbyte
      rw [printable_utf8_loop, if_pos hpos, List.getElem?_eq_getElem hpos]
      simp only [htype]
      rcases cp_types_range _ _ htype with ⟨ht, hr⟩ | ⟨ht, hr⟩ | ⟨ht, hr⟩ | ⟨ht, hr⟩ | ⟨ht, hr⟩ |
        ⟨ht, hr⟩ | ⟨ht, hr⟩ | ⟨ht, hr⟩ | ⟨ht, hr⟩ | ⟨ht, hr⟩
      all_goals subst ht
      all_goals simp [cp_lens, utf8_c1_rejected, utf8_tail, Nat.add_assoc]
      · rw [if_neg (by omega)]
        exact ih _ (by omega)
      · by_cases hlen : buf.length < pos + 2
        · rw [if_pos hlen]; exact Option.some_ne_none _
        rw [if_neg hlen]
        have h1 : pos + 1 < buf.length := by omega
        simp only [List.getElem?_eq_getElem h1]
        split_ifs
        all_goals first
          | exact not_false
          | exact Option.some_ne_none _
          | exact ih (pos + 2) (by omega)
      · by_cases hlen : buf.length < pos + 3
        · rw [if_pos hlen]; exact Option.some_ne_none _
        rw [if_neg hlen]
        have h1 : pos + 1 < buf.length := by omega
        have h2 : pos + 2 < buf.length := by omega
        simp only [List.getElem?_eq_getElem h1, List.getElem?_eq_getElem h2]
        split_ifs
        all_goals first
          | exact not_false
          | exact Option.some_ne_none _
          | exact ih (pos + 3) (by omega)
      · by_cases hlen : buf.length < pos + 3
        · rw [if_pos hlen]; exact Option.some_ne_none _
        rw [if_neg hlen]
        have h1 : pos + 1 < buf.length := by omega
        have h2 : pos + 2 < buf.length := by omega
        simp only [List.getElem?_eq_getElem h1, List.getElem?_eq_getElem h2]
        split_ifs
        all_goals first
          | exact not_false
          | exact Option.some_ne_none _
          | exact ih (pos + 3) (by omega)
      · by_cases hlen : buf.length < pos + 3
        · rw [if_pos hlen]; exact Option.some_ne_none _
        rw [if_neg hlen]
        have h1 : pos + 1 < buf.length := by omega
        have h2 : pos + 2 < buf.length := by omega
        simp only [List.getElem?_eq_getElem h1, List.getElem?_eq_getElem h2]
        split_ifs
        all_goals first
          | exact not_false
          | exact Option.some_ne_none _
          | exact ih (pos + 3) (by omega)
      · by_cases hlen : buf.length < pos + 3
        · rw [if_pos hlen]; exact Option.some_ne_none _
        rw [if_neg hlen]
        have h1 : pos + 1 < buf.length := by omega
        have h2 : pos + 2 < buf.length := by omega
        simp only [List.getElem?_eq_getElem h1, List.getElem?_eq_getElem h2]
        split_ifs
        all_goals first
          | exact not_false
          | exact Option.some_ne_none _
          | exact ih (pos + 3) (by omega)
      · by_cases hlen : buf.length < pos + 4
        · rw [if_pos hlen]; exact Option.some_ne_none _
        rw [if_neg hlen]
        have h1 : pos + 1 < buf.length := by omega
        have h2 : pos + 2 < buf.length := by omega
        have h3 : pos + 3 < buf.length := by omega
        simp only [List.getElem?_eq_getElem h1, List.getElem?_eq_getElem h2, List.getElem?_eq_getElem h3]
        split_ifs
        all_goals first
          | exact not_false
          | exact Option.some_ne_none _
          | exact ih (pos + 4) (by omega)
      · by_cases hlen : buf.length < pos + 4
        · rw [if_pos hlen]; exact Option.some_ne_none _
        rw [if_neg hlen]
        have h1 : pos + 1 < buf.length := by omega
        have h2 : pos + 2 < buf.length := by omega
        have h3 : pos + 3 < buf.length := by omega
        simp only [List.getElem?_eq_getElem h1, List.getElem?_eq_getElem h2, List.getElem?_eq_getElem h3]
        split_ifs
        all_goals first
          | exact not_false
          | exact Option.some_ne_none _
          | exact ih (pos + 4) (by omega)
      · by_cases hlen : buf.length < pos + 4
        · rw [if_pos hlen]; exact Option.some_ne_none _
        rw [if_neg hlen]
        have h1 : pos + 1 < buf.length := by omega
        have h2 : pos + 2 < buf.length := by omega
        have h3 : pos + 3 < buf.length := by omega
        simp only [List.getElem?_eq_getElem h1, List.getElem?_eq_getElem h2, List.getElem?_eq_getElem h3]
        split_ifs
        all_goals first
          | exact not_false
          | exact Option.some_ne_none _
          | exact ih (pos + 4) (by omega)
    · rw [printable_utf8_loop, if_neg hpos]; exact Option.some_ne_none _

theorem printable_utf8_total (buf : List Nat) (hb : ∀ b ∈ buf, b < 256) :
    ∃ r, printable_utf8 buf = some r :=
  Option.ne_none_iff_exists'.mp (printable_utf8_loop_total buf hb _ _ (by omega))

theorem printable_utf8_sound (buf : List Nat) (h : printable_utf8 buf = some true) :
    well_formed_utf8 buf := by
  have := printable_utf8_loop_sound buf _ _ h
  rwa [List.drop_zero] at this

theorem printable_utf8_complete (buf : List Nat) (hwf : well_formed_utf8 buf)
    (hge : ∀ b ∈ buf, 0x20 ≤ b) : printable_utf8 buf = some true :=
  printable_utf8_loop_complete buf buf hwf hge _ 0 (List.drop_zero _) (by omega)

theorem well_formed_of_ascii (buf : List Nat) (h : ∀ b ∈ buf, b ≤ 0x7f) :
    well_formed_utf8 buf := by
  induction buf with
  | nil => exact well_formed_utf8.nil
  | cons b rest ih =>
    have hb : b ≤ 0x7f := h b (List.mem_cons_self _ _)
    exact well_formed_utf8.seq [(0x00, 0x7F)] [b] rest (by simp [utf8_table_3_7])
      (by simp [matches_row]; omega) (ih fun c hc => h c (List.mem_cons_of_mem _ hc))

theorem printable_utf8_of_ascii (buf : List Nat) (h : ∀ b ∈ buf, 0x20 ≤ b ∧ b ≤ 0x7f) :
    printable_utf8 buf = some true :=
  printable_utf8_complete buf (well_formed_of_ascii buf fun b hb => (h b hb).2)
    fun b hb => (h b hb).1

/-- C4 (as stated, refuted): the one-byte buffer `09` (a tab) matches the row
`00..7F` of Table 3-7, so it is well-formed UTF-8, and `printable_utf8` returns
false on it. -/
theorem C4_counterexample :
    well_formed_utf8 [0x09] ∧ printable_utf8 [0x09] = some false :=
  ⟨well_formed_utf8.seq [(0x00, 0x7F)] [0x09] [] (by decide) (by decide) well_formed_utf8.nil,
    by decide⟩

/-- C4 (amended): every buffer that is well-formed UTF-8 per Table 3-7 and holds
no byte in `00..1F` is accepted by `printable_utf8` (in particular the empty
buffer, `"hello"` and `E2 82 AC`). -/
theorem C4_well_formed_printable_accepted (buf : List Nat) (hwf : well_formed_utf8 buf)
    (hge : ∀ b ∈ buf, 0x20 ≤ b) : printable_utf8 buf = some true :=
  printable_utf8_complete buf hwf hge

/-- Witness for C4 (amended) at the buffer `68 E2 82 AC`, the letter `h`
followed by the three bytes of U+20AC. -/
theorem C4_well_formed_printable_accepted_witness :
    well_formed_utf8 [0x68, 0xe2, 0x82, 0xac] ∧
    (∀ b ∈ [0x68, 0xe2, 0x82, 0xac], 0x20 ≤ b) ∧
    printable_utf8 [0x68, 0xe2, 0x82, 0xac] = some true :=
  have hwf : well_formed_utf8 [0x68, 0xe2, 0x82, 0xac] :=
    well_formed_utf8.seq [(0x00, 0x7F)] [0x68] [0xe2, 0x82, 0xac] (by decide) (by decide)
      (well_formed_utf8.seq [(0xE1, 0xEC), (0x80, 0xBF), (0x80, 0xBF)] [0xe2, 0x82, 0xac] []
        (by decide) (by decide) well_formed_utf8.nil)
  ⟨hwf, by decide, C4_well_formed_printable_accepted _ hwf (by decide)⟩

/-- C5: `printable_utf8` is all-or-nothing. On a byte buffer, a result of true
means the buffer is a concatenation of sequences each matching a row of Table
3-7, and a buffer that is not such a concatenation makes it return false (a
lone `80`, a lone `C0`, and `F0 9F 98` cut before its fourth byte are
rejected). -/
theorem C5_ill_formed_rejected (buf : List Nat) (hb : ∀ b ∈ buf, b < 256) :
    (printable_utf8 buf = some true → well_formed_utf8 buf) ∧
    (¬ well_formed_utf8 buf → printable_utf8 buf = some false) ∧
    printable_utf8 [0x80] = some false ∧
    printable_utf8 [0xc0] = some false ∧
    printable_utf8 [0xf0, 0x9f, 0x98] = some false := by
  refine ⟨printable_utf8_sound buf, ?_, by decide, by decide, by decide⟩
  intro hnwf
  obtain ⟨r, hr⟩ := printable_utf8_total buf hb
  cases r with
  | false => exact hr
  | true => exact absurd (printable_utf8_sound buf hr) hnwf

/-- Witness for C5 at the buffer `E2 82 AC`: it is accepted, hence well-formed. -/
theorem C5_ill_formed_rejected_witness :
    (∀ b ∈ [0xe2, 0x82, 0xac], b < 256) ∧ printable_utf8 [0xe2, 0x82, 0xac] = some true ∧
      well_formed_utf8 [0xe2, 0x82, 0xac] :=
  ⟨by decide, by decide, (C5_ill_formed_rejected [0xe2, 0x82, 0xac] (by decide)).1 (by decide)⟩

/-! ### The escaping policy -/

theorem printable_ascii_iff (buf : List Nat) :
    printable_ascii buf = true ↔ ∀ b ∈ buf, 0x20 ≤ b ∧ b ≤ 0x7e := by
  induction buf with
  | nil => simp [printable_ascii]
  | cons c rest ih =>
    rw [printable_ascii, List.forall_mem_cons, ← ih]
    split_ifs <;> simp <;> omega

theorem to_char_inj (a b : Nat) (ha : a < 256) (hb : b < 256) : to_char a = to_char b ↔ a = b := by
  unfold to_char
  rw [Nat.mod_eq_of_lt ha, Nat.mod_eq_of_lt hb]
  split_ifs <;> omega

theorem matches_separator_iff (buf : List Nat) (sep : Nat) (hb : ∀ b ∈ buf, b < 256)
    (hs : sep < 256) : matches_separator buf (to_char sep) = true ↔ sep ∈ buf := by
  induction buf with
  | nil => simp [matches_separator]
  | cons c rest ih =>
    have hc : c < 256 := hb c (List.mem_cons_self _ _)
    have ih := ih fun b h => hb b (List.mem_cons_of_mem _ h)
    have hinj := to_char_inj c sep hc hs
    rw [matches_separator, List.mem_cons, ← ih]
    by_cases h : c = sep
    · simp [h]
    · have h2 : ¬ to_char c = to_char sep := fun e => h (hinj.mp e)
      simp [h2, Ne.symm h]

theorem need_hexify_eq (buf : List Nat) (separator : Int) (always_ascii : Bool) (p : Bool)
    (hp : (if always_ascii = true then some (printable_ascii buf) else printable_utf8 buf) = some p) :
    need_hexify buf separator always_ascii =
      some (!p || matches_separator buf separator || is_hexify buf) := by
  unfold need_hexify
  cases always_ascii
  · simp only [Bool.false_eq_true, if_false] at hp ⊢
    rw [hp]
    cases p <;> cases matches_separator buf separator <;> cases is_hexify buf <;> rfl
  · simp only [if_true, Option.some.injEq] at hp ⊢
    rw [hp]
    cases p <;> cases matches_separator buf separator <;> cases is_hexify buf <;> rfl

theorem lower_hex_digit_printable : ∀ d, d < 16 →
    0x20 ≤ lower_hex_digit d ∧ lower_hex_digit d ≤ 0x7e := by decide

theorem lower_hex_printable (l : List Nat) : ∀ c ∈ lower_hex l, 0x20 ≤ c ∧ c ≤ 0x7e := by
  induction l with
  | nil => simp [lower_hex]
  | cons a l ih =>
    intro c hc
    simp only [lower_hex, List.mem_cons] at hc
    rcases hc with h | h | h
    · subst h; exact lower_hex_digit_printable _ (Nat.mod_lt _ (by norm_num))
    · subst h; exact lower_hex_digit_printable _ (Nat.mod_lt _ (by norm_num))
    · exact ih c h

theorem hex_envelope_printable (PW_MAX : Nat) (x : List Nat) :
    ∀ c ∈ hex_envelope PW_MAX x, 0x20 ≤ c ∧ c ≤ 0x7e := by
  intro c hc
  rw [hex_envelope_eq] at hc
  simp only [List.mem_append, List.mem_cons, List.mem_singleton, List.not_mem_nil, or_false] at hc
  rcases hc with (h | h) | h
  · rcases h with h | h | h | h | h <;> subst h <;> decide
  · exact lower_hex_printable _ c h
  · subst h; decide

theorem is_hexify_hex_envelope (PW_MAX : Nat) (x : List Nat) :
    is_hexify (hex_envelope PW_MAX x) = true := by
  rw [hex_envelope_eq]
  have hl := lower_hex_all_hex (List.take (min x.length PW_MAX) x)
  have hlen := length_lower_hex (List.take (min x.length PW_MAX) x)
  generalize lower_hex (List.take (min x.length PW_MAX) x) = lh at hl hlen
  generalize (List.take (min x.length PW_MAX) x).length = k at hlen
  have hbuf : [0x24, 0x48, 0x45, 0x58, 0x5b] ++ lh ++ [0x5d] =
      [0x24, 0x48, 0x45, 0x58, 0x5b] ++ (lh ++ [0x5d]) := List.append_assoc _ _ _
  have hlength : ([0x24, 0x48, 0x45, 0x58, 0x5b] ++ lh ++ [0x5d]).length = 2 * k + 6 := by
    simp [hlen]
  rw [is_hexify_iff, hlength]
  refine ⟨by omega, by omega, by rw [hbuf]; rfl, ?_, ?_⟩
  · rw [List.getElem?_append_right (by simp [hlen])]
    simp [hlen]
  · intro i c h5 hi hc
    rw [List.append_assoc, List.getElem?_append_right (by simpa using h5),
      List.getElem?_append_left (by simp [hlen]; omega)] at hc
    exact hl c (List.getElem?_mem hc)

/-- C7: escaped content is always re-escaped. For every buffer `x`, every
separator and both values of `always_ascii`, `need_hexify` returns true on the
envelope `$HEX[` + hex digits stored by `exec_hexify` for `x` + `]`. -/
theorem C7_escaped_is_reescaped (PW_MAX : Nat) (x : List Nat) (separator : Int)
    (always_ascii : Bool) :
    need_hexify (hex_envelope PW_MAX x) separator always_ascii = some true := by
  have hp : ∃ p, (if always_ascii = true then some (printable_ascii (hex_envelope PW_MAX x))
      else printable_utf8 (hex_envelope PW_MAX x)) = some p := by
    cases always_ascii
    · exact ⟨true, printable_utf8_of_ascii _ fun c hc =>
        ⟨(hex_envelope_printable PW_MAX x c hc).1, by
          have := (hex_envelope_printable PW_MAX x c hc).2; omega⟩⟩
    · exact ⟨_, rfl⟩
  obtain ⟨p, hp⟩ := hp
  rw [need_hexify_eq _ _ _ p hp, is_hexify_hex_envelope, Bool.or_true]

/-- C6: `need_hexify` is the logical OR of three facts. On a byte buffer and a
separator byte it returns a result, and that result is true exactly when the
printability test fails (with `always_ascii` some byte lies outside `20..7E`,
otherwise `printable_utf8` is false), or some byte equals the separator, or
`is_hexify` is true; so a result of false excludes the separator from the
buffer. With separator `:` and `always_ascii`, `"ab:cd"` gives true. -/
theorem C6_need_hexify_is_or (buf : List Nat) (sep : Nat) (always_ascii : Bool)
    (hb : ∀ b ∈ buf, b < 256) (hs : sep < 256) :
    (∃ rc, need_hexify buf (to_char sep) always_ascii = some rc ∧
      (rc = true ↔
        ((if always_ascii = true then ∃ b ∈ buf, b < 0x20 ∨ 0x7e < b
          else printable_utf8 buf = some false) ∨
        sep ∈ buf ∨ is_hexify buf = true)) ∧
      (rc = false → sep ∉ buf)) ∧
    need_hexify [0x61, 0x62, 0x3a, 0x63, 0x64] (to_char 0x3a) true = some true := by
  refine ⟨?_, by decide⟩
  have hsep := matches_separator_iff buf sep hb hs
  cases always_ascii with
  | true =>
    refine ⟨_, need_hexify_eq buf (to_char sep) true (printable_ascii buf) rfl, ?_, ?_⟩
    · have hpa : printable_ascii buf = false ↔ ∃ b ∈ buf, b < 0x20 ∨ 0x7e < b := by
        rw [← Bool.not_eq_true, printable_ascii_iff]
        push_neg
        constructor
        · rintro ⟨b, hb1, hb2⟩; exact ⟨b, hb1, by omega⟩
        · rintro ⟨b, hb1, hb2⟩; exact ⟨b, hb1, by omega⟩
      simp only [if_true, Bool.or_eq_true, Bool.not_eq_true', hpa, hsep, or_assoc]
    · intro h
      simp only [Bool.or_eq_false_iff] at h
      rw [← hsep, h.1.2]
      exact Bool.false_ne_true
  | false =>
    obtain ⟨p, hp⟩ := printable_utf8_total buf hb
    refine ⟨_, need_hexify_eq buf (to_char sep) false p (by simpa using hp), ?_, ?_⟩
    · have hpu : p = false ↔ printable_utf8 buf = some false := by
        rw [hp]; simp
      simp only [Bool.false_eq_true, if_false, Bool.or_eq_true, Bool.not_eq_true', hpu, hsep,
        or_assoc]
    · intro h
      simp only [Bool.or_eq_false_iff] at h
      rw [← hsep, h.1.2]
      exact Bool.false_ne_true

/-- Witness for C6 at `"ab"`, separator `:`, in UTF-8 mode: the result is
false. -/
theorem C6_need_hexify_is_or_witness :
    (∀ b ∈ [0x61, 0x62], b < 256) ∧ 0x3a < 256 ∧
    need_hexify [0x61, 0x62] (to_char 0x3a) false = some false ∧ 0x3a ∉ [0x61, 0x62] := by
  obtain ⟨⟨rc, h1, _, h3⟩, _⟩ :=
    C6_need_hexify_is_or [0x61, 0x62] 0x3a false (by decide) (by decide)
  have hrc : rc = false := by
    have h : need_hexify [0x61, 0x62] (to_char 0x3a) false = some false := by decide
    rw [h] at h1
    exact (Option.some.inj h1).symm
  exact ⟨by decide, by decide, hrc ▸ h1, h3 hrc⟩

/-! ### The generic transcoder -/

theorem codec_alphabet_symbol {n : Nat} {t f : Nat → Option Nat} (h : codec_alphabet n t f)
    (i : Nat) (hi : i < n) :
    ∃ s, t i = some s ∧ s &&& 0x7f = s ∧ s ≠ 0x3d ∧ f (s &&& 0x7f) = some i := by
  have hok := h.1 i hi
  unfold symbol_ok at hok
  cases hs : t i with
  | none => rw [hs] at hok; cases hok
  | some s =>
    rw [hs] at hok
    simp only [Bool.and_eq_true, decide_eq_true_eq] at hok
    have hmask : s &&& 0x7f = s := Nat.and_pow_two_sub_one_of_lt_two_pow (n := 7) hok.1.1
    exact ⟨s, rfl, hmask, hok.1.2, by rw [hmask]; exact hok.2⟩

theorem codec_alphabet_base64 : codec_alphabet 64 int_to_base64 base64_to_int :=
  ⟨by decide, ⟨_, by decide, rfl⟩⟩

theorem base64_encode_vals (a b c : Nat) (ha : a < 256) (hb : b < 256) (hc : c < 256) :
    (a >>> 2) &&& 0x3f = a / 4 ∧
    ((a <<< 4) &&& 0x30) ||| ((b >>> 4) &&& 0x0f) = a % 4 * 16 + b / 16 ∧
    ((b <<< 2) &&& 0x3c) ||| ((c >>> 6) &&& 0x03) = b % 16 * 4 + c / 64 ∧
    (c >>> 0) &&& 0x3f = c % 64 := by
  have e0 : ∀ a, a < 256 → (a >>> 2) &&& 0x3f = a / 4 := by decide
  have e1 : ∀ a, a < 256 → (a <<< 4) &&& 0x30 = a % 4 * 16 := by decide
  have e2 : ∀ b, b < 256 → (b >>> 4) &&& 0x0f = b / 16 := by decide
  have e3 : ∀ b, b < 256 → (b <<< 2) &&& 0x3c = b % 16 * 4 := by decide
  have e4 : ∀ c, c < 256 → (c >>> 6) &&& 0x03 = c / 64 := by decide
  have e5 : ∀ c, c < 256 → (c >>> 0) &&& 0x3f = c % 64 := by decide
  have o1 : ∀ x, x < 4 → ∀ y, y < 16 → (x * 16) ||| y = x * 16 + y := by decide
  have o2 : ∀ x, x < 16 → ∀ y, y < 4 → (x * 4) ||| y = x * 4 + y := by decide
  refine ⟨e0 a ha, ?_, ?_, e5 c hc⟩
  · rw [e1 a ha, e2 b hb, o1 _ (by omega) _ (by omega)]
  · rw [e3 b hb, e4 c hc, o2 _ (by omega) _ (by omega)]

theorem base64_decode_vals (w0 w1 w2 w3 : Nat) (h0 : w0 < 256) (h1 : w1 < 256) (h2 : w2 < 256)
    (h3 : w3 < 256) :
    ((w0 <<< 2) &&& 0xfc) ||| ((w1 >>> 4) &&& 0x03) = w0 % 64 * 4 + w1 / 16 % 4 ∧
    ((w1 <<< 4) &&& 0xf0) ||| ((w2 >>> 2) &&& 0x0f) = w1 % 16 * 16 + w2 / 4 % 16 ∧
    ((w2 <<< 6) &&& 0xc0) ||| ((w3 >>> 0) &&& 0x3f) = w2 % 4 * 64 + w3 % 64 := by
  have e0 : ∀ w, w < 256 → (w <<< 2) &&& 0xfc = w % 64 * 4 := by decide
  have e1 : ∀ w, w < 256 → (w >>> 4) &&& 0x03 = w / 16 % 4 := by decide
  have e2 : ∀ w, w < 256 → (w <<< 4) &&& 0xf0 = w % 16 * 16 := by decide
  have e3 : ∀ w, w < 256 → (w >>> 2) &&& 0x0f = w / 4 % 16 := by decide
  have e4 : ∀ w, w < 256 → (w <<< 6) &&& 0xc0 = w % 4 * 64 := by decide
  have e5 : ∀ w, w < 256 → (w >>> 0) &&& 0x3f = w % 64 := by decide
  have o0 : ∀ x, x < 64 → ∀ y, y < 4 → (x * 4) ||| y = x * 4 + y := by decide
  have o1 : ∀ x, x < 16 → ∀ y, y < 16 → (x * 16) ||| y = x * 16 + y := by decide
  have o2 : ∀ x, x < 4 → ∀ y, y < 64 → (x * 64) ||| y = x * 64 + y := by decide
  refine ⟨?_, ?_, ?_⟩
  · rw [e0 w0 h0, e1 w1 h1, o0 _ (by omega) _ (by omega)]
  · rw [e2 w1 h1, e3 w2 h2, o1 _ (by omega) _ (by omega)]
  · rw [e4 w2 h2, e5 w3 h3, o2 _ (by omega) _ (by omega)]


/-- What one iteration of `base64_encode` stores for the bytes `a b c`: four
symbols other than `=`, which `from_symbol` maps to the four 6-bit slices. -/
theorem base64_encode_group_spec {t f : Nat → Option Nat} (hal : codec_alphabet 64 t f)
    (a b c : Nat) (ha : a < 256) (hb : b < 256) (hc : c < 256) :
    ∃ s0 s1 s2 s3, base64_encode_group t a b c = some [s0, s1, s2, s3] ∧
      s0 ≠ 0x3d ∧ s1 ≠ 0x3d ∧ s2 ≠ 0x3d ∧ s3 ≠ 0x3d ∧
      f (s0 &&& 0x7f) = some (a / 4) ∧ f (s1 &&& 0x7f) = some (a % 4 * 16 + b / 16) ∧
      f (s2 &&& 0x7f) = some (b % 16 * 4 + c / 64) ∧ f (s3 &&& 0x7f) = some (c % 64) := by
  obtain ⟨e0, e1, e2, e3⟩ := base64_encode_vals a b c ha hb hc
  obtain ⟨s0, t0, m0, n0, f0⟩ := codec_alphabet_symbol hal (a / 4) (by omega)
  obtain ⟨s1, t1, m1, n1, f1⟩ := codec_alphabet_symbol hal (a % 4 * 16 + b / 16) (by omega)
  obtain ⟨s2, t2, m2, n2, f2⟩ := codec_alphabet_symbol hal (b % 16 * 4 + c / 64) (by omega)
  obtain ⟨s3, t3, m3, n3, f3⟩ := codec_alphabet_symbol hal (c % 64) (by omega)
  refine ⟨s0, s1, s2, s3, ?_, n0, n1, n2, n3, f0, f1, f2, f3⟩
  unfold base64_encode_group
  rw [e0, e1, e2, e3, t0, t1, t2, t3]
  simp only [Option.bind_eq_bind, Option.some_bind, m0, m1, m2, m3]
  rfl

theorem base64_decode_group_eq {f : Nat → Option Nat} (s0 s1 s2 s3 w0 w1 w2 w3 : Nat)
    (f0 : f (s0 &&& 0x7f) = some w0) (f1 : f (s1 &&& 0x7f) = some w1)
    (f2 : f (s2 &&& 0x7f) = some w2) (f3 : f (s3 &&& 0x7f) = some w3)
    (h0 : w0 < 256) (h1 : w1 < 256) (h2 : w2 < 256) (h3 : w3 < 256) :
    base64_decode_group f s0 s1 s2 s3 =
      some [w0 % 64 * 4 + w1 / 16 % 4, w1 % 16 * 16 + w2 / 4 % 16, w2 % 4 * 64 + w3 % 64] := by
  obtain ⟨e0, e1, e2⟩ := base64_decode_vals w0 w1 w2 w3 h0 h1 h2 h3
  unfold base64_decode_group
  rw [f0, f1, f2, f3]
  simp only [Option.bind_eq_bind, Option.some_bind, e0, e1, e2]
  rfl

theorem poke_append (g out : List Nat) (n v : Nat) :
    poke (g ++ out) (g.length + n) v = (poke out n v).map (g ++ ·) := by
  unfold poke
  by_cases h : n < out.length
  · rw [if_pos h, if_pos (by rw [List.length_append]; omega),
      List.set_append_right _ _ (by omega)]
    simp
  · rw [if_neg h, if_neg (by rw [List.length_append]; omega)]
    rfl

theorem encode_pad_append (k : Nat) (g : List Nat) (hg : g.length % k = 0) (M : Nat)
    (hM : M % k = 0) (hb : g.length + M ≤ INT_MAX) :
    ∀ fuel out n, n ≤ M → encode_pad k fuel (g ++ out) (g.length + n) =
      (encode_pad k fuel out n).map fun r => (g ++ r.1, g.length + r.2) := by
  have hmod : ∀ n, (g.length + n) % k = n % k := by
    intro n
    rw [Nat.add_mod, hg, Nat.zero_add, Nat.mod_mod]
  intro fuel
  induction fuel with
  | zero =>
    intro out n _
    simp only [encode_pad, hmod]
    split_ifs <;> rfl
  | succ fuel ih =>
    intro out n hn
    simp only [encode_pad, hmod]
    split_ifs with h h1 h2 h2
    · rw [poke_append]
      cases hp : poke out n 0x3d with
      | none => rfl
      | some o =>
        simp only [Option.map_some', Option.some_bind]
        rw [Nat.add_assoc, ih]
        rcases Nat.lt_or_ge n M with hlt | hge
        · exact hlt
        · have : n = M := Nat.le_antisymm hn hge
          rw [this] at h
          exact absurd hM h
    · omega
    · exfalso
      rcases Nat.lt_or_ge n M with hlt | hge
      · omega
      · have : n = M := Nat.le_antisymm hn hge
        rw [this] at h
        exact h hM
    · rfl
    · rfl

theorem encode_out_len_eq (bits n : Nat) (h : (8 * n + 4) / bits ≤ INT_MAX) :
    encode_out_len bits n = some ((8 * n + 4) / bits) := by
  unfold encode_out_len
  rw [if_pos h]

theorem base64_decode_loop_cons {f : Nat → Option Nat} (s0 s1 s2 s3 : Nat) (out g dec : List Nat)
    (hg : base64_decode_group f s0 s1 s2 s3 = some g) (hdec : base64_decode_loop f out = some dec) :
    base64_decode_loop f (s0 :: s1 :: s2 :: s3 :: out) = some (g ++ dec) := by
  simp only [base64_decode_loop, hg, hdec, Option.bind_eq_bind, Option.some_bind]
  rfl

theorem base64_round_trip_aux {t f : Nat → Option Nat} (hal : codec_alphabet 64 t f) :
    ∀ x : List Nat, (∀ b ∈ x, b < 256) → 4 * ((x.length + 2) / 3) ≤ INT_MAX →
      ∃ L out dec, base64_encode_loop t x = some L ∧
        encode_pad 4 4 L ((8 * x.length + 4) / 6) = some (out, out.length) ∧
        base64_decode_loop f out = some dec ∧
        decode_tmp_len out * 6 / 8 = x.length ∧ dec.take x.length = x
  | [], _, _ => ⟨[], [], [], rfl, rfl, rfl, rfl, rfl⟩
  | [a], hx, _ => by
    have ha : a < 256 := hx a (by simp)
    obtain ⟨w, hw, fw⟩ := hal.2
    have fw' : f (0x3d &&& 0x7f) = some w := fw
    obtain ⟨s0, s1, s2, s3, hg, n0, n1, n2, n3, f0, f1, f2, f3⟩ :=
      base64_encode_group_spec hal a 0 0 ha (by decide) (by decide)
    have hd := base64_decode_group_eq s0 s1 0x3d 0x3d _ _ _ _ f0 f1 fw' fw' (by omega) (by omega)
      hw hw
    have hd' := base64_decode_loop_cons s0 s1 0x3d 0x3d [] _ [] hd rfl
    refine ⟨[s0, s1, s2, s3], [s0, s1, 0x3d, 0x3d], _, hg, ?_, hd', ?_, ?_⟩
    · simp [encode_pad, poke, INT_MAX]
    · simp [decode_tmp_len, n0, n1]
    · simp; omega
  | [a, b], hx, _ => by
    have ha : a < 256 := hx a (by simp)
    have hb : b < 256 := hx b (by simp)
    obtain ⟨w, hw, fw⟩ := hal.2
    have fw' : f (0x3d &&& 0x7f) = some w := fw
    obtain ⟨s0, s1, s2, s3, hg, n0, n1, n2, n3, f0, f1, f2, f3⟩ :=
      base64_encode_group_spec hal a b 0 ha hb (by decide)
    have hd := base64_decode_group_eq s0 s1 s2 0x3d _ _ _ _ f0 f1 f2 fw' (by omega) (by omega)
      (by omega) hw
    have hd' := base64_decode_loop_cons s0 s1 s2 0x3d [] _ [] hd rfl
    refine ⟨[s0, s1, s2, s3], [s0, s1, s2, 0x3d], _, hg, ?_, hd', ?_, ?_⟩
    · simp [encode_pad, poke, INT_MAX]
    · simp [decode_tmp_len, n0, n1, n2]
    · simp; omega
  | a :: b :: c :: rest, hx, hn => by
    have ha : a < 256 := hx a (by simp)
    have hb : b < 256 := hx b (by simp)
    have hc : c < 256 := hx c (by simp)
    obtain ⟨L, out, dec, hL, hpad, hdec, htmp, htake⟩ :=
      base64_round_trip_aux hal rest (fun y hy => hx y (by simp [hy]))
        (by simp only [List.length_cons] at hn; omega)
    obtain ⟨s0, s1, s2, s3, hg, n0, n1, n2, n3, f0, f1, f2, f3⟩ :=
      base64_encode_group_spec hal a b c ha hb hc
    have hdg := base64_decode_group_eq s0 s1 s2 s3 _ _ _ _ f0 f1 f2 f3 (by omega) (by omega)
      (by omega) (by omega)
    refine ⟨[s0, s1, s2, s3] ++ L, [s0, s1, s2, s3] ++ out, [a, b, c] ++ dec, ?_, ?_, ?_, ?_, ?_⟩
    · simp only [base64_encode_loop, hg, hL, Option.bind_eq_bind, Option.some_bind]
      rfl
    · have hn' : (8 * (a :: b :: c :: rest).length + 4) / 6 =
          [s0, s1, s2, s3].length + (8 * rest.length + 4) / 6 := by
        simp only [List.length_cons, List.length_nil]; omega
      simp only [List.length_cons] at hn
      rw [hn', encode_pad_append 4 [s0, s1, s2, s3] (by simp) (4 * ((rest.length + 2) / 3))
        (by omega) (by simp only [List.length_cons, List.length_nil]; omega) _ _ _ (by omega), hpad]
      simp only [Option.map_some', List.length_append, List.length_cons, List.length_nil]
    · have hd' := base64_decode_loop_cons s0 s1 s2 s3 out _ dec hdg hdec
      rw [show [s0, s1, s2, s3] ++ out = s0 :: s1 :: s2 :: s3 :: out from rfl, hd']
      have e1 : a / 4 % 64 * 4 + (a % 4 * 16 + b / 16) / 16 % 4 = a := by omega
      have e2 : (a % 4 * 16 + b / 16) % 16 * 16 + (b % 16 * 4 + c / 64) / 4 % 16 = b := by omega
      have e3 : (b % 16 * 4 + c / 64) % 4 * 64 + c % 64 % 64 = c := by omega
      rw [e1, e2, e3]
    · have : decode_tmp_len ([s0, s1, s2, s3] ++ out) = decode_tmp_len out + 4 := by
        simp [decode_tmp_len, n0, n1, n2, n3]
      rw [this]
      simp only [List.length_cons]
      omega
    · simp only [List.length_cons, List.cons_append, List.nil_append, List.take_succ_cons]
      rw [htake]


theorem base64_round_trip {t f : Nat → Option Nat} (hal : codec_alphabet 64 t f) (x : List Nat)
    (hx : ∀ b ∈ x, b < 256) (hn : 4 * ((x.length + 2) / 3) ≤ INT_MAX) :
    round_trip base64_encode base64_decode t f x := by
  obtain ⟨L, out, dec, hL, hpad, hdec, htmp, htake⟩ := base64_round_trip_aux hal x hx hn
  refine ⟨out, out.length, dec, ?_, ?_, htake⟩
  · unfold base64_encode
    rw [hL, encode_out_len_eq 6 x.length (by omega)]
    exact hpad
  · unfold base64_decode
    rw [List.take_length, hdec, htmp]
    rfl

theorem base32_encode_vals (a b c d e : Nat) (ha : a < 256) (hb : b < 256) (hc : c < 256)
    (hd : d < 256) (he : e < 256) :
    (a >>> 3) &&& 0x1f = a / 8 ∧
    ((a <<< 2) &&& 0x1c) ||| ((b >>> 6) &&& 0x03) = a % 8 * 4 + b / 64 ∧
    (b >>> 1) &&& 0x1f = b / 2 % 32 ∧
    ((b <<< 4) &&& 0x10) ||| ((c >>> 4) &&& 0x0f) = b % 2 * 16 + c / 16 ∧
    ((c <<< 1) &&& 0x1e) ||| ((d >>> 7) &&& 0x01) = c % 16 * 2 + d / 128 ∧
    (d >>> 2) &&& 0x1f = d / 4 % 32 ∧
    ((d <<< 3) &&& 0x18) ||| ((e >>> 5) &&& 0x07) = d % 4 * 8 + e / 32 ∧
    (e >>> 0) &&& 0x1f = e % 32 := by
  have e0 : ∀ a, a < 256 → (a >>> 3) &&& 0x1f = a / 8 := by decide
  have e1 : ∀ a, a < 256 → (a <<< 2) &&& 0x1c = a % 8 * 4 := by decide
  have e2 : ∀ b, b < 256 → (b >>> 6) &&& 0x03 = b / 64 := by decide
  have e3 : ∀ b, b < 256 → (b >>> 1) &&& 0x1f = b / 2 % 32 := by decide
  have e4 : ∀ b, b < 256 → (b <<< 4) &&& 0x10 = b % 2 * 16 := by decide
  have e5 : ∀ c, c < 256 → (c >>> 4) &&& 0x0f = c / 16 := by decide
  have e6 : ∀ c, c < 256 → (c <<< 1) &&& 0x1e = c % 16 * 2 := by decide
  have e7 : ∀ d, d < 256 → (d >>> 7) &&& 0x01 = d / 128 := by decide
  have e8 : ∀ d, d < 256 → (d >>> 2) &&& 0x1f = d / 4 % 32 := by decide
  have e9 : ∀ d, d < 256 → (d <<< 3) &&& 0x18 = d % 4 * 8 := by decide
  have e10 : ∀ e, e < 256 → (e >>> 5) &&& 0x07 = e / 32 := by decide
  have e11 : ∀ e, e < 256 → (e >>> 0) &&& 0x1f = e % 32 := by decide
  have o1 : ∀ x, x < 8 → ∀ y, y < 4 → (x * 4) ||| y = x * 4 + y := by decide
  have o3 : ∀ x, x < 2 → ∀ y, y < 16 → (x * 16) ||| y = x * 16 + y := by decide
  have o4 : ∀ x, x < 16 → ∀ y, y < 2 → (x * 2) ||| y = x * 2 + y := by decide
  have o6 : ∀ x, x < 4 → ∀ y, y < 8 → (x * 8) ||| y = x * 8 + y := by decide
  refine ⟨e0 a ha, ?_, e3 b hb, ?_, ?_, e8 d hd, ?_, e11 e he⟩
  · rw [e1 a ha, e2 b hb, o1 _ (by omega) _ (by omega)]
  · rw [e4 b hb, e5 c hc, o3 _ (by omega) _ (by omega)]
  · rw [e6 c hc, e7 d hd, o4 _ (by omega) _ (by omega)]
  · rw [e9 d hd, e10 e he, o6 _ (by omega) _ (by omega)]

theorem base32_decode_vals (w0 w1 w2 w3 w4 w5 w6 w7 : Nat) (h0 : w0 < 256) (h1 : w1 < 256)
    (h2 : w2 < 256) (h3 : w3 < 256) (h4 : w4 < 256) (h5 : w5 < 256) (h6 : w6 < 256)
    (h7 : w7 < 256) :
    ((w0 <<< 3) &&& 0xf8) ||| ((w1 >>> 2) &&& 0x07) = w0 % 32 * 8 + w1 / 4 % 8 ∧
    ((w1 <<< 6) &&& 0xc0) ||| ((w2 <<< 1) &&& 0x3e) ||| ((w3 >>> 4) &&& 0x01) =
      w1 % 4 * 64 + w2 % 32 * 2 + w3 / 16 % 2 ∧
    ((w3 <<< 4) &&& 0xf0) ||| ((w4 >>> 1) &&& 0x0f) = w3 % 16 * 16 + w4 / 2 % 16 ∧
    ((w4 <<< 7) &&& 0x80) ||| ((w5 <<< 2) &&& 0x7c) ||| ((w6 >>> 3) &&& 0x03) =
      w4 % 2 * 128 + w5 % 32 * 4 + w6 / 8 % 4 ∧
    ((w6 <<< 5) &&& 0xe0) ||| ((w7 >>> 0) &&& 0x1f) = w6 % 8 * 32 + w7 % 32 := by
  have e0 : ∀ w, w < 256 → (w <<< 3) &&& 0xf8 = w % 32 * 8 := by decide
  have e1 : ∀ w, w < 256 → (w >>> 2) &&& 0x07 = w / 4 % 8 := by decide
  have e2 : ∀ w, w < 256 → (w <<< 6) &&& 0xc0 = w % 4 * 64 := by decide
  have e3 : ∀ w, w < 256 → (w <<< 1) &&& 0x3e = w % 32 * 2 := by decide
  have e4 : ∀ w, w < 256 → (w >>> 4) &&& 0x01 = w / 16 % 2 := by decide
  have e5 : ∀ w, w < 256 → (w <<< 4) &&& 0xf0 = w % 16 * 16 := by decide
  have e6 : ∀ w, w < 256 → (w >>> 1) &&& 0x0f = w / 2 % 16 := by decide
  have e7 : ∀ w, w < 256 → (w <<< 7) &&& 0x80 = w % 2 * 128 := by decide
  have e8 : ∀ w, w < 256 → (w <<< 2) &&& 0x7c = w % 32 * 4 := by decide
  have e9 : ∀ w, w < 256 → (w >>> 3) &&& 0x03 = w / 8 % 4 := by decide
  have e10 : ∀ w, w < 256 → (w <<< 5) &&& 0xe0 = w % 8 * 32 := by decide
  have e11 : ∀ w, w < 256 → (w >>> 0) &&& 0x1f = w % 32 := by decide
  have o0 : ∀ x, x < 32 → ∀ y, y < 8 → (x * 8) ||| y = x * 8 + y := by decide
  have o1 : ∀ x, x < 4 → ∀ y, y < 32 → ∀ z, z < 2 →
      (x * 64) ||| (y * 2) ||| z = x * 64 + y * 2 + z := by decide
  have o2 : ∀ x, x < 16 → ∀ y, y < 16 → (x * 16) ||| y = x * 16 + y := by decide
  have o3 : ∀ x, x < 2 → ∀ y, y < 32 → ∀ z, z < 4 →
      (x * 128) ||| (y * 4) ||| z = x * 128 + y * 4 + z := by decide
  have o4 : ∀ x, x < 8 → ∀ y, y < 32 → (x * 32) ||| y = x * 32 + y := by decide
  refine ⟨?_, ?_, ?_, ?_, ?_⟩
  · rw [e0 w0 h0, e1 w1 h1, o0 _ (by omega) _ (by omega)]
  · rw [e2 w1 h1, e3 w2 h2, e4 w3 h3, o1 _ (by omega) _ (by omega) _ (by omega)]
  · rw [e5 w3 h3, e6 w4 h4, o2 _ (by omega) _ (by omega)]
  · rw [e7 w4 h4, e8 w5 h5, e9 w6 h6, o3 _ (by omega) _ (by omega) _ (by omega)]
  · rw [e10 w6 h6, e11 w7 h7, o4 _ (by omega) _ (by omega)]

/-- What one iteration of `base32_encode` stores for the bytes `a b c d e`:
eight symbols other than `=`, which `from_symbol` maps to the eight 5-bit
slices. -/
theorem base32_encode_group_spec {t f : Nat → Option Nat} (hal : codec_alphabet 32 t f)
    (a b c d e : Nat) (ha : a < 256) (hb : b < 256) (hc : c < 256) (hd : d < 256)
    (he : e < 256) :
    ∃ s0 s1 s2 s3 s4 s5 s6 s7,
      base32_encode_group t a b c d e = some [s0, s1, s2, s3, s4, s5, s6, s7] ∧
      (s0 ≠ 0x3d ∧ s1 ≠ 0x3d ∧ s2 ≠ 0x3d ∧ s3 ≠ 0x3d ∧
        s4 ≠ 0x3d ∧ s5 ≠ 0x3d ∧ s6 ≠ 0x3d ∧ s7 ≠ 0x3d) ∧
      f (s0 &&& 0x7f) = some (a / 8) ∧ f (s1 &&& 0x7f) = some (a % 8 * 4 + b / 64) ∧
      f (s2 &&& 0x7f) = some (b / 2 % 32) ∧ f (s3 &&& 0x7f) = some (b % 2 * 16 + c / 16) ∧
      f (s4 &&& 0x7f) = some (c % 16 * 2 + d / 128) ∧ f (s5 &&& 0x7f) = some (d / 4 % 32) ∧
      f (s6 &&& 0x7f) = some (d % 4 * 8 + e / 32) ∧ f (s7 &&& 0x7f) = some (e % 32) := by
  obtain ⟨e0, e1, e2, e3, e4, e5, e6, e7⟩ := base32_encode_vals a b c d e ha hb hc hd he
  obtain ⟨s0, t0, m0, n0, f0⟩ := codec_alphabet_symbol hal (a / 8) (by omega)
  obtain ⟨s1, t1, m1, n1, f1⟩ := codec_alphabet_symbol hal (a % 8 * 4 + b / 64) (by omega)
  obtain ⟨s2, t2, m2, n2, f2⟩ := codec_alphabet_symbol hal (b / 2 % 32) (by omega)
  obtain ⟨s3, t3, m3, n3, f3⟩ := codec_alphabet_symbol hal (b % 2 * 16 + c / 16) (by omega)
  obtain ⟨s4, t4, m4, n4, f4⟩ := codec_alphabet_symbol hal (c % 16 * 2 + d / 128) (by omega)
  obtain ⟨s5, t5, m5, n5, f5⟩ := codec_alphabet_symbol hal (d / 4 % 32) (by omega)
  obtain ⟨s6, t6, m6, n6, f6⟩ := codec_alphabet_symbol hal (d % 4 * 8 + e / 32) (by omega)
  obtain ⟨s7, t7, m7, n7, f7⟩ := codec_alphabet_symbol hal (e % 32) (by omega)
  refine ⟨s0, s1, s2, s3, s4, s5, s6, s7, ?_, ⟨n0, n1, n2, n3, n4, n5, n6, n7⟩,
    f0, f1, f2, f3, f4, f5, f6, f7⟩
  unfold base32_encode_group
  rw [e0, e1, e2, e3, e4, e5, e6, e7, t0, t1, t2, t3, t4, t5, t6, t7]
  simp only [Option.bind_eq_bind, Option.some_bind, m0, m1, m2, m3, m4, m5, m6, m7]
  rfl

theorem base32_decode_group_eq {f : Nat → Option Nat}
    (s0 s1 s2 s3 s4 s5 s6 s7 w0 w1 w2 w3 w4 w5 w6 w7 : Nat)
    (f0 : f (s0 &&& 0x7f) = some w0) (f1 : f (s1 &&& 0x7f) = some w1)
    (f2 : f (s2 &&& 0x7f) = some w2) (f3 : f (s3 &&& 0x7f) = some w3)
    (f4 : f (s4 &&& 0x7f) = some w4) (f5 : f (s5 &&& 0x7f) = some w5)
    (f6 : f (s6 &&& 0x7f) = some w6) (f7 : f (s7 &&& 0x7f) = some w7)
    (h0 : w0 < 256) (h1 : w1 < 256) (h2 : w2 < 256) (h3 : w3 < 256)
    (h4 : w4 < 256) (h5 : w5 < 256) (h6 : w6 < 256) (h7 : w7 < 256) :
    base32_decode_group f s0 s1 s2 s3 s4 s5 s6 s7 =
      some [w0 % 32 * 8 + w1 / 4 % 8, w1 % 4 * 64 + w2 % 32 * 2 + w3 / 16 % 2,
        w3 % 16 * 16 + w4 / 2 % 16, w4 % 2 * 128 + w5 % 32 * 4 + w6 / 8 % 4,
        w6 % 8 * 32 + w7 % 32] := by
  obtain ⟨e0, e1, e2, e3, e4⟩ := base32_decode_vals w0 w1 w2 w3 w4 w5 w6 w7 h0 h1 h2 h3 h4 h5 h6 h7
  unfold base32_decode_group
  rw [f0, f1, f2, f3, f4, f5, f6, f7]
  simp only [Option.bind_eq_bind, Option.some_bind, e0, e1, e2, e3, e4]
  rfl

theorem base32_decode_loop_cons {f : Nat → Option Nat} (s0 s1 s2 s3 s4 s5 s6 s7 : Nat)
    (out g dec : List Nat)
    (hg : base32_decode_group f s0 s1 s2 s3 s4 s5 s6 s7 = some g)
    (hdec : base32_decode_loop f out = some dec) :
    base32_decode_loop f (s0 :: s1 :: s2 :: s3 :: s4 :: s5 :: s6 :: s7 :: out) =
      some (g ++ dec) := by
  simp only [base32_decode_loop, hg, hdec, Option.bind_eq_bind, Option.some_bind]
  rfl

theorem base32_round_trip_aux {t f : Nat → Option Nat} (hal : codec_alphabet 32 t f) :
    ∀ x : List Nat, (∀ b ∈ x, b < 256) → 8 * ((x.length + 4) / 5) ≤ INT_MAX →
      ∃ L out dec, base32_encode_loop t x = some L ∧
        encode_pad 8 8 L ((8 * x.length + 4) / 5) = some (out, out.length) ∧
        base32_decode_loop f out = some dec ∧
        decode_tmp_len out * 5 / 8 = x.length ∧ dec.take x.length = x
  | [], _, _ => ⟨[], [], [], rfl, rfl, rfl, rfl, rfl⟩
  | [a], hx, _ => by
    have ha : a < 256 := hx a (by simp)
    obtain ⟨w, hw, fw⟩ := hal.2
    have fw' : f (0x3d &&& 0x7f) = some w := fw
    obtain ⟨s0, s1, s2, s3, s4, s5, s6, s7, hg, ⟨n0, n1, n2, n3, n4, n5, n6, n7⟩,
      f0, f1, f2, f3, f4, f5, f6, f7⟩ := base32_encode_group_spec hal a 0 0 0 0 ha (by decide) (by decide) (by decide) (by decide)
    have hd := base32_decode_group_eq s0 s1 0x3d 0x3d 0x3d 0x3d 0x3d 0x3d _ _ _ _ _ _ _ _
      f0 f1 fw' fw' fw' fw' fw' fw' (by omega) (by omega) hw hw hw hw hw hw
    have hd' := base32_decode_loop_cons s0 s1 0x3d 0x3d 0x3d 0x3d 0x3d 0x3d [] _ [] hd rfl
    refine ⟨[s0, s1, s2, s3, s4, s5, s6, s7], [s0, s1, 0x3d, 0x3d, 0x3d, 0x3d, 0x3d, 0x3d], _, hg, ?_, hd', ?_, ?_⟩
    · simp [encode_pad, poke, INT_MAX]
    · simp [decode_tmp_len, n0, n1]
    · simp; omega
  | [a, b], hx, _ => by
    have ha : a < 256 := hx a (by simp)
    have hb : b < 256 := hx b (by simp)
    obtain ⟨w, hw, fw⟩ := hal.2
    have fw' : f (0x3d &&& 0x7f) = some w := fw
    obtain ⟨s0, s1, s2, s3, s4, s5, s6, s7, hg, ⟨n0, n1, n2, n3, n4, n5, n6, n7⟩,
      f0, f1, f2, f3, f4, f5, f6, f7⟩ := base32_encode_group_spec hal a b 0 0 0 ha hb (by decide) (by decide) (by decide)
    have hd := base32_decode_group_eq s0 s1 s2 s3 0x3d 0x3d 0x3d 0x3d _ _ _ _ _ _ _ _
      f0 f1 f2 f3 fw' fw' fw' fw' (by omega) (by omega) (by omega) (by omega) hw hw hw hw
    have hd' := base32_decode_loop_cons s0 s1 s2 s3 0x3d 0x3d 0x3d 0x3d [] _ [] hd rfl
    refine ⟨[s0, s1, s2, s3, s4, s5, s6, s7], [s0, s1, s2, s3, 0x3d, 0x3d, 0x3d, 0x3d], _, hg, ?_, hd', ?_, ?_⟩
    · simp [encode_pad, poke, INT_MAX]
    · simp [decode_tmp_len, n0, n1, n2, n3]
    · simp; omega
  | [a, b, c], hx, _ => by
    have ha : a < 256 := hx a (by simp)
    have hb : b < 256 := hx b (by simp)
    have hc : c < 256 := hx c (by simp)
    obtain ⟨w, hw, fw⟩ := hal.2
    have fw' : f (0x3d &&& 0x7f) = some w := fw
    obtain ⟨s0, s1, s2, s3, s4, s5, s6, s7, hg, ⟨n0, n1, n2, n3, n4, n5, n6, n7⟩,
      f0, f1, f2, f3, f4, f5, f6, f7⟩ := base32_encode_group_spec hal a b c 0 0 ha hb hc (by decide) (by decide)
    have hd := base32_decode_group_eq s0 s1 s2 s3 s4 0x3d 0x3d 0x3d _ _ _ _ _ _ _ _
      f0 f1 f2 f3 f4 fw' fw' fw' (by omega) (by omega) (by omega) (by omega) (by omega) hw hw hw
    have hd' := base32_decode_loop_cons s0 s1 s2 s3 s4 0x3d 0x3d 0x3d [] _ [] hd rfl
    refine ⟨[s0, s1, s2, s3, s4, s5, s6, s7], [s0, s1, s2, s3, s4, 0x3d, 0x3d, 0x3d], _, hg, ?_, hd', ?_, ?_⟩
    · simp [encode_pad, poke, INT_MAX]
    · simp [decode_tmp_len, n0, n1, n2, n3, n4]
    · simp; omega
  | [a, b, c, d], hx, _ => by
    have ha : a < 256 := hx a (by simp)
    have hb : b < 256 := hx b (by simp)
    have hc : c < 256 := hx c (by simp)
    have hd : d < 256 := hx d (by simp)
    obtain ⟨w, hw, fw⟩ := hal.2
    have fw' : f (0x3d &&& 0x7f) = some w := fw
    obtain ⟨s0, s1, s2, s3, s4, s5, s6, s7, hg, ⟨n0, n1, n2, n3, n4, n5, n6, n7⟩,
      f0, f1, f2, f3, f4, f5, f6, f7⟩ := base32_encode_group_spec hal a b c d 0 ha hb hc hd (by decide)
    have hd := base32_decode_group_eq s0 s1 s2 s3 s4 s5 s6 0x3d _ _ _ _ _ _ _ _
      f0 f1 f2 f3 f4 f5 f6 fw' (by omega) (by omega) (by omega) (by omega) (by omega) (by omega) (by omega) hw
    have hd' := base32_decode_loop_cons s0 s1 s2 s3 s4 s5 s6 0x3d [] _ [] hd rfl
    refine ⟨[s0, s1, s2, s3, s4, s5, s6, s7], [s0, s1, s2, s3, s4, s5, s6, 0x3d], _, hg, ?_, hd', ?_, ?_⟩
    · simp [encode_pad, poke, INT_MAX]
    · simp [decode_tmp_len, n0, n1, n2, n3, n4, n5, n6]
    · simp; omega
  | a :: b :: c :: d :: e :: rest, hx, hn => by
    have ha : a < 256 := hx a (by simp)
    have hb : b < 256 := hx b (by simp)
    have hc : c < 256 := hx c (by simp)
    have hd : d < 256 := hx d (by simp)
    have he : e < 256 := hx e (by simp)
    simp only [List.length_cons] at hn
    obtain ⟨L, out, dec, hL, hpad, hdec, htmp, htake⟩ :=
      base32_round_trip_aux hal rest (fun y hy => hx y (by simp [hy])) (by omega)
    obtain ⟨s0, s1, s2, s3, s4, s5, s6, s7, hg, ⟨n0, n1, n2, n3, n4, n5, n6, n7⟩,
      f0, f1, f2, f3, f4, f5, f6, f7⟩ := base32_encode_group_spec hal a b c d e ha hb hc hd he
    have hdg := base32_decode_group_eq s0 s1 s2 s3 s4 s5 s6 s7 _ _ _ _ _ _ _ _
      f0 f1 f2 f3 f4 f5 f6 f7 (by omega) (by omega) (by omega) (by omega) (by omega) (by omega)
      (by omega) (by omega)
    refine ⟨[s0, s1, s2, s3, s4, s5, s6, s7] ++ L, [s0, s1, s2, s3, s4, s5, s6, s7] ++ out,
      [a, b, c, d, e] ++ dec, ?_, ?_, ?_, ?_, ?_⟩
    · simp only [base32_encode_loop, hg, hL, Option.bind_eq_bind, Option.some_bind]
      rfl
    · have hn' : (8 * (a :: b :: c :: d :: e :: rest).length + 4) / 5 =
          [s0, s1, s2, s3, s4, s5, s6, s7].length + (8 * rest.length + 4) / 5 := by
        simp only [List.length_cons, List.length_nil]; omega
      rw [hn', encode_pad_append 8 [s0, s1, s2, s3, s4, s5, s6, s7] (by simp)
        (8 * ((rest.length + 4) / 5)) (by omega)
        (by simp only [List.length_cons, List.length_nil]; omega) _ _ _ (by omega), hpad]
      simp only [Option.map_some', List.length_append, List.length_cons, List.length_nil]
    · have hd' := base32_decode_loop_cons s0 s1 s2 s3 s4 s5 s6 s7 out _ dec hdg hdec
      rw [show [s0, s1, s2, s3, s4, s5, s6, s7] ++ out =
        s0 :: s1 :: s2 :: s3 :: s4 :: s5 :: s6 :: s7 :: out from rfl, hd']
      have e1 : a / 8 % 32 * 8 + (a % 8 * 4 + b / 64) / 4 % 8 = a := by omega
      have e2 : (a % 8 * 4 + b / 64) % 4 * 64 + b / 2 % 32 % 32 * 2 +
          (b % 2 * 16 + c / 16) / 16 % 2 = b := by omega
      have e3 : (b % 2 * 16 + c / 16) % 16 * 16 + (c % 16 * 2 + d / 128) / 2 % 16 = c := by omega
      have e4 : (c % 16 * 2 + d / 128) % 2 * 128 + d / 4 % 32 % 32 * 4 +
          (d % 4 * 8 + e / 32) / 8 % 4 = d := by omega
      have e5 : (d % 4 * 8 + e / 32) % 8 * 32 + e % 32 % 32 = e := by omega
      rw [e1, e2, e3, e4, e5]
    · have : decode_tmp_len ([s0, s1, s2, s3, s4, s5, s6, s7] ++ out) =
          decode_tmp_len out + 8 := by
        simp [decode_tmp_len, n0, n1, n2, n3, n4, n5, n6, n7]
      rw [this]
      simp only [List.length_cons]
      omega
    · simp only [List.length_cons, List.cons_append, List.nil_append, List.take_succ_cons]
      rw [htake]

theorem base32_round_trip {t f : Nat → Option Nat} (hal : codec_alphabet 32 t f) (x : List Nat)
    (hx : ∀ b ∈ x, b < 256) (hn : 8 * ((x.length + 4) / 5) ≤ INT_MAX) :
    round_trip base32_encode base32_decode t f x := by
  obtain ⟨L, out, dec, hL, hpad, hdec, htmp, htake⟩ := base32_round_trip_aux hal x hx hn
  refine ⟨out, out.length, dec, ?_, ?_, htake⟩
  · unfold base32_encode
    rw [hL, encode_out_len_eq 5 x.length (by omega)]
    exact hpad
  · unfold base32_decode
    rw [List.take_length, hdec, htmp]
    rfl

theorem codec_alphabet_base64url : codec_alphabet 64 int_to_base64url base64url_to_int :=
  ⟨by decide, ⟨_, by decide, rfl⟩⟩

theorem codec_alphabet_itoa64 : codec_alphabet 64 int_to_itoa64 itoa64_to_int :=
  ⟨by decide, ⟨_, by decide, rfl⟩⟩

theorem codec_alphabet_bf64 : codec_alphabet 64 int_to_bf64 bf64_to_int :=
  ⟨by decide, ⟨_, by decide, rfl⟩⟩

theorem codec_alphabet_lotus64 : codec_alphabet 64 int_to_lotus64 lotus64_to_int :=
  ⟨by decide, ⟨_, by decide, rfl⟩⟩

theorem codec_alphabet_base32 : codec_alphabet 32 int_to_base32 base32_to_int :=
  ⟨by decide, ⟨_, by decide, rfl⟩⟩

theorem codec_alphabet_itoa32 : codec_alphabet 32 int_to_itoa32 itoa32_to_int :=
  ⟨by decide, ⟨_, by decide, rfl⟩⟩

/-- C1: base64-family round trip. For each of the five 6-bit alphabet pairs and
every byte buffer `x` whose encoded length `4 * ceil (n / 3)` fits an `int`,
`base64_encode` stores `out` and returns `m`, `base64_decode` applied to
`out[0 .. m)` returns the length of `x`, and the first bytes it stores are
`x`. -/
theorem C1_base64_round_trip (x : List Nat) (hx : ∀ b ∈ x, b < 256)
    (hn : 4 * ((x.length + 2) / 3) ≤ INT_MAX) :
    round_trip base64_encode base64_decode int_to_base64 base64_to_int x ∧
    round_trip base64_encode base64_decode int_to_base64url base64url_to_int x ∧
    round_trip base64_encode base64_decode int_to_itoa64 itoa64_to_int x ∧
    round_trip base64_encode base64_decode int_to_bf64 bf64_to_int x ∧
    round_trip base64_encode base64_decode int_to_lotus64 lotus64_to_int x :=
  ⟨base64_round_trip codec_alphabet_base64 x hx hn,
    base64_round_trip codec_alphabet_base64url x hx hn,
    base64_round_trip codec_alphabet_itoa64 x hx hn,
    base64_round_trip codec_alphabet_bf64 x hx hn,
    base64_round_trip codec_alphabet_lotus64 x hx hn⟩

/-- Witness for C1 at the 4-byte buffer `00 41 FF 7E`. -/
theorem C1_base64_round_trip_witness :
    (∀ b ∈ [0x00, 0x41, 0xff, 0x7e], b < 256) ∧
    4 * (([0x00, 0x41, 0xff, 0x7e].length + 2) / 3) ≤ INT_MAX ∧
    round_trip base64_encode base64_decode int_to_base64 base64_to_int [0x00, 0x41, 0xff, 0x7e] ∧
    round_trip base64_encode base64_decode int_to_itoa64 itoa64_to_int [0x00, 0x41, 0xff, 0x7e] :=
  have h := C1_base64_round_trip [0x00, 0x41, 0xff, 0x7e] (by decide) (by decide)
  ⟨by decide, by decide, h.1, h.2.2.1⟩

/-- C2: base32-family round trip. For each of the two 5-bit alphabet pairs and
every byte buffer `x` whose encoded length `8 * ceil (n / 5)` fits an `int`,
`base32_encode` stores `out` and returns `m`, `base32_decode` applied to
`out[0 .. m)` returns the length of `x`, and the first bytes it stores are
`x`. -/
theorem C2_base32_round_trip (x : List Nat) (hx : ∀ b ∈ x, b < 256)
    (hn : 8 * ((x.length + 4) / 5) ≤ INT_MAX) :
    round_trip base32_encode base32_decode int_to_base32 base32_to_int x ∧
    round_trip base32_encode base32_decode int_to_itoa32 itoa32_to_int x :=
  ⟨base32_round_trip codec_alphabet_base32 x hx hn,
    base32_round_trip codec_alphabet_itoa32 x hx hn⟩

/-- Witness for C2 at the 6-byte buffer `"hello!"`. -/
theorem C2_base32_round_trip_witness :
    (∀ b ∈ [0x68, 0x65, 0x6c, 0x6c, 0x6f, 0x21], b < 256) ∧
    8 * (([0x68, 0x65, 0x6c, 0x6c, 0x6f, 0x21].length + 4) / 5) ≤ INT_MAX ∧
    round_trip base32_encode base32_decode int_to_base32 base32_to_int
      [0x68, 0x65, 0x6c, 0x6c, 0x6f, 0x21] ∧
    round_trip base32_encode base32_decode int_to_itoa32 itoa32_to_int
      [0x68, 0x65, 0x6c, 0x6c, 0x6f, 0x21] :=
  have h := C2_base32_round_trip [0x68, 0x65, 0x6c, 0x6c, 0x6f, 0x21] (by decide) (by decide)
  ⟨by decide, by decide, h.1, h.2⟩

/-! ### Alphabet tables -/

/-- C10: every alphabet's symbol-to-index function inverts its index-to-symbol
function on all valid indices (0..63 for the five 6-bit alphabets, 0..31 for the
two 5-bit alphabets). -/
theorem C10_alphabet_inverse :
    alphabet_inverse 64 int_to_base64 base64_to_int ∧
    alphabet_inverse 64 int_to_base64url base64url_to_int ∧
    alphabet_inverse 64 int_to_itoa64 itoa64_to_int ∧
    alphabet_inverse 64 int_to_bf64 bf64_to_int ∧
    alphabet_inverse 64 int_to_lotus64 lotus64_to_int ∧
    alphabet_inverse 32 int_to_base32 base32_to_int ∧
    alphabet_inverse 32 int_to_itoa32 itoa32_to_int := by
  refine ⟨?_, ?_, ?_, ?_, ?_, ?_, ?_⟩ <;> decide

/-! ### Fallback of the symbol-to-index functions -/

theorem zero_fallback_of_ok {n : Nat} {t f : Nat → Option Nat}
    (h : ∀ c, c < 256 → fallback_ok n t f c = true) : zero_fallback n t f := by
  intro c hc hnot
  have hok := h c hc
  unfold fallback_ok at hok
  cases hv : f c with
  | none => rw [hv] at hok; cases hok
  | some v =>
    rw [hv] at hok
    simp only [Bool.or_eq_true, beq_iff_eq, Bool.and_eq_true, decide_eq_true_eq] at hok
    rcases hok with h0 | ⟨hlt, hsym⟩
    · rw [h0]
    · exact absurd hsym (hnot v hlt)

theorem itoa64_to_int_lt : ∀ c, c < 256 → (itoa64_to_int c).any (fun v => decide (v < 64)) = true := by
  decide

/-- C11 (as stated, refuted): the byte `00` is not a symbol of the itoa64
alphabet and `itoa64_to_int` maps it to `0x12`, not to 0. -/
theorem C11_counterexample :
    (∀ i, i < 64 → int_to_itoa64 i ≠ some 0x00) ∧ itoa64_to_int 0x00 = some 0x12 ∧
    ¬ zero_fallback 64 int_to_itoa64 itoa64_to_int := by
  have h1 : ∀ i, i < 64 → int_to_itoa64 i ≠ some 0x00 := by decide
  have h2 : itoa64_to_int 0x00 = some 0x12 := by decide
  refine ⟨h1, h2, fun h => ?_⟩
  have h3 := h 0x00 (by decide) h1
  rw [h2] at h3
  exact absurd h3 (by decide)

/-- C11 (amended): `base64_to_int`, `base64url_to_int`, `bf64_to_int`,
`lotus64_to_int`, `base32_to_int` and `itoa32_to_int` map every byte that is not
a symbol of their alphabet to 0; `itoa64_to_int` maps every byte to an index
below 64, taken from its 256-entry table. -/
theorem C11_zero_fallback :
    zero_fallback 64 int_to_base64 base64_to_int ∧
    zero_fallback 64 int_to_base64url base64url_to_int ∧
    zero_fallback 64 int_to_bf64 bf64_to_int ∧
    zero_fallback 64 int_to_lotus64 lotus64_to_int ∧
    zero_fallback 32 int_to_base32 base32_to_int ∧
    zero_fallback 32 int_to_itoa32 itoa32_to_int ∧
    ∀ c, c < 256 → ∃ v, v < 64 ∧ itoa64_to_int c = some v := by
  refine ⟨zero_fallback_of_ok (by decide), zero_fallback_of_ok (by decide),
    zero_fallback_of_ok (by decide), zero_fallback_of_ok (by decide),
    zero_fallback_of_ok (by decide), zero_fallback_of_ok (by decide), ?_⟩
  intro c hc
  have h := itoa64_to_int_lt c hc
  cases hv : itoa64_to_int c with
  | none => rw [hv] at h; cases h
  | some v =>
    rw [hv] at h
    exact ⟨v, by simpa using h, rfl⟩

/-! ### Decoders: returned length and bytes stored -/

theorem decode_tmp_len_eq (s : List Nat) :
    ∀ p, p ≤ s.length → (∀ i, i < p → s[i]? ≠ some 0x3d) →
      (p < s.length → s[p]? = some 0x3d) → decode_tmp_len s = p := by
  induction s with
  | nil =>
    intro p hp _ _
    simp only [List.length_nil] at hp
    simp only [decode_tmp_len]
    omega
  | cons c rest ih =>
    intro p hp hbefore hat
    rw [decode_tmp_len]
    cases p with
    | zero =>
      have h0 := hat (by simp)
      simp only [List.getElem?_cons_zero, Option.some.injEq] at h0
      rw [if_neg (by simpa using h0)]
    | succ p =>
      have h0 := hbefore 0 (by omega)
      simp only [List.getElem?_cons_zero, ne_eq, Option.some.injEq] at h0
      rw [if_pos h0]
      simp only [List.length_cons] at hp hat
      rw [ih p (by omega) (fun i hi => by simpa using hbefore (i + 1) (by omega))
        (fun hlt => by simpa using hat (by omega))]

theorem and_7f_lt (c : Nat) : c &&& 0x7f < 128 :=
  Nat.lt_of_le_of_lt Nat.and_le_right (by decide)

theorem base64_decode_group_some {f : Nat → Option Nat}
    (hf : ∀ c, c < 128 → (f c).isSome = true) (a b c d : Nat) :
    ∃ g, base64_decode_group f a b c d = some g ∧ g.length = 3 := by
  obtain ⟨v0, h0⟩ := Option.isSome_iff_exists.mp (hf _ (and_7f_lt a))
  obtain ⟨v1, h1⟩ := Option.isSome_iff_exists.mp (hf _ (and_7f_lt b))
  obtain ⟨v2, h2⟩ := Option.isSome_iff_exists.mp (hf _ (and_7f_lt c))
  obtain ⟨v3, h3⟩ := Option.isSome_iff_exists.mp (hf _ (and_7f_lt d))
  unfold base64_decode_group
  rw [h0, h1, h2, h3]
  exact ⟨_, rfl, rfl⟩

theorem base64_decode_loop_some {f : Nat → Option Nat}
    (hf : ∀ c, c < 128 → (f c).isSome = true) :
    ∀ s : List Nat, ∃ out, base64_decode_loop f s = some out ∧
      out.length = 3 * ((s.length + 3) / 4)
  | [] => ⟨[], rfl, rfl⟩
  | [a] => by
    obtain ⟨g, hg, hl⟩ := base64_decode_group_some hf a 0 0 0
    exact ⟨g, hg, by rw [hl]; simp⟩
  | [a, b] => by
    obtain ⟨g, hg, hl⟩ := base64_decode_group_some hf a b 0 0
    exact ⟨g, hg, by rw [hl]; simp⟩
  | [a, b, c] => by
    obtain ⟨g, hg, hl⟩ := base64_decode_group_some hf a b c 0
    exact ⟨g, hg, by rw [hl]; simp⟩
  | a :: b :: c :: d :: rest => by
    obtain ⟨g, hg, hl⟩ := base64_decode_group_some hf a b c d
    obtain ⟨out, hout, hlen⟩ := base64_decode_loop_some hf rest
    refine ⟨g ++ out, base64_decode_loop_cons a b c d rest g out hg hout, ?_⟩
    rw [List.length_append, hl, hlen]
    simp only [List.length_cons]
    omega

theorem base32_decode_group_some {f : Nat → Option Nat}
    (hf : ∀ c, c < 128 → (f c).isSome = true) (a0 a1 a2 a3 a4 a5 a6 a7 : Nat) :
    ∃ g, base32_decode_group f a0 a1 a2 a3 a4 a5 a6 a7 = some g ∧ g.length = 5 := by
  obtain ⟨v0, h0⟩ := Option.isSome_iff_exists.mp (hf _ (and_7f_lt a0))
  obtain ⟨v1, h1⟩ := Option.isSome_iff_exists.mp (hf _ (and_7f_lt a1))
  obtain ⟨v2, h2⟩ := Option.isSome_iff_exists.mp (hf _ (and_7f_lt a2))
  obtain ⟨v3, h3⟩ := Option.isSome_iff_exists.mp (hf _ (and_7f_lt a3))
  obtain ⟨v4, h4⟩ := Option.isSome_iff_exists.mp (hf _ (and_7f_lt a4))
  obtain ⟨v5, h5⟩ := Option.isSome_iff_exists.mp (hf _ (and_7f_lt a5))
  obtain ⟨v6, h6⟩ := Option.isSome_iff_exists.mp (hf _ (and_7f_lt a6))
  obtain ⟨v7, h7⟩ := Option.isSome_iff_exists.mp (hf _ (and_7f_lt a7))
  unfold base32_decode_group
  rw [h0, h1, h2, h3, h4, h5, h6, h7]
  exact ⟨_, rfl, rfl⟩

theorem base32_decode_loop_some {f : Nat → Option Nat}
    (hf : ∀ c, c < 128 → (f c).isSome = true) :
    ∀ s : List Nat, ∃ out, base32_decode_loop f s = some out ∧
      out.length = 5 * ((s.length + 7) / 8)
  | [] => ⟨[], rfl, rfl⟩
  | [a0] => by
    obtain ⟨g, hg, hl⟩ := base32_decode_group_some hf a0 0 0 0 0 0 0 0
    exact ⟨g, hg, by rw [hl]; simp⟩
  | [a0, a1] => by
    obtain ⟨g, hg, hl⟩ := base32_decode_group_some hf a0 a1 0 0 0 0 0 0
    exact ⟨g, hg, by rw [hl]; simp⟩
  | [a0, a1, a2] => by
    obtain ⟨g, hg, hl⟩ := base32_decode_group_some hf a0 a1 a2 0 0 0 0 0
    exact ⟨g, hg, by rw [hl]; simp⟩
  | [a0, a1, a2, a3] => by
    obtain ⟨g, hg, hl⟩ := base32_decode_group_some hf a0 a1 a2 a3 0 0 0 0
    exact ⟨g, hg, by rw [hl]; simp⟩
  | [a0, a1, a2, a3, a4] => by
    obtain ⟨g, hg, hl⟩ := base32_decode_group_some hf a0 a1 a2 a3 a4 0 0 0
    exact ⟨g, hg, by rw [hl]; simp⟩
  | [a0, a1, a2, a3, a4, a5] => by
    obtain ⟨g, hg, hl⟩ := base32_decode_group_some hf a0 a1 a2 a3 a4 a5 0 0
    exact ⟨g, hg, by rw [hl]; simp⟩
  | [a0, a1, a2, a3, a4, a5, a6] => by
    obtain ⟨g, hg, hl⟩ := base32_decode_group_some hf a0 a1 a2 a3 a4 a5 a6 0
    exact ⟨g, hg, by rw [hl]; simp⟩
  | a0 :: a1 :: a2 :: a3 :: a4 :: a5 :: a6 :: a7 :: rest => by
    obtain ⟨g, hg, hl⟩ := base32_decode_group_some hf a0 a1 a2 a3 a4 a5 a6 a7
    obtain ⟨out, hout, hlen⟩ := base32_decode_loop_some hf rest
    refine ⟨g ++ out, base32_decode_loop_cons a0 a1 a2 a3 a4 a5 a6 a7 rest g out hg hout, ?_⟩
    rw [List.length_append, hl, hlen]
    simp only [List.length_cons]
    omega

theorem base64_decode_eq {f : Nat → Option Nat} (hf : ∀ c, c < 128 → (f c).isSome = true)
    (s : List Nat) :
    ∃ out, base64_decode f s = some (out, decode_tmp_len s * 6 / 8) ∧
      out.length = 3 * ((s.length + 3) / 4) := by
  obtain ⟨out, hout, hlen⟩ := base64_decode_loop_some hf s
  refine ⟨out, ?_, hlen⟩
  unfold base64_decode
  rw [hout]
  rfl

theorem base32_decode_eq {f : Nat → Option Nat} (hf : ∀ c, c < 128 → (f c).isSome = true)
    (s : List Nat) :
    ∃ out, base32_decode f s = some (out, decode_tmp_len s * 5 / 8) ∧
      out.length = 5 * ((s.length + 7) / 8) := by
  obtain ⟨out, hout, hlen⟩ := base32_decode_loop_some hf s
  refine ⟨out, ?_, hlen⟩
  unfold base32_decode
  rw [hout]
  rfl

theorem from_symbol_defined :
    (∀ c, c < 128 → (base64_to_int c).isSome = true) ∧
    (∀ c, c < 128 → (base64url_to_int c).isSome = true) ∧
    (∀ c, c < 128 → (itoa64_to_int c).isSome = true) ∧
    (∀ c, c < 128 → (bf64_to_int c).isSome = true) ∧
    (∀ c, c < 128 → (lotus64_to_int c).isSome = true) ∧
    (∀ c, c < 128 → (base32_to_int c).isSome = true) ∧
    (∀ c, c < 128 → (itoa32_to_int c).isSome = true) := by
  refine ⟨?_, ?_, ?_, ?_, ?_, ?_, ?_⟩ <;> decide

/-- C14: the decoded length is fixed by the first pad symbol and the decoders
always return. For an alphabet function defined on the 7-bit values (as the
seven symbol-to-index functions are), any input `s`, and `p` the index of the
first `=` of `s` (the length of `s` when it holds none), `base64_decode` returns
`p * 6 / 8` and `base32_decode` returns `p * 5 / 8`. A `=` before the last
group cuts the length there: `QQ=QQQQQ` decodes to length 1. -/
theorem C14_decode_length (f : Nat → Option Nat) (s : List Nat) (p : Nat)
    (hf : ∀ c, c < 128 → (f c).isSome = true) (hp : p ≤ s.length)
    (hbefore : ∀ i, i < p → s[i]? ≠ some 0x3d) (hat : p < s.length → s[p]? = some 0x3d) :
    (∃ out, base64_decode f s = some (out, p * 6 / 8)) ∧
    (∃ out, base32_decode f s = some (out, p * 5 / 8)) ∧
    base64_decode base64_to_int [0x51, 0x51, 0x3d, 0x51, 0x51, 0x51, 0x51, 0x51] =
      some ([0x41, 0x00, 0x10, 0x41, 0x04, 0x10], 1) := by
  have htmp := decode_tmp_len_eq s p hp hbefore hat
  obtain ⟨o1, h1, _⟩ := base64_decode_eq hf s
  obtain ⟨o2, h2, _⟩ := base32_decode_eq hf s
  rw [htmp] at h1 h2
  exact ⟨⟨o1, h1⟩, ⟨o2, h2⟩, by decide⟩

/-- Witness for C14 at `f = base64_to_int` and the input `QUI=` with its pad at
index 3. -/
theorem C14_decode_length_witness :
    (∀ c, c < 128 → (base64_to_int c).isSome = true) ∧
    (∃ out, base64_decode base64_to_int [0x51, 0x55, 0x49, 0x3d] = some (out, 2)) ∧
    (∃ out, base32_decode base64_to_int [0x51, 0x55, 0x49, 0x3d] = some (out, 1)) :=
  have h := C14_decode_length base64_to_int [0x51, 0x55, 0x49, 0x3d] 3 (by decide) (by decide)
    (by decide) (by decide)
  ⟨by decide, h.1, h.2.1⟩

/-- C15 (as stated, refuted): on the one-byte inputs `Q` and `A` the decoders
store a whole group, three bytes for `base64_decode` and five for
`base32_decode`, so they write at the indices 1 and 2 (and 3, 4), which are not
below `in_len = 1`. -/
theorem C15_counterexample :
    base64_decode base64_to_int [0x51] = some ([0x40, 0, 0], 0) ∧
    base32_decode base32_to_int [0x41] = some ([0, 0, 0, 0, 0], 0) ∧
    ¬ ([0x40, 0, 0] : List Nat).length ≤ [0x51].length := by
  decide

/-- C15 (amended): for an alphabet function defined on the 7-bit values and an
input of length `in_len`, `base64_decode` stores exactly the output indices below
`3 * ceil (in_len / 4)` and `base32_decode` those below `5 * ceil (in_len / 8)`.
All of them are below `in_len` unless `in_len` is 1, 2 or 5 (`base64_decode`),
respectively 1, 2, 3, 4 or 9 (`base32_decode`), where one more group is
stored than `in_len` bytes hold. -/
theorem C15_decode_capacity (f : Nat → Option Nat) (s : List Nat)
    (hf : ∀ c, c < 128 → (f c).isSome = true) :
    (∃ out r, base64_decode f s = some (out, r) ∧ out.length = 3 * ((s.length + 3) / 4) ∧
      (out.length ≤ s.length ↔ s.length ≠ 1 ∧ s.length ≠ 2 ∧ s.length ≠ 5)) ∧
    (∃ out r, base32_decode f s = some (out, r) ∧ out.length = 5 * ((s.length + 7) / 8) ∧
      (out.length ≤ s.length ↔
        s.length ≠ 1 ∧ s.length ≠ 2 ∧ s.length ≠ 3 ∧ s.length ≠ 4 ∧ s.length ≠ 9)) := by
  obtain ⟨o1, h1, l1⟩ := base64_decode_eq hf s
  obtain ⟨o2, h2, l2⟩ := base32_decode_eq hf s
  refine ⟨⟨o1, _, h1, l1, ?_⟩, ⟨o2, _, h2, l2, ?_⟩⟩
  · rw [l1]; omega
  · rw [l2]; omega

/-- Witness for C15 (amended) at `f = base64_to_int` and the input `QUI=`. -/
theorem C15_decode_capacity_witness :
    (∀ c, c < 128 → (base64_to_int c).isSome = true) ∧
    (∃ out r, base64_decode base64_to_int [0x51, 0x55, 0x49, 0x3d] = some (out, r) ∧
      out.length = 3 ∧ out.length ≤ 4) := by
  obtain ⟨⟨out, r, h, hl, hiff⟩, _⟩ :=
    C15_decode_capacity base64_to_int [0x51, 0x55, 0x49, 0x3d] (by decide)
  exact ⟨by decide, out, r, h, hl, hiff.mpr (by decide)⟩

/-! ### Encoders: bit slicing, length and padding -/

theorem zero_fill_nil (g : Nat) : zero_fill g [] = [] := by
  simp [zero_fill]

theorem bit_string_nil (g : Nat) : bit_string g [] = [] := by
  simp [bit_string, zero_fill_nil]

theorem bit_slice_append (w : Nat) (pre bs : List Nat) (q k : Nat) (hpre : pre.length = w * q)
    (hk : q ≤ k) : bit_slice w (pre ++ bs) k = bit_slice w bs (k - q) := by
  unfold bit_slice
  have h : w * k = pre.length + w * (k - q) := by
    rw [hpre, ← Nat.mul_add]
    congr 1
    omega
  rw [h, List.drop_append]

theorem bit_slice6_group (a b c : Nat) (bs : List Nat) (ha : a < 256) (hb : b < 256)
    (hc : c < 256) :
    bit_slice 6 (byte_bits a ++ (byte_bits b ++ (byte_bits c ++ bs))) 0 = a / 4 ∧
    bit_slice 6 (byte_bits a ++ (byte_bits b ++ (byte_bits c ++ bs))) 1 = a % 4 * 16 + b / 16 ∧
    bit_slice 6 (byte_bits a ++ (byte_bits b ++ (byte_bits c ++ bs))) 2 = b % 16 * 4 + c / 64 ∧
    bit_slice 6 (byte_bits a ++ (byte_bits b ++ (byte_bits c ++ bs))) 3 = c % 64 := by
  refine ⟨?_, ?_, ?_, ?_⟩ <;> simp [bit_slice, byte_bits, bits_value] <;> omega

theorem base64_encode_group_eq {f : Nat → Option Nat} (a b c : Nat) (g : List Nat)
    (ha : a < 256) (hb : b < 256) (hc : c < 256) (h : base64_encode_group f a b c = some g) :
    ∃ s0 s1 s2 s3, f (a / 4) = some s0 ∧ f (a % 4 * 16 + b / 16) = some s1 ∧
      f (b % 16 * 4 + c / 64) = some s2 ∧ f (c % 64) = some s3 ∧
      g = [s0 &&& 0x7f, s1 &&& 0x7f, s2 &&& 0x7f, s3 &&& 0x7f] := by
  obtain ⟨e0, e1, e2, e3⟩ := base64_encode_vals a b c ha hb hc
  unfold base64_encode_group at h
  rw [e0, e1, e2, e3] at h
  simp only [Option.bind_eq_bind, Option.bind_eq_some, Option.pure_def, Option.some.injEq] at h
  obtain ⟨s0, h0, s1, h1, s2, h2, s3, h3, hg⟩ := h
  exact ⟨s0, s1, s2, s3, h0, h1, h2, h3, hg.symm⟩

theorem base64_encode_group_some {f : Nat → Option Nat}
    (hf : ∀ i, i < 64 → (f i).isSome = true) (a b c : Nat)
    (ha : a < 256) (hb : b < 256) (hc : c < 256) :
    ∃ g, base64_encode_group f a b c = some g := by
  obtain ⟨e0, e1, e2, e3⟩ := base64_encode_vals a b c ha hb hc
  obtain ⟨s0, h0⟩ := Option.isSome_iff_exists.mp (hf (a / 4) (by omega))
  obtain ⟨s1, h1⟩ := Option.isSome_iff_exists.mp (hf (a % 4 * 16 + b / 16) (by omega))
  obtain ⟨s2, h2⟩ := Option.isSome_iff_exists.mp (hf (b % 16 * 4 + c / 64) (by omega))
  obtain ⟨s3, h3⟩ := Option.isSome_iff_exists.mp (hf (c % 64) (by omega))
  unfold base64_encode_group
  rw [e0, e1, e2, e3, h0, h1, h2, h3]
  exact ⟨_, rfl⟩

/-- What one iteration of `base64_encode` stores, for any alphabet function: the
`k`-th of its four symbols is the alphabet function at the `k`-th 6-bit slice of
the three bytes, masked with `0x7f`. -/
theorem base64_encode_group_slices {f : Nat → Option Nat} (a b c : Nat) (g bs : List Nat)
    (ha : a < 256) (hb : b < 256) (hc : c < 256) (h : base64_encode_group f a b c = some g) :
    g.length = 4 ∧ ∀ k, k < 4 →
      bit_slice 6 (byte_bits a ++ (byte_bits b ++ (byte_bits c ++ bs))) k < 64 ∧
      ∃ s, f (bit_slice 6 (byte_bits a ++ (byte_bits b ++ (byte_bits c ++ bs))) k) = some s ∧
        g[k]? = some (s &&& 0x7f) := by
  obtain ⟨s0, s1, s2, s3, h0, h1, h2, h3, hg⟩ := base64_encode_group_eq a b c g ha hb hc h
  obtain ⟨b0, b1, b2, b3⟩ := bit_slice6_group a b c bs ha hb hc
  subst hg
  refine ⟨rfl, ?_⟩
  intro k hk
  interval_cases k
  · rw [b0]; exact ⟨by omega, s0, h0, rfl⟩
  · rw [b1]; exact ⟨by omega, s1, h1, rfl⟩
  · rw [b2]; exact ⟨by omega, s2, h2, rfl⟩
  · rw [b3]; exact ⟨by omega, s3, h3, rfl⟩

theorem bit_string3_cons (a b c : Nat) (rest : List Nat) :
    bit_string 3 (a :: b :: c :: rest) =
      byte_bits a ++ (byte_bits b ++ (byte_bits c ++ bit_string 3 rest)) := by
  have h : (a :: b :: c :: rest).length % 3 = rest.length % 3 := by
    simp only [List.length_cons]; omega
  simp only [bit_string, zero_fill, h, List.cons_append, List.flatMap_cons]

theorem base64_encode_loop_spec {f : Nat → Option Nat} :
    ∀ x : List Nat, (∀ b ∈ x, b < 256) → ∀ L, base64_encode_loop f x = some L →
      L.length = 4 * ((x.length + 2) / 3) ∧ ∀ k, k < L.length →
        bit_slice 6 (bit_string 3 x) k < 64 ∧
        ∃ s, f (bit_slice 6 (bit_string 3 x) k) = some s ∧ L[k]? = some (s &&& 0x7f)
  | [], _, L, h => by
    simp only [base64_encode_loop, Option.some.injEq] at h
    subst h
    exact ⟨rfl, fun k hk => absurd hk (by simp)⟩
  | [a], hx, L, h => by
    have ha : a < 256 := hx a (by simp)
    have hbits : bit_string 3 [a] = byte_bits a ++ (byte_bits 0 ++ (byte_bits 0 ++ [])) := by
      simp [bit_string, zero_fill]
    obtain ⟨hl, hk⟩ := base64_encode_group_slices a 0 0 L [] ha (by decide) (by decide) h
    rw [hbits, hl]
    exact ⟨by simp, hk⟩
  | [a, b], hx, L, h => by
    have ha : a < 256 := hx a (by simp)
    have hb : b < 256 := hx b (by simp)
    have hbits : bit_string 3 [a, b] = byte_bits a ++ (byte_bits b ++ (byte_bits 0 ++ [])) := by
      simp [bit_string, zero_fill]
    obtain ⟨hl, hk⟩ := base64_encode_group_slices a b 0 L [] ha hb (by decide) h
    rw [hbits, hl]
    exact ⟨by simp, hk⟩
  | a :: b :: c :: rest, hx, L, h => by
    have ha : a < 256 := hx a (by simp)
    have hb : b < 256 := hx b (by simp)
    have hc : c < 256 := hx c (by simp)
    simp only [base64_encode_loop, Option.bind_eq_bind, Option.bind_eq_some, Option.pure_def,
      Option.some.injEq] at h
    obtain ⟨g, hg, Lr, hLr, hL⟩ := h
    subst hL
    obtain ⟨hl, hk⟩ := base64_encode_group_slices a b c g (bit_string 3 rest) ha hb hc hg
    obtain ⟨hlr, hkr⟩ := base64_encode_loop_spec rest (fun y hy => hx y (by simp [hy])) Lr hLr
    rw [bit_string3_cons]
    refine ⟨by rw [List.length_append, hl, hlr]; simp only [List.length_cons]; omega, ?_⟩
    intro k hklt
    by_cases hk4 : k < 4
    · rw [List.getElem?_append_left (by omega)]
      exact hk k hk4
    · rw [List.length_append, hl] at hklt
      have hpre : (byte_bits a ++ (byte_bits b ++ (byte_bits c ++ bit_string 3 rest))) =
          (byte_bits a ++ byte_bits b ++ byte_bits c) ++ bit_string 3 rest := by
        simp only [List.append_assoc]
      rw [hpre, bit_slice_append 6 _ _ 4 k (by simp [byte_bits]) (by omega),
        List.getElem?_append_right (by omega), hl]
      exact hkr (k - 4) (by omega)

theorem base64_encode_loop_some {f : Nat → Option Nat}
    (hf : ∀ i, i < 64 → (f i).isSome = true) :
    ∀ x : List Nat, (∀ b ∈ x, b < 256) → ∃ L, base64_encode_loop f x = some L
  | [], _ => ⟨[], rfl⟩
  | [a], hx => base64_encode_group_some hf a 0 0 (hx a (by simp)) (by decide) (by decide)
  | [a, b], hx =>
    base64_encode_group_some hf a b 0 (hx a (by simp)) (hx b (by simp)) (by decide)
  | a :: b :: c :: rest, hx => by
    obtain ⟨g, hg⟩ :=
      base64_encode_group_some hf a b c (hx a (by simp)) (hx b (by simp)) (hx c (by simp))
    obtain ⟨Lr, hLr⟩ := base64_encode_loop_some hf rest fun y hy => hx y (by simp [hy])
    exact ⟨g ++ Lr, by
      simp only [base64_encode_loop, hg, hLr, Option.bind_eq_bind, Option.some_bind]; rfl⟩

theorem take_succ_set (L : List Nat) (v : Nat) :
    ∀ c, c < L.length → (L.set c v).take (c + 1) = L.take c ++ [v] := by
  induction L with
  | nil => intro c hc; simp at hc
  | cons a L ih =>
    intro c hc
    cases c with
    | zero => simp
    | succ c =>
      simp only [List.length_cons] at hc
      simp [ih c (by omega)]

/-- The padding loop of the encoders, in closed form: started at `c` on the `m`
symbols `L` of the main loop, with `m` a multiple of `k` and fewer than `k`
symbols after `c`, it keeps the first `c` symbols, stores `=` at the indices
from `c` to `m - 1`, and ends with `out_len = m`. -/
theorem encode_pad_eq (k : Nat) :
    ∀ fuel (L : List Nat) c, c ≤ L.length → L.length % k = 0 → L.length - c ≤ fuel →
      L.length - c < k → L.length ≤ INT_MAX →
      encode_pad k fuel L c =
        some (L.take c ++ List.replicate (L.length - c) 0x3d, L.length) := by
  intro fuel
  induction fuel with
  | zero =>
    intro L c hc hm hfuel _ _
    have hcl : c = L.length := by omega
    subst hcl
    simp [encode_pad, hm]
  | succ fuel ih =>
    intro L c hc hm hfuel hk hmax
    rw [encode_pad]
    by_cases hcm : c % k = 0
    · have hdvd : k ∣ L.length - c :=
        Nat.dvd_sub' (Nat.dvd_of_mod_eq_zero hm) (Nat.dvd_of_mod_eq_zero hcm)
      have hz : L.length - c = 0 := Nat.eq_zero_of_dvd_of_lt hdvd hk
      have hcl : c = L.length := by omega
      subst hcl
      simp [hcm]
    · have hlt : c < L.length := by
        rcases Nat.lt_or_ge c L.length with h | h
        · exact h
        · have hcl : c = L.length := by omega
          rw [hcl] at hcm
          exact absurd hm hcm
      rw [if_pos hcm, if_pos (by omega)]
      unfold poke
      rw [if_pos hlt, Option.some_bind,
        ih (L.set c 0x3d) (c + 1) (by simp; omega) (by simpa using hm) (by simp; omega)
          (by simp; omega) (by simpa using hmax)]
      rw [take_succ_set L 0x3d c hlt, List.length_set]
      have hrep : L.length - c = (L.length - (c + 1)) + 1 := by omega
      rw [hrep, List.replicate_succ]
      simp

theorem base64_encode_eq {f : Nat → Option Nat} (hf : ∀ i, i < 64 → (f i).isSome = true)
    (x : List Nat) (hx : ∀ b ∈ x, b < 256) (hn : 4 * ((x.length + 2) / 3) ≤ INT_MAX) :
    ∃ L, base64_encode_loop f x = some L ∧ L.length = 4 * ((x.length + 2) / 3) ∧
      base64_encode f x =
        some (L.take ((8 * x.length + 5) / 6) ++
          List.replicate (4 * ((x.length + 2) / 3) - (8 * x.length + 5) / 6) 0x3d,
          4 * ((x.length + 2) / 3)) := by
  obtain ⟨L, hL⟩ := base64_encode_loop_some hf x hx
  obtain ⟨hlen, _⟩ := base64_encode_loop_spec x hx L hL
  refine ⟨L, hL, hlen, ?_⟩
  have hc : (8 * x.length + 4) / 6 = (8 * x.length + 5) / 6 := by omega
  unfold base64_encode
  rw [hL, encode_out_len_eq 6 x.length (by omega)]
  simp only [Option.bind_eq_bind, Option.some_bind]
  rw [encode_pad_eq 4 4 L _ (by omega) (by omega) (by omega) (by omega) (by omega), hc, hlen]

theorem bit_slice5_group (a b c d e : Nat) (bs : List Nat) (ha : a < 256) (hb : b < 256)
    (hc : c < 256) (hd : d < 256) (he : e < 256) :
    bit_slice 5 (byte_bits a ++ (byte_bits b ++ (byte_bits c ++ (byte_bits d ++ (byte_bits e ++ bs))))) 0 =
      a / 8 ∧
    bit_slice 5 (byte_bits a ++ (byte_bits b ++ (byte_bits c ++ (byte_bits d ++ (byte_bits e ++ bs))))) 1 =
      a % 8 * 4 + b / 64 ∧
    bit_slice 5 (byte_bits a ++ (byte_bits b ++ (byte_bits c ++ (byte_bits d ++ (byte_bits e ++ bs))))) 2 =
      b / 2 % 32 ∧
    bit_slice 5 (byte_bits a ++ (byte_bits b ++ (byte_bits c ++ (byte_bits d ++ (byte_bits e ++ bs))))) 3 =
      b % 2 * 16 + c / 16 ∧
    bit_slice 5 (byte_bits a ++ (byte_bits b ++ (byte_bits c ++ (byte_bits d ++ (byte_bits e ++ bs))))) 4 =
      c % 16 * 2 + d / 128 ∧
    bit_slice 5 (byte_bits a ++ (byte_bits b ++ (byte_bits c ++ (byte_bits d ++ (byte_bits e ++ bs))))) 5 =
      d / 4 % 32 ∧
    bit_slice 5 (byte_bits a ++ (byte_bits b ++ (byte_bits c ++ (byte_bits d ++ (byte_bits e ++ bs))))) 6 =
      d % 4 * 8 + e / 32 ∧
    bit_slice 5 (byte_bits a ++ (byte_bits b ++ (byte_bits c ++ (byte_bits d ++ (byte_bits e ++ bs))))) 7 =
      e % 32 := by
  refine ⟨?_, ?_, ?_, ?_, ?_, ?_, ?_, ?_⟩ <;> simp [bit_slice, byte_bits, bits_value] <;> omega

theorem base32_encode_group_eq {f : Nat → Option Nat} (a b c d e : Nat) (g : List Nat)
    (ha : a < 256) (hb : b < 256) (hc : c < 256) (hd : d < 256) (he : e < 256)
    (h : base32_encode_group f a b c d e = some g) :
    ∃ s0 s1 s2 s3 s4 s5 s6 s7, f (a / 8) = some s0 ∧ f (a % 8 * 4 + b / 64) = some s1 ∧
      f (b / 2 % 32) = some s2 ∧ f (b % 2 * 16 + c / 16) = some s3 ∧
      f (c % 16 * 2 + d / 128) = some s4 ∧ f (d / 4 % 32) = some s5 ∧
      f (d % 4 * 8 + e / 32) = some s6 ∧ f (e % 32) = some s7 ∧
      g = [s0 &&& 0x7f, s1 &&& 0x7f, s2 &&& 0x7f, s3 &&& 0x7f,
        s4 &&& 0x7f, s5 &&& 0x7f, s6 &&& 0x7f, s7 &&& 0x7f] := by
  obtain ⟨e0, e1, e2, e3, e4, e5, e6, e7⟩ := base32_encode_vals a b c d e ha hb hc hd he
  unfold base32_encode_group at h
  rw [e0, e1, e2, e3, e4, e5, e6, e7] at h
  simp only [Option.bind_eq_bind, Option.bind_eq_some, Option.pure_def, Option.some.injEq] at h
  obtain ⟨s0, h0, s1, h1, s2, h2, s3, h3, s4, h4, s5, h5, s6, h6, s7, h7, hg⟩ := h
  exact ⟨s0, s1, s2, s3, s4, s5, s6, s7, h0, h1, h2, h3, h4, h5, h6, h7, hg.symm⟩

theorem base32_encode_group_some {f : Nat → Option Nat}
    (hf : ∀ i, i < 32 → (f i).isSome = true) (a b c d e : Nat)
    (ha : a < 256) (hb : b < 256) (hc : c < 256) (hd : d < 256) (he : e < 256) :
    ∃ g, base32_encode_group f a b c d e = some g := by
  obtain ⟨e0, e1, e2, e3, e4, e5, e6, e7⟩ := base32_encode_vals a b c d e ha hb hc hd he
  obtain ⟨s0, h0⟩ := Option.isSome_iff_exists.mp (hf (a / 8) (by omega))
  obtain ⟨s1, h1⟩ := Option.isSome_iff_exists.mp (hf (a % 8 * 4 + b / 64) (by omega))
  obtain ⟨s2, h2⟩ := Option.isSome_iff_exists.mp (hf (b / 2 % 32) (by omega))
  obtain ⟨s3, h3⟩ := Option.isSome_iff_exists.mp (hf (b % 2 * 16 + c / 16) (by omega))
  obtain ⟨s4, h4⟩ := Option.isSome_iff_exists.mp (hf (c % 16 * 2 + d / 128) (by omega))
  obtain ⟨s5, h5⟩ := Option.isSome_iff_exists.mp (hf (d / 4 % 32) (by omega))
  obtain ⟨s6, h6⟩ := Option.isSome_iff_exists.mp (hf (d % 4 * 8 + e / 32) (by omega))
  obtain ⟨s7, h7⟩ := Option.isSome_iff_exists.mp (hf (e % 32) (by omega))
  unfold base32_encode_group
  rw [e0, e1, e2, e3, e4, e5, e6, e7, h0, h1, h2, h3, h4, h5, h6, h7]
  exact ⟨_, rfl⟩

/-- What one iteration of `base32_encode` stores, for any alphabet function: the
`k`-th of its eight symbols is the alphabet function at the `k`-th 5-bit slice
of the five bytes, masked with `0x7f`. -/
theorem base32_encode_group_slices {f : Nat → Option Nat} (a b c d e : Nat) (g bs : List Nat)
    (ha : a < 256) (hb : b < 256) (hc : c < 256) (hd : d < 256) (he : e < 256)
    (h : base32_encode_group f a b c d e = some g) :
    g.length = 8 ∧ ∀ k, k < 8 →
      bit_slice 5 (byte_bits a ++ (byte_bits b ++ (byte_bits c ++ (byte_bits d ++ (byte_bits e ++ bs))))) k < 32 ∧
      ∃ s, f (bit_slice 5 (byte_bits a ++ (byte_bits b ++ (byte_bits c ++ (byte_bits d ++ (byte_bits e ++ bs))))) k) = some s ∧ g[k]? = some (s &&& 0x7f) := by
  obtain ⟨s0, s1, s2, s3, s4, s5, s6, s7, h0, h1, h2, h3, h4, h5, h6, h7, hg⟩ :=
    base32_encode_group_eq a b c d e g ha hb hc hd he h
  obtain ⟨b0, b1, b2, b3, b4, b5, b6, b7⟩ := bit_slice5_group a b c d e bs ha hb hc hd he
  subst hg
  refine ⟨rfl, ?_⟩
  intro k hk
  interval_cases k
  · rw [b0]; exact ⟨by omega, s0, h0, rfl⟩
  · rw [b1]; exact ⟨by omega, s1, h1, rfl⟩
  · rw [b2]; exact ⟨by omega, s2, h2, rfl⟩
  · rw [b3]; exact ⟨by omega, s3, h3, rfl⟩
  · rw [b4]; exact ⟨by omega, s4, h4, rfl⟩
  · rw [b5]; exact ⟨by omega, s5, h5, rfl⟩
  · rw [b6]; exact ⟨by omega, s6, h6, rfl⟩
  · rw [b7]; exact ⟨by omega, s7, h7, rfl⟩

theorem bit_string5_cons (a b c d e : Nat) (rest : List Nat) :
    bit_string 5 (a :: b :: c :: d :: e :: rest) =
      byte_bits a ++ (byte_bits b ++ (byte_bits c ++ (byte_bits d ++
        (byte_bits e ++ bit_string 5 rest)))) := by
  have h : (a :: b :: c :: d :: e :: rest).length % 5 = rest.length % 5 := by
    simp only [List.length_cons]; omega
  simp only [bit_string, zero_fill, h, List.cons_append, List.flatMap_cons]

theorem base32_encode_loop_spec {f : Nat → Option Nat} :
    ∀ x : List Nat, (∀ b ∈ x, b < 256) → ∀ L, base32_encode_loop f x = some L →
      L.length = 8 * ((x.length + 4) / 5) ∧ ∀ k, k < L.length →
        bit_slice 5 (bit_string 5 x) k < 32 ∧
        ∃ s, f (bit_slice 5 (bit_string 5 x) k) = some s ∧ L[k]? = some (s &&& 0x7f)
  | [], _, L, h => by
    simp only [base32_encode_loop, Option.some.injEq] at h
    subst h
    exact ⟨rfl, fun k hk => absurd hk (by simp)⟩
  | [a], hx, L, h => by
    have ha : a < 256 := hx a (by simp)
    have hbits : bit_string 5 [a] =
        byte_bits a ++ (byte_bits 0 ++ (byte_bits 0 ++ (byte_bits 0 ++ (byte_bits 0 ++ [])))) := by
      simp [bit_string, zero_fill]
    obtain ⟨hl, hk⟩ := base32_encode_group_slices a 0 0 0 0 L [] ha (by decide) (by decide) (by decide) (by decide) h
    rw [hbits, hl]
    exact ⟨by simp, hk⟩
  | [a, b], hx, L, h => by
    have ha : a < 256 := hx a (by simp)
    have hb : b < 256 := hx b (by simp)
    have hbits : bit_string 5 [a, b] =
        byte_bits a ++ (byte_bits b ++ (byte_bits 0 ++ (byte_bits 0 ++ (byte_bits 0 ++ [])))) := by
      simp [bit_string, zero_fill]
    obtain ⟨hl, hk⟩ := base32_encode_group_slices a b 0 0 0 L [] ha hb (by decide) (by decide) (by decide) h
    rw [hbits, hl]
    exact ⟨by simp, hk⟩
  | [a, b, c], hx, L, h => by
    have ha : a < 256 := hx a (by simp)
    have hb : b < 256 := hx b (by simp)
    have hc : c < 256 := hx c (by simp)
    have hbits : bit_string 5 [a, b, c] =
        byte_bits a ++ (byte_bits b ++ (byte_bits c ++ (byte_bits 0 ++ (byte_bits 0 ++ [])))) := by
      simp [bit_string, zero_fill]
    obtain ⟨hl, hk⟩ := base32_encode_group_slices a b c 0 0 L [] ha hb hc (by decide) (by decide) h
    rw [hbits, hl]
    exact ⟨by simp, hk⟩
  | [a, b, c, d], hx, L, h => by
    have ha : a < 256 := hx a (by simp)
    have hb : b < 256 := hx b (by simp)
    have hc : c < 256 := hx c (by simp)
    have hd : d < 256 := hx d (by simp)
    have hbits : bit_string 5 [a, b, c, d] =
        byte_bits a ++ (byte_bits b ++ (byte_bits c ++ (byte_bits d ++ (byte_bits 0 ++ [])))) := by
      simp [bit_string, zero_fill]
    obtain ⟨hl, hk⟩ := base32_encode_group_slices a b c d 0 L [] ha hb hc hd (by decide) h
    rw [hbits, hl]
    exact ⟨by simp, hk⟩
  | a :: b :: c :: d :: e :: rest, hx, L, h => by
    have ha : a < 256 := hx a (by simp)
    have hb : b < 256 := hx b (by simp)
    have hc : c < 256 := hx c (by simp)
    have hd : d < 256 := hx d (by simp)
    have he : e < 256 := hx e (by simp)
    simp only [base32_encode_loop, Option.bind_eq_bind, Option.bind_eq_some, Option.pure_def,
      Option.some.injEq] at h
    obtain ⟨g, hg, Lr, hLr, hL⟩ := h
    subst hL
    obtain ⟨hl, hk⟩ :=
      base32_encode_group_slices a b c d e g (bit_string 5 rest) ha hb hc hd he hg
    obtain ⟨hlr, hkr⟩ := base32_encode_loop_spec rest (fun y hy => hx y (by simp [hy])) Lr hLr
    rw [bit_string5_cons]
    refine ⟨by rw [List.length_append, hl, hlr]; simp only [List.length_cons]; omega, ?_⟩
    intro k hklt
    by_cases hk8 : k < 8
    · rw [List.getElem?_append_left (by omega)]
      exact hk k hk8
    · rw [List.length_append, hl] at hklt
      have hpre : (byte_bits a ++ (byte_bits b ++ (byte_bits c ++ (byte_bits d ++
          (byte_bits e ++ bit_string 5 rest))))) =
          (byte_bits a ++ byte_bits b ++ byte_bits c ++ byte_bits d ++ byte_bits e) ++
            bit_string 5 rest := by
        simp only [List.append_assoc]
      rw [hpre, bit_slice_append 5 _ _ 8 k (by simp [byte_bits]) (by omega),
        List.getElem?_append_right (by omega), hl]
      exact hkr (k - 8) (by omega)

theorem base32_encode_loop_some {f : Nat → Option Nat}
    (hf : ∀ i, i < 32 → (f i).isSome = true) :
    ∀ x : List Nat, (∀ b ∈ x, b < 256) → ∃ L, base32_encode_loop f x = some L
  | [], _ => ⟨[], rfl⟩
  | [a], hx =>
    base32_encode_group_some hf a 0 0 0 0 (hx a (by simp)) (by decide) (by decide) (by decide) (by decide)
  | [a, b], hx =>
    base32_encode_group_some hf a b 0 0 0 (hx a (by simp)) (hx b (by simp)) (by decide) (by decide) (by decide)
  | [a, b, c], hx =>
    base32_encode_group_some hf a b c 0 0 (hx a (by simp)) (hx b (by simp)) (hx c (by simp)) (by decide) (by decide)
  | [a, b, c, d], hx =>
    base32_encode_group_some hf a b c d 0 (hx a (by simp)) (hx b (by simp)) (hx c (by simp)) (hx d (by simp)) (by decide)
  | a :: b :: c :: d :: e :: rest, hx => by
    obtain ⟨g, hg⟩ := base32_encode_group_some hf a b c d e (hx a (by simp)) (hx b (by simp))
      (hx c (by simp)) (hx d (by simp)) (hx e (by simp))
    obtain ⟨Lr, hLr⟩ := base32_encode_loop_some hf rest fun y hy => hx y (by simp [hy])
    exact ⟨g ++ Lr, by
      simp only [base32_encode_loop, hg, hLr, Option.bind_eq_bind, Option.some_bind]; rfl⟩

theorem base32_encode_eq {f : Nat → Option Nat} (hf : ∀ i, i < 32 → (f i).isSome = true)
    (x : List Nat) (hx : ∀ b ∈ x, b < 256) (hn : 8 * ((x.length + 4) / 5) ≤ INT_MAX) :
    ∃ L, base32_encode_loop f x = some L ∧ L.length = 8 * ((x.length + 4) / 5) ∧
      base32_encode f x =
        some (L.take ((8 * x.length + 4) / 5) ++
          List.replicate (8 * ((x.length + 4) / 5) - (8 * x.length + 4) / 5) 0x3d,
          8 * ((x.length + 4) / 5)) := by
  obtain ⟨L, hL⟩ := base32_encode_loop_some hf x hx
  obtain ⟨hlen, _⟩ := base32_encode_loop_spec x hx L hL
  refine ⟨L, hL, hlen, ?_⟩
  unfold base32_encode
  rw [hL, encode_out_len_eq 5 x.length (by omega)]
  simp only [Option.bind_eq_bind, Option.some_bind]
  rw [encode_pad_eq 8 8 L _ (by omega) (by omega) (by omega) (by omega) (by omega), hlen]

theorem padded_getElem? (L : List Nat) (c m : Nat) (hc : c ≤ L.length) :
    (∀ k, k < c → (L.take c ++ List.replicate (m - c) 0x3d)[k]? = L[k]?) ∧
    (∀ k, c ≤ k → k < m → (L.take c ++ List.replicate (m - c) 0x3d)[k]? = some 0x3d) ∧
    (c ≤ m → (L.take c ++ List.replicate (m - c) 0x3d).length = m) := by
  have hlen : (L.take c).length = c := by rw [List.length_take]; omega
  refine ⟨?_, ?_, ?_⟩
  · intro k hk
    rw [List.getElem?_append_left (by omega), List.getElem?_take_of_lt hk]
  · intro k hk hm
    rw [List.getElem?_append_right (by omega), hlen, List.getElem?_replicate_of_lt (by omega)]
  · intro hcm
    rw [List.length_append, hlen, List.length_replicate]
    omega

/-- C12: length and padding of `base64_encode`. For an alphabet function defined
on the 6-bit values and a byte buffer of length `n` whose encoded length fits an
`int`, the returned length is `4 * ceil (n / 3)`, which is `ceil (8 * n / 6)`
(the value of the source's floating-point expression) rounded up to a multiple
of 4, and every output position from `ceil (8 * n / 6)` on holds `=`: two
positions for `n % 3 = 1`, one for `n % 3 = 2`, none for `n % 3 = 0`. When no
masked symbol of the alphabet is `=`, no earlier position holds `=`. The byte
`0x41` encodes to `QQ==` with the standard alphabet. -/
theorem C12_base64_length_padding (f : Nat → Option Nat) (x : List Nat)
    (hf : ∀ i, i < 64 → (f i).isSome = true) (hx : ∀ b ∈ x, b < 256)
    (hn : 4 * ((x.length + 2) / 3) ≤ INT_MAX) :
    (∃ out, base64_encode f x = some (out, 4 * ((x.length + 2) / 3)) ∧
      out.length = 4 * ((x.length + 2) / 3) ∧
      (∀ k, (8 * x.length + 5) / 6 ≤ k → k < 4 * ((x.length + 2) / 3) →
        out[k]? = some 0x3d) ∧
      ((∀ i s, i < 64 → f i = some s → s &&& 0x7f ≠ 0x3d) →
        ∀ k, k < (8 * x.length + 5) / 6 → out[k]? ≠ some 0x3d)) ∧
    (8 * x.length + 4) / 6 = (8 * x.length + 5) / 6 ∧
    4 * ((x.length + 2) / 3) = ((8 * x.length + 5) / 6 + 3) / 4 * 4 ∧
    (x.length % 3 = 1 → 4 * ((x.length + 2) / 3) - (8 * x.length + 5) / 6 = 2) ∧
    (x.length % 3 = 2 → 4 * ((x.length + 2) / 3) - (8 * x.length + 5) / 6 = 1) ∧
    (x.length % 3 = 0 → 4 * ((x.length + 2) / 3) - (8 * x.length + 5) / 6 = 0) ∧
    base64_encode int_to_base64 [0x41] = some ([0x51, 0x51, 0x3d, 0x3d], 4) := by
  obtain ⟨L, hL, hlen, henc⟩ := base64_encode_eq hf x hx hn
  obtain ⟨_, hspec⟩ := base64_encode_loop_spec x hx L hL
  obtain ⟨hlow, hpad, hplen⟩ := padded_getElem? L ((8 * x.length + 5) / 6)
    (4 * ((x.length + 2) / 3)) (by omega)
  refine ⟨⟨_, henc, hplen (by omega), hpad, ?_⟩, by omega, by omega, by omega, by omega,
    by omega, by decide⟩
  intro hne k hk
  obtain ⟨hlt, s, hs, hk'⟩ := hspec k (by omega)
  rw [hlow k hk, hk']
  intro heq
  exact hne _ s hlt hs (Option.some.inj heq)

/-- Witness for C12 at the standard alphabet and the two bytes `41 42`. -/
theorem C12_base64_length_padding_witness :
    (∀ i, i < 64 → (int_to_base64 i).isSome = true) ∧ (∀ b ∈ [0x41, 0x42], b < 256) ∧
    4 * (([0x41, 0x42].length + 2) / 3) ≤ INT_MAX ∧
    ∃ out, base64_encode int_to_base64 [0x41, 0x42] = some (out, 4) ∧ out[3]? = some 0x3d := by
  obtain ⟨⟨out, h, _, hpad, _⟩, _⟩ :=
    C12_base64_length_padding int_to_base64 [0x41, 0x42] (by decide) (by decide) (by decide)
  exact ⟨by decide, by decide, by decide, out, h, hpad 3 (by decide) (by decide)⟩

/-- C13: length and padding of `base32_encode`. For an alphabet function defined
on the 5-bit values and a byte buffer of length `n` whose encoded length fits an
`int`, the returned length is `8 * ceil (n / 5)`, which is `ceil (8 * n / 5)`
(the value of the source's floating-point expression) rounded up to a multiple
of 8, and every output position from `ceil (8 * n / 5)` on holds `=`: six
positions for `n % 5 = 1`, then 4, 3, 1 and 0 for `n % 5 = 2, 3, 4, 0`. When no
masked symbol of the alphabet is `=`, no earlier position holds `=`. The byte
`0x41` encodes to `IE======` with the RFC alphabet. -/
theorem C13_base32_length_padding (f : Nat → Option Nat) (x : List Nat)
    (hf : ∀ i, i < 32 → (f i).isSome = true) (hx : ∀ b ∈ x, b < 256)
    (hn : 8 * ((x.length + 4) / 5) ≤ INT_MAX) :
    (∃ out, base32_encode f x = some (out, 8 * ((x.length + 4) / 5)) ∧
      out.length = 8 * ((x.length + 4) / 5) ∧
      (∀ k, (8 * x.length + 4) / 5 ≤ k → k < 8 * ((x.length + 4) / 5) →
        out[k]? = some 0x3d) ∧
      ((∀ i s, i < 32 → f i = some s → s &&& 0x7f ≠ 0x3d) →
        ∀ k, k < (8 * x.length + 4) / 5 → out[k]? ≠ some 0x3d)) ∧
    8 * ((x.length + 4) / 5) = ((8 * x.length + 4) / 5 + 7) / 8 * 8 ∧
    (x.length % 5 = 1 → 8 * ((x.length + 4) / 5) - (8 * x.length + 4) / 5 = 6) ∧
    (x.length % 5 = 2 → 8 * ((x.length + 4) / 5) - (8 * x.length + 4) / 5 = 4) ∧
    (x.length % 5 = 3 → 8 * ((x.length + 4) / 5) - (8 * x.length + 4) / 5 = 3) ∧
    (x.length % 5 = 4 → 8 * ((x.length + 4) / 5) - (8 * x.length + 4) / 5 = 1) ∧
    (x.length % 5 = 0 → 8 * ((x.length + 4) / 5) - (8 * x.length + 4) / 5 = 0) ∧
    base32_encode int_to_base32 [0x41] =
      some ([0x49, 0x45, 0x3d, 0x3d, 0x3d, 0x3d, 0x3d, 0x3d], 8) := by
  obtain ⟨L, hL, hlen, henc⟩ := base32_encode_eq hf x hx hn
  obtain ⟨_, hspec⟩ := base32_encode_loop_spec x hx L hL
  obtain ⟨hlow, hpad, hplen⟩ := padded_getElem? L ((8 * x.length + 4) / 5)
    (8 * ((x.length + 4) / 5)) (by omega)
  refine ⟨⟨_, henc, hplen (by omega), hpad, ?_⟩, by omega, by omega, by omega, by omega,
    by omega, by omega, by decide⟩
  intro hne k hk
  obtain ⟨hlt, s, hs, hk'⟩ := hspec k (by omega)
  rw [hlow k hk, hk']
  intro heq
  exact hne _ s hlt hs (Option.some.inj heq)

/-- Witness for C13 at the RFC alphabet and the two bytes `41 42`. -/
theorem C13_base32_length_padding_witness :
    (∀ i, i < 32 → (int_to_base32 i).isSome = true) ∧ (∀ b ∈ [0x41, 0x42], b < 256) ∧
    8 * (([0x41, 0x42].length + 4) / 5) ≤ INT_MAX ∧
    ∃ out, base32_encode int_to_base32 [0x41, 0x42] = some (out, 8) ∧ out[4]? = some 0x3d := by
  obtain ⟨⟨out, h, _, hpad, _⟩, _⟩ :=
    C13_base32_length_padding int_to_base32 [0x41, 0x42] (by decide) (by decide) (by decide)
  exact ⟨by decide, by decide, by decide, out, h, hpad 4 (by decide) (by decide)⟩

/-- C18: `base64_encode` is the big-endian 6-bit slicing. For an alphabet function
`f` defined on the 6-bit values and a byte buffer `x` of length `n` whose encoded
length fits an `int`, the `k`-th output byte, for every `k` below
`ceil (8 * n / 6)`, is `f (g_k) & 0x7f`, where `g_k` is the value of the bits
`[6 * k, 6 * k + 6)` of the bit string of `x` (bytes most significant bit first,
zero bits appended up to the end of the last 3-byte group). With the standard
alphabet `Man` encodes to `TWFu` and `Ma` to `TWE=`. -/
theorem C18_base64_bit_slicing (f : Nat → Option Nat) (x : List Nat)
    (hf : ∀ i, i < 64 → (f i).isSome = true) (hx : ∀ b ∈ x, b < 256)
    (hn : 4 * ((x.length + 2) / 3) ≤ INT_MAX) :
    (∃ out m, base64_encode f x = some (out, m) ∧
      ∀ k, k < (8 * x.length + 5) / 6 →
        ∃ s, f (bit_slice 6 (bit_string 3 x) k) = some s ∧ out[k]? = some (s &&& 0x7f)) ∧
    base64_encode int_to_base64 [0x4d, 0x61, 0x6e] = some ([0x54, 0x57, 0x46, 0x75], 4) ∧
    base64_encode int_to_base64 [0x4d, 0x61] = some ([0x54, 0x57, 0x45, 0x3d], 4) := by
  obtain ⟨L, hL, hlen, henc⟩ := base64_encode_eq hf x hx hn
  obtain ⟨_, hspec⟩ := base64_encode_loop_spec x hx L hL
  obtain ⟨hlow, _, _⟩ := padded_getElem? L ((8 * x.length + 5) / 6)
    (4 * ((x.length + 2) / 3)) (by omega)
  refine ⟨⟨_, _, henc, ?_⟩, by decide, by decide⟩
  intro k hk
  obtain ⟨_, s, hs, hk'⟩ := hspec k (by omega)
  exact ⟨s, hs, by rw [hlow k hk, hk']⟩

/-- Witness for C18 at the standard alphabet and `Ma`: the output byte 2 is the
symbol `E` of the slice `000100`. -/
theorem C18_base64_bit_slicing_witness :
    (∀ i, i < 64 → (int_to_base64 i).isSome = true) ∧ (∀ b ∈ [0x4d, 0x61], b < 256) ∧
    4 * (([0x4d, 0x61].length + 2) / 3) ≤ INT_MAX ∧
    bit_slice 6 (bit_string 3 [0x4d, 0x61]) 2 = 4 ∧
    ∃ out m, base64_encode int_to_base64 [0x4d, 0x61] = some (out, m) ∧
      ∃ s, int_to_base64 (bit_slice 6 (bit_string 3 [0x4d, 0x61]) 2) = some s ∧
        out[2]? = some (s &&& 0x7f) := by
  obtain ⟨⟨out, m, h, hk⟩, _⟩ :=
    C18_base64_bit_slicing int_to_base64 [0x4d, 0x61] (by decide) (by decide) (by decide)
  exact ⟨by decide, by decide, by decide, by decide, out, m, h, hk 2 (by decide)⟩

/-- C19: `base32_encode` is the big-endian 5-bit slicing. For an alphabet function
`f` defined on the 5-bit values and a byte buffer `x` of length `n` whose encoded
length fits an `int`, the `k`-th output byte, for every `k` below
`ceil (8 * n / 5)`, is `f (g_k) & 0x7f`, where `g_k` is the value of the bits
`[5 * k, 5 * k + 5)` of the bit string of `x` (bytes most significant bit first,
zero bits appended up to the end of the last 5-byte group). With the RFC
alphabet `foo` encodes to `MZXW6===`. -/
theorem C19_base32_bit_slicing (f : Nat → Option Nat) (x : List Nat)
    (hf : ∀ i, i < 32 → (f i).isSome = true) (hx : ∀ b ∈ x, b < 256)
    (hn : 8 * ((x.length + 4) / 5) ≤ INT_MAX) :
    (∃ out m, base32_encode f x = some (out, m) ∧
      ∀ k, k < (8 * x.length + 4) / 5 →
        ∃ s, f (bit_slice 5 (bit_string 5 x) k) = some s ∧ out[k]? = some (s &&& 0x7f)) ∧
    base32_encode int_to_base32 [0x66, 0x6f, 0x6f] =
      some ([0x4d, 0x5a, 0x58, 0x57, 0x36, 0x3d, 0x3d, 0x3d], 8) := by
  obtain ⟨L, hL, hlen, henc⟩ := base32_encode_eq hf x hx hn
  obtain ⟨_, hspec⟩ := base32_encode_loop_spec x hx L hL
  obtain ⟨hlow, _, _⟩ := padded_getElem? L ((8 * x.length + 4) / 5)
    (8 * ((x.length + 4) / 5)) (by omega)
  refine ⟨⟨_, _, henc, ?_⟩, by decide⟩
  intro k hk
  obtain ⟨_, s, hs, hk'⟩ := hspec k (by omega)
  exact ⟨s, hs, by rw [hlow k hk, hk']⟩

/-- Witness for C19 at the RFC alphabet and `foo`: the output byte 4 is the
symbol `6` of the slice `11110`. -/
theorem C19_base32_bit_slicing_witness :
    (∀ i, i < 32 → (int_to_base32 i).isSome = true) ∧ (∀ b ∈ [0x66, 0x6f, 0x6f], b < 256) ∧
    8 * (([0x66, 0x6f, 0x6f].length + 4) / 5) ≤ INT_MAX ∧
    bit_slice 5 (bit_string 5 [0x66, 0x6f, 0x6f]) 4 = 30 ∧
    ∃ out m, base32_encode int_to_base32 [0x66, 0x6f, 0x6f] = some (out, m) ∧
      ∃ s, int_to_base32 (bit_slice 5 (bit_string 5 [0x66, 0x6f, 0x6f]) 4) = some s ∧
        out[4]? = some (s &&& 0x7f) := by
  obtain ⟨⟨out, m, h, hk⟩, _⟩ :=
    C19_base32_bit_slicing int_to_base32 [0x66, 0x6f, 0x6f] (by decide) (by decide) (by decide)
  exact ⟨by decide, by decide, by decide, by decide, out, m, h, hk 4 (by decide)⟩

/-! ### Hex words, hex strings and the unescape transform -/

theorem and_15 (x : Nat) : x &&& 15 = x % 16 := Nat.and_pow_two_sub_one_eq_mod x 4

theorem hex_convert_digit (n : Nat) :
    hex_convert (u8_to_hex_tbl.getD (n % 16) 0) = n % 16 := by
  have key : ∀ d, d < 16 → hex_convert (u8_to_hex_tbl.getD d 0) = d := by decide
  exact key _ (Nat.mod_lt _ (by norm_num))

theorem or_nibble (W acc n i : Nat) (hacc : acc < 2 ^ i) (hn : n < 16) (hi : i + 4 ≤ W) :
    acc ||| ((n <<< i) % 2 ^ W) = acc + n * 2 ^ i := by
  have hlt : n * 2 ^ i < 2 ^ W := by
    calc n * 2 ^ i < 16 * 2 ^ i := Nat.mul_lt_mul_of_pos_right hn (Nat.two_pow_pos i)
      _ = 2 ^ (i + 4) := by rw [Nat.pow_add]; omega
      _ ≤ 2 ^ W := Nat.pow_le_pow_right (by norm_num) hi
  rw [Nat.shiftLeft_eq, Nat.mod_eq_of_lt hlt, Nat.lor_comm, Nat.mul_comm,
    ← Nat.mul_add_lt_is_or hacc, Nat.add_comm]

theorem hex_to_u32_u32_to_hex (v : Nat) (hv : v < 2 ^ 32) : hex_to_u32 (u32_to_hex v) = some v := by
  simp only [u32_to_hex, hex_to_u32, and_15, hex_convert_digit, Nat.shiftRight_eq_div_pow]
  rw [or_nibble 32 _ _ 0 (by norm_num) (Nat.mod_lt _ (by norm_num)) (by norm_num),
    or_nibble 32 _ _ 4 (by omega) (Nat.mod_lt _ (by norm_num)) (by norm_num),
    or_nibble 32 _ _ 8 (by omega) (Nat.mod_lt _ (by norm_num)) (by norm_num),
    or_nibble 32 _ _ 12 (by omega) (Nat.mod_lt _ (by norm_num)) (by norm_num),
    or_nibble 32 _ _ 16 (by omega) (Nat.mod_lt _ (by norm_num)) (by norm_num),
    or_nibble 32 _ _ 20 (by omega) (Nat.mod_lt _ (by norm_num)) (by norm_num),
    or_nibble 32 _ _ 24 (by omega) (Nat.mod_lt _ (by norm_num)) (by norm_num),
    or_nibble 32 _ _ 28 (by omega) (Nat.mod_lt _ (by norm_num)) (by norm_num)]
  congr 1
  norm_num at hv ⊢
  omega

theorem hex_to_u64_u64_to_hex (v : Nat) (hv : v < 2 ^ 64) : hex_to_u64 (u64_to_hex v) = some v := by
  simp only [u64_to_hex, hex_to_u64, and_15, hex_convert_digit, Nat.shiftRight_eq_div_pow]
  rw [or_nibble 64 _ _ 0 (by norm_num) (Nat.mod_lt _ (by norm_num)) (by norm_num),
    or_nibble 64 _ _ 4 (by omega) (Nat.mod_lt _ (by norm_num)) (by norm_num),
    or_nibble 64 _ _ 8 (by omega) (Nat.mod_lt _ (by norm_num)) (by norm_num),
    or_nibble 64 _ _ 12 (by omega) (Nat.mod_lt _ (by norm_num)) (by norm_num),
    or_nibble 64 _ _ 16 (by omega) (Nat.mod_lt _ (by norm_num)) (by norm_num),
    or_nibble 64 _ _ 20 (by omega) (Nat.mod_lt _ (by norm_num)) (by norm_num),
    or_nibble 64 _ _ 24 (by omega) (Nat.mod_lt _ (by norm_num)) (by norm_num),
    or_nibble 64 _ _ 28 (by omega) (Nat.mod_lt _ (by norm_num)) (by norm_num),
    or_nibble 64 _ _ 32 (by omega) (Nat.mod_lt _ (by norm_num)) (by norm_num),
    or_nibble 64 _ _ 36 (by omega) (Nat.mod_lt _ (by norm_num)) (by norm_num),
    or_nibble 64 _ _ 40 (by omega) (Nat.mod_lt _ (by norm_num)) (by norm_num),
    or_nibble 64 _ _ 44 (by omega) (Nat.mod_lt _ (by norm_num)) (by norm_num),
    or_nibble 64 _ _ 48 (by omega) (Nat.mod_lt _ (by norm_num)) (by norm_num),
    or_nibble 64 _ _ 52 (by omega) (Nat.mod_lt _ (by norm_num)) (by norm_num),
    or_nibble 64 _ _ 56 (by omega) (Nat.mod_lt _ (by norm_num)) (by norm_num),
    or_nibble 64 _ _ 60 (by omega) (Nat.mod_lt _ (by norm_num)) (by norm_num)]
  congr 1
  norm_num at hv ⊢
  omega

theorem hex_encode_loop_eq (x : List Nat) : hex_encode_loop x = lower_hex x := by
  induction x with
  | nil => rfl
  | cons v rest ih => rw [hex_encode_loop, ih, u8_to_hex_eq]; rfl

theorem hex_decode_loop_lower_hex (x : List Nat) (hx : ∀ b ∈ x, b < 256) :
    hex_decode_loop (lower_hex x) = some x := by
  induction x with
  | nil => rfl
  | cons a l ih =>
    have ha : a < 256 := hx a (List.mem_cons_self _ _)
    have hl := ih fun b hb => hx b (List.mem_cons_of_mem _ hb)
    simp only [lower_hex, hex_decode_loop, hl, hex_to_u8_lower_hex a ha, Option.map_some']

/-- C17: the hex codec is reversible. `hex_encode` of a byte buffer of length `n`
(with `2 * n` an `int`) returns `2 * n` and `hex_decode` of its output returns
`n` and the buffer; `hex_to_u8` inverts `u8_to_hex` on every byte, `hex_to_u32`
inverts `u32_to_hex` on every 32-bit value and `hex_to_u64` inverts
`u64_to_hex` on every 64-bit value. -/
theorem C17_hex_reversible (x : List Nat) (v8 v32 v64 : Nat) (hx : ∀ b ∈ x, b < 256)
    (hn : 2 * x.length ≤ INT_MAX) (h8 : v8 < 256) (h32 : v32 < 2 ^ 32) (h64 : v64 < 2 ^ 64) :
    (∃ hex, hex_encode x = some (hex, 2 * x.length) ∧ hex_decode hex = some (x, x.length)) ∧
    (∃ hex0 hex1, u8_to_hex v8 = [hex0, hex1] ∧ hex_to_u8 hex0 hex1 = v8) ∧
    hex_to_u32 (u32_to_hex v32) = some v32 ∧
    hex_to_u64 (u64_to_hex v64) = some v64 := by
  refine ⟨⟨lower_hex x, ?_, ?_⟩, ⟨_, _, u8_to_hex_eq v8, ?_⟩, hex_to_u32_u32_to_hex v32 h32,
    hex_to_u64_u64_to_hex v64 h64⟩
  · unfold hex_encode
    rw [if_pos (by omega), hex_encode_loop_eq, Nat.mul_comm]
  · unfold hex_decode
    rw [if_pos (by rw [length_lower_hex]; omega), hex_decode_loop_lower_hex x hx,
      length_lower_hex]
    simp
  · exact hex_to_u8_lower_hex v8 h8

/-- Witness for C17 at the buffer `00 A5 FF`, the byte `0xA5`, the 32-bit value
`0xDEADBEEF` and the 64-bit value `0x0123456789ABCDEF`. -/
theorem C17_hex_reversible_witness :
    (∀ b ∈ [0x00, 0xa5, 0xff], b < 256) ∧ 2 * [0x00, 0xa5, 0xff].length ≤ INT_MAX ∧
    0xa5 < 256 ∧ 0xdeadbeef < 2 ^ 32 ∧ 0x0123456789abcdef < 2 ^ 64 ∧
    (∃ hex, hex_encode [0x00, 0xa5, 0xff] = some (hex, 2 * [0x00, 0xa5, 0xff].length) ∧
      hex_decode hex = some ([0x00, 0xa5, 0xff], [0x00, 0xa5, 0xff].length)) ∧
    hex_to_u32 (u32_to_hex 0xdeadbeef) = some 0xdeadbeef ∧
    hex_to_u64 (u64_to_hex 0x0123456789abcdef) = some 0x0123456789abcdef :=
  have h := C17_hex_reversible [0x00, 0xa5, 0xff] 0xa5 0xdeadbeef 0x0123456789abcdef
    (by decide) (by decide) (by decide) (by decide) (by decide)
  ⟨by decide, by decide, by decide, by decide, by decide, h.1, h.2.2.1, h.2.2.2⟩

theorem hex_convert_value : ∀ c, c < 256 → hex_digit c →
    hex_convert c = hex_digit_value c ∧ hex_digit_value c < 16 := by
  decide

theorem hex_to_u8_of_values (a b : Nat) (ha : hex_convert a < 16) (hb : hex_convert b < 16) :
    hex_to_u8 a b = 16 * hex_convert a + hex_convert b := by
  have key : ∀ p, p < 16 → ∀ q, q < 16 →
      ((0 ||| (q <<< 0)) % 256 ||| (p <<< 4)) % 256 = 16 * p + q := by decide
  exact key _ ha _ hb

theorem hex_to_u8_digits (a b : Nat) (ha : hex_digit a) (hb : hex_digit b) :
    hex_to_u8 a b = 16 * hex_digit_value a + hex_digit_value b := by
  have ha256 : a < 256 := by unfold hex_digit at ha; omega
  have hb256 : b < 256 := by unfold hex_digit at hb; omega
  obtain ⟨ea, la⟩ := hex_convert_value a ha256 ha
  obtain ⟨eb, lb⟩ := hex_convert_value b hb256 hb
  rw [hex_to_u8_of_values a b (by rw [ea]; exact la) (by rw [eb]; exact lb), ea, eb]

theorem exec_unhexify_loop_spec :
    ∀ l : List Nat, (exec_unhexify_loop l).length = l.length / 2 ∧
      ∀ k, k < l.length / 2 → ∃ hex0 hex1, l[2 * k]? = some hex0 ∧ l[2 * k + 1]? = some hex1 ∧
        (exec_unhexify_loop l)[k]? = some (hex_to_u8 hex0 hex1)
  | [] => ⟨rfl, fun k hk => absurd hk (by simp)⟩
  | [_] => ⟨by simp [exec_unhexify_loop], fun k hk => absurd hk (by simp)⟩
  | hex0 :: hex1 :: rest => by
    obtain ⟨hl, hk⟩ := exec_unhexify_loop_spec rest
    refine ⟨by simp only [exec_unhexify_loop, List.length_cons, hl]; omega, ?_⟩
    intro k hklt
    simp only [List.length_cons] at hklt
    cases k with
    | zero => exact ⟨hex0, hex1, by simp, by simp, by simp [exec_unhexify_loop]⟩
    | succ k =>
      obtain ⟨g0, g1, e0, e1, e2⟩ := hk k (by omega)
      refine ⟨g0, g1, ?_, ?_, ?_⟩
      · rw [show 2 * (k + 1) = 2 * k + 1 + 1 by omega]
        simpa using e0
      · rw [show 2 * (k + 1) + 1 = 2 * k + 1 + 1 + 1 by omega]
        simpa using e1
      · simpa [exec_unhexify_loop] using e2

/-- C16: result and zero-filled tail of `exec_unhexify`. For an input of even
length `in_len >= 6` and a capacity `out_sz >= (in_len - 6) / 2` it returns
`r = (in_len - 6) / 2`, stores `hex_to_u8 (in_buf[5 + 2k], in_buf[6 + 2k])` at
every `k < r` and 0 at every `k` with `r <= k < out_sz`. On two hex digits of
either letter case `hex_to_u8` is 16 times the value of the first plus the value
of the second; `$HEX[41]` decodes to the byte `A`. -/
theorem C16_unhexify_result (in_buf : List Nat) (out_sz : Nat) (hlen : 6 ≤ in_buf.length)
    (heven : in_buf.length % 2 = 0) (hsz : (in_buf.length - 6) / 2 ≤ out_sz) :
    (∃ out, exec_unhexify in_buf out_sz = some (out, (in_buf.length - 6) / 2) ∧
      out.length = out_sz ∧
      (∀ k, k < (in_buf.length - 6) / 2 →
        ∃ hex0 hex1, in_buf[5 + 2 * k]? = some hex0 ∧ in_buf[6 + 2 * k]? = some hex1 ∧
          out[k]? = some (hex_to_u8 hex0 hex1)) ∧
      (∀ k, (in_buf.length - 6) / 2 ≤ k → k < out_sz → out[k]? = some 0)) ∧
    (∀ a b, hex_digit a → hex_digit b →
      hex_to_u8 a b = 16 * hex_digit_value a + hex_digit_value b) ∧
    exec_unhexify [0x24, 0x48, 0x45, 0x58, 0x5b, 0x34, 0x31, 0x5d] 1 = some ([0x41], 1) := by
  refine ⟨?_, hex_to_u8_digits, by decide⟩
  obtain ⟨hl, hk⟩ := exec_unhexify_loop_spec (in_buf.drop 5)
  have hr : (in_buf.drop 5).length / 2 = (in_buf.length - 6) / 2 := by
    rw [List.length_drop]; omega
  rw [hr] at hl hk
  refine ⟨exec_unhexify_loop (in_buf.drop 5) ++
    List.replicate (out_sz - (in_buf.length - 6) / 2) 0, ?_, ?_, ?_, ?_⟩
  · unfold exec_unhexify
    rw [if_neg (by omega)]
    simp only [hl]
    rw [if_neg (by omega)]
  · rw [List.length_append, hl, List.length_replicate]; omega
  · intro k hklt
    obtain ⟨g0, g1, e0, e1, e2⟩ := hk k hklt
    rw [List.getElem?_drop] at e0 e1
    refine ⟨g0, g1, e0, ?_, ?_⟩
    · rw [← e1]; congr 1; omega
    · rw [List.getElem?_append_left (by omega)]; exact e2
  · intro k hge hlt
    rw [List.getElem?_append_right (by omega), List.getElem?_replicate_of_lt (by omega)]

/-- Witness for C16 at the envelope `$HEX[4a4B]` and capacity 4. -/
theorem C16_unhexify_result_witness :
    6 ≤ [0x24, 0x48, 0x45, 0x58, 0x5b, 0x34, 0x61, 0x34, 0x42, 0x5d].length ∧
    [0x24, 0x48, 0x45, 0x58, 0x5b, 0x34, 0x61, 0x34, 0x42, 0x5d].length % 2 = 0 ∧
    ([0x24, 0x48, 0x45, 0x58, 0x5b, 0x34, 0x61, 0x34, 0x42, 0x5d].length - 6) / 2 ≤ 4 ∧
    ∃ out, exec_unhexify [0x24, 0x48, 0x45, 0x58, 0x5b, 0x34, 0x61, 0x34, 0x42, 0x5d] 4 =
      some (out, 2) ∧ out[3]? = some 0 := by
  obtain ⟨⟨out, h, _, _, hz⟩, _⟩ :=
    C16_unhexify_result [0x24, 0x48, 0x45, 0x58, 0x5b, 0x34, 0x61, 0x34, 0x42, 0x5d] 4
      (by decide) (by decide) (by decide)
  exact ⟨by decide, by decide, by decide, out, h, hz 3 (by decide) (by decide)⟩

/-- C20: `exec_hexify` is `hex_encode` on the capped prefix. With
`m = min (len, PW_MAX)` (and `2 * m` an `int`), the first `2 * m` bytes
`exec_hexify` stores are the bytes `hex_encode` stores for `buf[0 .. m)`, which
are the lowercase hex digits of those bytes, two per byte and high nibble
first; the byte at index `2 * m` is 0 and nothing is stored beyond it, so a
longer input gives what its first `PW_MAX` bytes give. -/
theorem C20_exec_hexify_hex_encode (PW_MAX : Nat) (buf : List Nat)
    (hm : 2 * min buf.length PW_MAX ≤ INT_MAX) :
    ∃ digits, hex_encode (buf.take (min buf.length PW_MAX)) =
        some (digits, 2 * min buf.length PW_MAX) ∧
      digits = lower_hex (buf.take (min buf.length PW_MAX)) ∧
      (exec_hexify PW_MAX buf).take (2 * min buf.length PW_MAX) = digits ∧
      (exec_hexify PW_MAX buf)[2 * min buf.length PW_MAX]? = some 0 ∧
      (exec_hexify PW_MAX buf).length = 2 * min buf.length PW_MAX + 1 ∧
      (PW_MAX < buf.length → exec_hexify PW_MAX buf = exec_hexify PW_MAX (buf.take PW_MAX)) := by
  have htl : (buf.take (min buf.length PW_MAX)).length = min buf.length PW_MAX := by
    rw [List.length_take]; omega
  have hdl : (lower_hex (buf.take (min buf.length PW_MAX))).length =
      2 * min buf.length PW_MAX := by
    rw [length_lower_hex, htl]
  refine ⟨lower_hex (buf.take (min buf.length PW_MAX)), ?_, rfl, ?_, ?_, ?_, ?_⟩
  · unfold hex_encode
    rw [htl, if_pos (by omega), hex_encode_loop_eq, Nat.mul_comm]
  · rw [exec_hexify_eq, List.take_left' hdl]
  · rw [exec_hexify_eq, List.getElem?_append_right (by omega), hdl]
    simp
  · rw [exec_hexify_eq, List.length_append, hdl]
    rfl
  · intro hlt
    rw [exec_hexify_eq, exec_hexify_eq, List.length_take, List.take_take]
    have h1 : min buf.length PW_MAX = PW_MAX := by omega
    have h2 : min (min PW_MAX buf.length) PW_MAX = PW_MAX := by omega
    have h3 : min PW_MAX PW_MAX = PW_MAX := by omega
    rw [h1, h2, h3]

/-- Witness for C20 at `PW_MAX = 2` and the three bytes `41 FF 00`. -/
theorem C20_exec_hexify_hex_encode_witness :
    2 * min [0x41, 0xff, 0x00].length 2 ≤ INT_MAX ∧
    ∃ digits, hex_encode ([0x41, 0xff, 0x00].take (min [0x41, 0xff, 0x00].length 2)) =
        some (digits, 2 * min [0x41, 0xff, 0x00].length 2) ∧
      (exec_hexify 2 [0x41, 0xff, 0x00]).take (2 * min [0x41, 0xff, 0x00].length 2) = digits ∧
      exec_hexify 2 [0x41, 0xff, 0x00] = [0x34, 0x31, 0x66, 0x66, 0x00] := by
  obtain ⟨digits, h1, _, h3, _⟩ := C20_exec_hexify_hex_encode 2 [0x41, 0xff, 0x00] (by decide)
  exact ⟨by decide, digits, h1, h3, by decide⟩

/-! ### Encoders: the arguments of the alphabet function -/

theorem base64_encode_group_in_range {f : Nat → Option Nat}
    (hf : ∀ i, i < 64 → (f i).isSome = true) (f0 f1 f2 : Nat) :
    ∃ g, base64_encode_group f f0 f1 f2 = some g ∧ g.length = 4 := by
  have h0 : (f0 >>> 2) &&& 0x3f < 64 := Nat.and_lt_two_pow _ (by decide : 0x3f < 2 ^ 6)
  have h1 : ((f0 <<< 4) &&& 0x30) ||| ((f1 >>> 4) &&& 0x0f) < 64 :=
    Nat.or_lt_two_pow (Nat.and_lt_two_pow _ (by decide : 0x30 < 2 ^ 6))
      (Nat.and_lt_two_pow _ (by decide : 0x0f < 2 ^ 6))
  have h2 : ((f1 <<< 2) &&& 0x3c) ||| ((f2 >>> 6) &&& 0x03) < 64 :=
    Nat.or_lt_two_pow (Nat.and_lt_two_pow _ (by decide : 0x3c < 2 ^ 6))
      (Nat.and_lt_two_pow _ (by decide : 0x03 < 2 ^ 6))
  have h3 : (f2 >>> 0) &&& 0x3f < 64 := Nat.and_lt_two_pow _ (by decide : 0x3f < 2 ^ 6)
  obtain ⟨s0, e0⟩ := Option.isSome_iff_exists.mp (hf _ h0)
  obtain ⟨s1, e1⟩ := Option.isSome_iff_exists.mp (hf _ h1)
  obtain ⟨s2, e2⟩ := Option.isSome_iff_exists.mp (hf _ h2)
  obtain ⟨s3, e3⟩ := Option.isSome_iff_exists.mp (hf _ h3)
  unfold base64_encode_group
  rw [e0, e1, e2, e3]
  exact ⟨_, rfl, rfl⟩

theorem base64_encode_loop_in_range {f : Nat → Option Nat}
    (hf : ∀ i, i < 64 → (f i).isSome = true) :
    ∀ x : List Nat, ∃ L, base64_encode_loop f x = some L ∧ L.length = 4 * ((x.length + 2) / 3)
  | [] => ⟨[], rfl, rfl⟩
  | [a] => by
    obtain ⟨g, hg, hl⟩ := base64_encode_group_in_range hf a 0 0
    exact ⟨g, hg, by rw [hl]; simp⟩
  | [a, b] => by
    obtain ⟨g, hg, hl⟩ := base64_encode_group_in_range hf a b 0
    exact ⟨g, hg, by rw [hl]; simp⟩
  | a :: b :: c :: rest => by
    obtain ⟨g, hg, hl⟩ := base64_encode_group_in_range hf a b c
    obtain ⟨r, hr, hrl⟩ := base64_encode_loop_in_range hf rest
    refine ⟨g ++ r, ?_, ?_⟩
    · rw [base64_encode_loop, hg, hr]; rfl
    · rw [List.length_append, hl, hrl]
      simp only [List.length_cons]
      omega

theorem base32_encode_group_in_range {f : Nat → Option Nat}
    (hf : ∀ i, i < 32 → (f i).isSome = true) (f0 f1 f2 f3 f4 : Nat) :
    ∃ g, base32_encode_group f f0 f1 f2 f3 f4 = some g ∧ g.length = 8 := by
  have h0 : (f0 >>> 3) &&& 0x1f < 32 := Nat.and_lt_two_pow _ (by decide : 0x1f < 2 ^ 5)
  have h1 : ((f0 <<< 2) &&& 0x1c) ||| ((f1 >>> 6) &&& 0x03) < 32 :=
    Nat.or_lt_two_pow (Nat.and_lt_two_pow _ (by decide : 0x1c < 2 ^ 5))
      (Nat.and_lt_two_pow _ (by decide : 0x03 < 2 ^ 5))
  have h2 : (f1 >>> 1) &&& 0x1f < 32 := Nat.and_lt_two_pow _ (by decide : 0x1f < 2 ^ 5)
  have h3 : ((f1 <<< 4) &&& 0x10) ||| ((f2 >>> 4) &&& 0x0f) < 32 :=
    Nat.or_lt_two_pow (Nat.and_lt_two_pow _ (by decide : 0x10 < 2 ^ 5))
      (Nat.and_lt_two_pow _ (by decide : 0x0f < 2 ^ 5))
  have h4 : ((f2 <<< 1) &&& 0x1e) ||| ((f3 >>> 7) &&& 0x01) < 32 :=
    Nat.or_lt_two_pow (Nat.and_lt_two_pow _ (by decide : 0x1e < 2 ^ 5))
      (Nat.and_lt_two_pow _ (by decide : 0x01 < 2 ^ 5))
  have h5 : (f3 >>> 2) &&& 0x1f < 32 := Nat.and_lt_two_pow _ (by decide : 0x1f < 2 ^ 5)
  have h6 : ((f3 <<< 3) &&& 0x18) ||| ((f4 >>> 5) &&& 0x07) < 32 :=
    Nat.or_lt_two_pow (Nat.and_lt_two_pow _ (by decide : 0x18 < 2 ^ 5))
      (Nat.and_lt_two_pow _ (by decide : 0x07 < 2 ^ 5))
  have h7 : (f4 >>> 0) &&& 0x1f < 32 := Nat.and_lt_two_pow _ (by decide : 0x1f < 2 ^ 5)
  obtain ⟨s0, e0⟩ := Option.isSome_iff_exists.mp (hf _ h0)
  obtain ⟨s1, e1⟩ := Option.isSome_iff_exists.mp (hf _ h1)
  obtain ⟨s2, e2⟩ := Option.isSome_iff_exists.mp (hf _ h2)
  obtain ⟨s3, e3⟩ := Option.isSome_iff_exists.mp (hf _ h3)
  obtain ⟨s4, e4⟩ := Option.isSome_iff_exists.mp (hf _ h4)
  obtain ⟨s5, e5⟩ := Option.isSome_iff_exists.mp (hf _ h5)
  obtain ⟨s6, e6⟩ := Option.isSome_iff_exists.mp (hf _ h6)
  obtain ⟨s7, e7⟩ := Option.isSome_iff_exists.mp (hf _ h7)
  unfold base32_encode_group
  rw [e0, e1, e2, e3, e4, e5, e6, e7]
  exact ⟨_, rfl, rfl⟩

theorem base32_encode_loop_in_range {f : Nat → Option Nat}
    (hf : ∀ i, i < 32 → (f i).isSome = true) :
    ∀ x : List Nat, ∃ L, base32_encode_loop f x = some L ∧ L.length = 8 * ((x.length + 4) / 5)
  | [] => ⟨[], rfl, rfl⟩
  | [a] => by
    obtain ⟨g, hg, hl⟩ := base32_encode_group_in_range hf a 0 0 0 0
    exact ⟨g, hg, by rw [hl]; simp⟩
  | [a, b] => by
    obtain ⟨g, hg, hl⟩ := base32_encode_group_in_range hf a b 0 0 0
    exact ⟨g, hg, by rw [hl]; simp⟩
  | [a, b, c] => by
    obtain ⟨g, hg, hl⟩ := base32_encode_group_in_range hf a b c 0 0
    exact ⟨g, hg, by rw [hl]; simp⟩
  | [a, b, c, d] => by
    obtain ⟨g, hg, hl⟩ := base32_encode_group_in_range hf a b c d 0
    exact ⟨g, hg, by rw [hl]; simp⟩
  | a :: b :: c :: d :: e :: rest => by
    obtain ⟨g, hg, hl⟩ := base32_encode_group_in_range hf a b c d e
    obtain ⟨r, hr, hrl⟩ := base32_encode_loop_in_range hf rest
    refine ⟨g ++ r, ?_, ?_⟩
    · rw [base32_encode_loop, hg, hr]; rfl
    · rw [List.length_append, hl, hrl]
      simp only [List.length_cons]
      omega

theorem base64_encode_in_range {f : Nat → Option Nat} (hf : ∀ i, i < 64 → (f i).isSome = true)
    (x : List Nat) (hn : 4 * ((x.length + 2) / 3) ≤ INT_MAX) :
    ∃ out, base64_encode f x = some (out, 4 * ((x.length + 2) / 3)) := by
  obtain ⟨L, hL, hlen⟩ := base64_encode_loop_in_range hf x
  unfold base64_encode
  rw [hL, encode_out_len_eq 6 x.length (by omega)]
  simp only [Option.bind_eq_bind, Option.some_bind]
  rw [encode_pad_eq 4 4 L _ (by omega) (by omega) (by omega) (by omega) (by omega), hlen]
  exact ⟨_, rfl⟩

theorem base32_encode_in_range {f : Nat → Option Nat} (hf : ∀ i, i < 32 → (f i).isSome = true)
    (x : List Nat) (hn : 8 * ((x.length + 4) / 5) ≤ INT_MAX) :
    ∃ out, base32_encode f x = some (out, 8 * ((x.length + 4) / 5)) := by
  obtain ⟨L, hL, hlen⟩ := base32_encode_loop_in_range hf x
  unfold base32_encode
  rw [hL, encode_out_len_eq 5 x.length (by omega)]
  simp only [Option.bind_eq_bind, Option.some_bind]
  rw [encode_pad_eq 8 8 L _ (by omega) (by omega) (by omega) (by omega) (by omega), hlen]
  exact ⟨_, rfl⟩

theorem table_probe_defined (n : Nat) : ∀ i, i < n → (table_probe n i).isSome = true := by
  intro i hi
  simp [table_probe, hi]

theorem to_symbol_defined :
    (∀ i, i < 64 → (int_to_base64 i).isSome = true) ∧
    (∀ i, i < 64 → (int_to_base64url i).isSome = true) ∧
    (∀ i, i < 64 → (int_to_itoa64 i).isSome = true) ∧
    (∀ i, i < 64 → (int_to_bf64 i).isSome = true) ∧
    (∀ i, i < 32 → (int_to_base32 i).isSome = true) ∧
    (∀ i, i < 32 → (int_to_itoa32 i).isSome = true) := by
  decide

/-- C21: alphabet indices are masked to range by the caller. For every input
buffer, `base64_encode` calls its alphabet function only on values below 64 and
`base32_encode` only on values below 32: an alphabet function that is defined
on those values alone (such as `table_probe`, which is a read outside the table
everywhere else) never makes the main loop fail. So the 64-entry and 32-entry
table reads of `int_to_base64`, `int_to_base64url`, `int_to_itoa64`,
`int_to_bf64`, `int_to_base32` and `int_to_itoa32` stay inside their tables, and
with an encoded length that fits an `int` the encoders return. -/
theorem C21_indices_in_range (f : Nat → Option Nat) (x : List Nat) :
    ((∀ i, i < 64 → (f i).isSome = true) → (base64_encode_loop f x).isSome = true) ∧
    ((∀ i, i < 32 → (f i).isSome = true) → (base32_encode_loop f x).isSome = true) ∧
    (base64_encode_loop (table_probe 64) x).isSome = true ∧
    (base32_encode_loop (table_probe 32) x).isSome = true ∧
    ((base64_encode_loop int_to_base64 x).isSome = true ∧
      (base64_encode_loop int_to_base64url x).isSome = true ∧
      (base64_encode_loop int_to_itoa64 x).isSome = true ∧
      (base64_encode_loop int_to_bf64 x).isSome = true ∧
      (base32_encode_loop int_to_base32 x).isSome = true ∧
      (base32_encode_loop int_to_itoa32 x).isSome = true) ∧
    (4 * ((x.length + 2) / 3) ≤ INT_MAX →
      (base64_encode int_to_base64 x).isSome = true ∧
      (base64_encode int_to_base64url x).isSome = true ∧
      (base64_encode int_to_itoa64 x).isSome = true ∧
      (base64_encode int_to_bf64 x).isSome = true) ∧
    (8 * ((x.length + 4) / 5) ≤ INT_MAX →
      (base32_encode int_to_base32 x).isSome = true ∧
      (base32_encode int_to_itoa32 x).isSome = true) := by
  have l64 : ∀ {g : Nat → Option Nat}, (∀ i, i < 64 → (g i).isSome = true) →
      (base64_encode_loop g x).isSome = true := fun hg => by
    obtain ⟨L, hL, _⟩ := base64_encode_loop_in_range hg x
    rw [hL]; rfl
  have l32 : ∀ {g : Nat → Option Nat}, (∀ i, i < 32 → (g i).isSome = true) →
      (base32_encode_loop g x).isSome = true := fun hg => by
    obtain ⟨L, hL, _⟩ := base32_encode_loop_in_range hg x
    rw [hL]; rfl
  have e64 : ∀ {g : Nat → Option Nat}, (∀ i, i < 64 → (g i).isSome = true) →
      4 * ((x.length + 2) / 3) ≤ INT_MAX → (base64_encode g x).isSome = true := fun hg hn => by
    obtain ⟨out, h⟩ := base64_encode_in_range hg x hn
    rw [h]; rfl
  have e32 : ∀ {g : Nat → Option Nat}, (∀ i, i < 32 → (g i).isSome = true) →
      8 * ((x.length + 4) / 5) ≤ INT_MAX → (base32_encode g x).isSome = true := fun hg hn => by
    obtain ⟨out, h⟩ := base32_encode_in_range hg x hn
    rw [h]; rfl
  obtain ⟨t1, t2, t3, t4, t5, t6⟩ := to_symbol_defined
  exact ⟨l64, l32, l64 (table_probe_defined 64), l32 (table_probe_defined 32),
    ⟨l64 t1, l64 t2, l64 t3, l64 t4, l32 t5, l32 t6⟩,
    fun hn => ⟨e64 t1 hn, e64 t2 hn, e64 t3 hn, e64 t4 hn⟩,
    fun hn => ⟨e32 t5 hn, e32 t6 hn⟩⟩

/-- Witness for C21 at the buffer `ff ff ff fe`, all of whose index bits are
set, with `table_probe` and with the standard alphabet. -/
theorem C21_indices_in_range_witness :
    (∀ i, i < 64 → (table_probe 64 i).isSome = true) ∧
    (∀ i, i < 32 → (table_probe 32 i).isSome = true) ∧
    table_probe 64 64 = none ∧ table_probe 32 32 = none ∧
    (base64_encode_loop (table_probe 64) [0xff, 0xff, 0xff, 0xfe]).isSome = true ∧
    (base32_encode_loop (table_probe 32) [0xff, 0xff, 0xff, 0xfe]).isSome = true ∧
    4 * (([0xff, 0xff, 0xff, 0xfe].length + 2) / 3) ≤ INT_MAX ∧
    (base64_encode int_to_base64 [0xff, 0xff, 0xff, 0xfe]).isSome = true :=
  have h := C21_indices_in_range (table_probe 64) [0xff, 0xff, 0xff, 0xfe]
  ⟨by decide, by decide, by decide, by decide, h.1 (by decide),
    (C21_indices_in_range (table_probe 32) [0xff, 0xff, 0xff, 0xfe]).2.1 (by decide),
    by decide, (h.2.2.2.2.2.1 (by decide)).1⟩

/-! ### UTF-8 scanner: bounds, control bytes and the ASCII mode -/

theorem cp_lens_index_in_range :
    ∀ c0, c0 < 256 → ∀ t, cp_types[c0]? = some t → t ≠ -1 → 0 ≤ t ∧ t.toNat < cp_lens.length := by
  decide

/-- C22: the UTF-8 scanner never reads outside the buffer and terminates. In
the embedding a read of `buf`, `cp_types` or `cp_lens` outside its bounds, or a
scan that needs more than `len` iterations of the outer loop, makes the result
`none`; for every byte buffer `printable_utf8` returns `true` or `false`, and so
does the loop entered at any `pos` with at least `len - pos` iterations allowed.
Every class other than -1 that `cp_types` holds is an index in `0 .. 8` into the
nine entries of `cp_lens`. -/
theorem C22_scanner_in_bounds (buf : List Nat) (hb : ∀ b ∈ buf, b < 256) :
    (∃ r, printable_utf8 buf = some r) ∧
    (∀ fuel pos, buf.length - pos ≤ fuel → printable_utf8_loop buf fuel pos ≠ none) ∧
    (∀ c0, c0 < 256 → ∀ t, cp_types[c0]? = some t → t ≠ -1 →
      0 ≤ t ∧ t.toNat < cp_lens.length) ∧
    cp_types.length = 256 ∧ cp_lens.length = 9 := by
  obtain ⟨r, hr⟩ := printable_utf8_total buf hb
  exact ⟨⟨r, hr⟩, printable_utf8_loop_total buf hb, cp_lens_index_in_range, by decide, by decide⟩

/-- Witness for C22 at the buffer `68 e2 82`, a three-byte sequence cut short by
the end of the buffer. -/
theorem C22_scanner_in_bounds_witness :
    (∀ b ∈ [0x68, 0xe2, 0x82], b < 256) ∧ (∃ r, printable_utf8 [0x68, 0xe2, 0x82] = some r) ∧
    printable_utf8 [0x68, 0xe2, 0x82] = some false :=
  ⟨by decide, (C22_scanner_in_bounds [0x68, 0xe2, 0x82] (by decide)).1, by decide⟩


theorem forall_mem_drop_one (buf : List Nat) (pos : Nat) (P : Nat → Prop) (h0 : pos < buf.length)
    (p0 : P buf[pos]) (ih : ∀ b ∈ buf.drop (pos + 1), P b) : ∀ b ∈ buf.drop pos, P b := by
  rw [List.drop_eq_getElem_cons h0]
  intro b hb
  rcases List.mem_cons.mp hb with rfl | hb
  · exact p0
  · exact ih b hb

theorem printable_utf8_loop_no_control (buf : List Nat) :
    ∀ fuel pos, printable_utf8_loop buf fuel pos = some true → ∀ b ∈ buf.drop pos, 0x20 ≤ b := by
  intro fuel
  induction fuel with
  | zero =>
    intro pos h
    rw [printable_utf8_loop] at h
    split_ifs at h with hpos
    rw [List.drop_eq_nil_of_le (by omega)]
    simp
  | succ fuel ih =>
    intro pos h
    rw [printable_utf8_loop] at h
    by_cases hpos : pos < buf.length
    · rw [if_pos hpos, List.getElem?_eq_getElem hpos] at h
      simp only at h
      cases htype : cp_types[buf[pos]]? with
      | none => rw [htype] at h; cases h
      | some t =>
        rw [htype] at h
        simp only at h
        rcases cp_types_range _ _ htype with ⟨ht, hr⟩ | ⟨ht, hr⟩ | ⟨ht, hr⟩ | ⟨ht, hr⟩ | ⟨ht, hr⟩ |
          ⟨ht, hr⟩ | ⟨ht, hr⟩ | ⟨ht, hr⟩ | ⟨ht, hr⟩ | ⟨ht, hr⟩
        all_goals subst ht
        all_goals simp [cp_lens, utf8_c1_rejected, utf8_tail, Nat.add_assoc] at h
        · -- one byte
          rw [if_neg (by omega)] at h
          exact forall_mem_drop_one buf pos _ hpos (by omega) (ih _ h)
        · -- two bytes
          by_cases hlen : buf.length < pos + 2
          · rw [if_pos hlen] at h; cases h
          rw [if_neg hlen] at h
          have h1 : pos + 1 < buf.length := by omega
          simp only [List.getElem?_eq_getElem h1] at h
          by_cases hc1 : buf[pos + 1] < 128 ∨ 191 < buf[pos + 1]
          · rw [if_pos hc1] at h; cases h
          rw [if_neg hc1] at h
          exact forall_mem_drop_one buf pos _ hpos (by omega)
            (forall_mem_drop_one buf (pos + 1) _ h1 (by omega) (ih _ h))
        all_goals
          first
          | (by_cases hlen : buf.length < pos + 3
             · rw [if_pos hlen] at h; cases h
             rw [if_neg hlen] at h
             have h1 : pos + 1 < buf.length := by omega
             have h2 : pos + 2 < buf.length := by omega
             simp only [List.getElem?_eq_getElem h1, List.getElem?_eq_getElem h2] at h
             split_ifs at h with hc1 hc2
             all_goals
               first
               | (simp only at h
                  exact forall_mem_drop_one buf pos _ hpos (by omega)
                    (forall_mem_drop_one buf (pos + 1) _ h1 (by omega)
                      (forall_mem_drop_one buf (pos + 2) _ h2 (by omega) (ih _ h))))
               | (simp at h))
          | (by_cases hlen : buf.length < pos + 4
             · rw [if_pos hlen] at h; cases h
             rw [if_neg hlen] at h
             have h1 : pos + 1 < buf.length := by omega
             have h2 : pos + 2 < buf.length := by omega
             have h3 : pos + 3 < buf.length := by omega
             simp only [List.getElem?_eq_getElem h1, List.getElem?_eq_getElem h2,
               List.getElem?_eq_getElem h3] at h
             split_ifs at h with hc1 hc2 hc3
             all_goals
               first
               | (simp only at h
                  exact forall_mem_drop_one buf pos _ hpos (by omega)
                    (forall_mem_drop_one buf (pos + 1) _ h1 (by omega)
                      (forall_mem_drop_one buf (pos + 2) _ h2 (by omega)
                        (forall_mem_drop_one buf (pos + 3) _ h3 (by omega) (ih _ h)))))
               | (simp at h))
    · rw [if_neg hpos] at h
      rw [List.drop_eq_nil_of_le (by omega)]
      simp

theorem printable_utf8_no_control (buf : List Nat) (h : printable_utf8 buf = some true) :
    ∀ b ∈ buf, 0x20 ≤ b := by
  have := printable_utf8_loop_no_control buf buf.length 0 h
  rwa [List.drop_zero] at this

/-- C23: the accept set of `printable_utf8` with respect to control bytes. A
byte buffer that holds a byte in `00 .. 1F` is rejected; a buffer that is a
concatenation of well-formed sequences of Table 3-7 and holds no byte in
`00 .. 1F` is accepted; so the accepted buffers are exactly the well-formed
ones without such a byte. Tab, newline and NUL are rejected and `7F` is
accepted. -/
theorem C23_accept_set (buf : List Nat) (hb : ∀ b ∈ buf, b < 256) :
    ((∃ b ∈ buf, b < 0x20) → printable_utf8 buf = some false) ∧
    (well_formed_utf8 buf → (∀ b ∈ buf, 0x20 ≤ b) → printable_utf8 buf = some true) ∧
    (printable_utf8 buf = some true ↔ well_formed_utf8 buf ∧ ∀ b ∈ buf, 0x20 ≤ b) ∧
    printable_utf8 [0x09] = some false ∧ printable_utf8 [0x0a] = some false ∧
    printable_utf8 [0x00] = some false ∧ printable_utf8 [0x7f] = some true := by
  refine ⟨?_, printable_utf8_complete buf,
    ⟨fun h => ⟨printable_utf8_sound buf h, printable_utf8_no_control buf h⟩,
      fun h => printable_utf8_complete buf h.1 h.2⟩,
    by decide, by decide, by decide, by decide⟩
  rintro ⟨b, hmem, hlt⟩
  obtain ⟨r, hr⟩ := printable_utf8_total buf hb
  cases r with
  | false => exact hr
  | true =>
    have := printable_utf8_no_control buf hr b hmem
    omega

/-- Witness for C23 at the buffer `41 09 e2 82 ac`, which holds a tab. -/
theorem C23_accept_set_witness :
    (∀ b ∈ [0x41, 0x09, 0xe2, 0x82, 0xac], b < 256) ∧
    (∃ b ∈ [0x41, 0x09, 0xe2, 0x82, 0xac], b < 0x20) ∧
    printable_utf8 [0x41, 0x09, 0xe2, 0x82, 0xac] = some false :=
  ⟨by decide, by decide,
    (C23_accept_set [0x41, 0x09, 0xe2, 0x82, 0xac] (by decide)).1 (by decide)⟩

theorem need_hexify_ascii_of_utf8 (buf : List Nat) (separator : Int)
    (h : need_hexify buf separator false = some true) :
    need_hexify buf separator true = some true := by
  rw [need_hexify_eq buf separator true (printable_ascii buf) (by simp)]
  cases hp : printable_ascii buf with
  | false => simp
  | true =>
    have hu : printable_utf8 buf = some true :=
      printable_utf8_of_ascii buf fun b hb => by
        have := (printable_ascii_iff buf).mp hp b hb
        omega
    rw [need_hexify_eq buf separator false true (by simpa using hu)] at h
    simpa using h

/-- C24: UTF-8 mode is never stricter than ASCII mode. For every buffer, when
`printable_ascii` returns `true` so does `printable_utf8`; hence for every
separator, when `need_hexify` returns `true` with `always_ascii = false` it
returns `true` with `always_ascii = true`. -/
theorem C24_utf8_not_stricter (buf : List Nat) (separator : Int) :
    (printable_ascii buf = true → printable_utf8 buf = some true) ∧
    (need_hexify buf separator false = some true → need_hexify buf separator true = some true) := by
  refine ⟨fun hp => printable_utf8_of_ascii buf fun b hb => ?_,
    need_hexify_ascii_of_utf8 buf separator⟩
  have := (printable_ascii_iff buf).mp hp b hb
  omega

/-- Witness for C24 at the buffer `a:b` and the separator `:`. -/
theorem C24_utf8_not_stricter_witness :
    printable_ascii [0x61, 0x3a, 0x62] = true ∧ printable_utf8 [0x61, 0x3a, 0x62] = some true ∧
    need_hexify [0x61, 0x3a, 0x62] (to_char 0x3a) false = some true ∧
    need_hexify [0x61, 0x3a, 0x62] (to_char 0x3a) true = some true :=
  have h := C24_utf8_not_stricter [0x61, 0x3a, 0x62] (to_char 0x3a)
  ⟨by decide, h.1 (by decide), by decide, h.2 (by decide)⟩

/-! ### Reverse round trip of the base64 transcoder -/

theorem symbol_inverts_spec {t f : Nat → Option Nat} {c : Nat} (h : symbol_inverts t f c = true) :
    ∃ w, w < 64 ∧ f (c &&& 0x7f) = some w ∧ t w = some c ∧ c &&& 0x7f = c ∧ c ≠ 0x3d := by
  unfold symbol_inverts at h
  cases hw : f (c &&& 0x7f) with
  | none => rw [hw] at h; cases h
  | some w =>
    rw [hw] at h
    simp only [Bool.and_eq_true, decide_eq_true_eq] at h
    exact ⟨w, h.1.1.1, rfl, h.1.1.2, h.1.2, h.2⟩

theorem base64_symbol_inverts :
    ∀ c, c < 128 → base64_symbol c → symbol_inverts int_to_base64 base64_to_int c = true := by
  decide

theorem base64url_symbol_inverts :
    ∀ c, c < 128 → base64url_symbol c →
      symbol_inverts int_to_base64url base64url_to_int c = true := by
  decide

theorem base64_encode_group_of_indices {t : Nat → Option Nat} (w0 w1 w2 w3 s0 s1 s2 s3 : Nat)
    (h0 : w0 < 64) (h1 : w1 < 64) (h2 : w2 < 64) (h3 : w3 < 64)
    (t0 : t w0 = some s0) (t1 : t w1 = some s1) (t2 : t w2 = some s2) (t3 : t w3 = some s3) :
    base64_encode_group t (w0 % 64 * 4 + w1 / 16 % 4) (w1 % 16 * 16 + w2 / 4 % 16)
        (w2 % 4 * 64 + w3 % 64) =
      some [s0 &&& 0x7f, s1 &&& 0x7f, s2 &&& 0x7f, s3 &&& 0x7f] := by
  obtain ⟨e0, e1, e2, e3⟩ := base64_encode_vals (w0 % 64 * 4 + w1 / 16 % 4)
    (w1 % 16 * 16 + w2 / 4 % 16) (w2 % 4 * 64 + w3 % 64) (by omega) (by omega) (by omega)
  unfold base64_encode_group
  rw [e0, e1, e2, e3]
  have i0 : (w0 % 64 * 4 + w1 / 16 % 4) / 4 = w0 := by omega
  have i1 : (w0 % 64 * 4 + w1 / 16 % 4) % 4 * 16 + (w1 % 16 * 16 + w2 / 4 % 16) / 16 = w1 := by
    omega
  have i2 : (w1 % 16 * 16 + w2 / 4 % 16) % 16 * 4 + (w2 % 4 * 64 + w3 % 64) / 64 = w2 := by
    omega
  have i3 : (w2 % 4 * 64 + w3 % 64) % 64 = w3 := by omega
  rw [i0, i1, i2, i3, t0, t1, t2, t3]
  rfl

theorem base64_reverse_loops {t f : Nat → Option Nat} :
    ∀ s : List Nat, s.length % 4 = 0 → (∀ c ∈ s, symbol_inverts t f c = true) →
      ∃ dec, base64_decode_loop f s = some dec ∧ dec.length = 3 * (s.length / 4) ∧
        base64_encode_loop t dec = some s
  | [], _, _ => ⟨[], rfl, rfl, rfl⟩
  | [_], h, _ => absurd h (by simp)
  | [_, _], h, _ => absurd h (by simp)
  | [_, _, _], h, _ => absurd h (by simp)
  | s0 :: s1 :: s2 :: s3 :: rest, h4, hs => by
    obtain ⟨w0, h0, f0, t0, m0, _⟩ := symbol_inverts_spec (hs s0 (by simp))
    obtain ⟨w1, h1, f1, t1, m1, _⟩ := symbol_inverts_spec (hs s1 (by simp))
    obtain ⟨w2, h2, f2, t2, m2, _⟩ := symbol_inverts_spec (hs s2 (by simp))
    obtain ⟨w3, h3, f3, t3, m3, _⟩ := symbol_inverts_spec (hs s3 (by simp))
    obtain ⟨dec, hdec, hlen, henc⟩ := base64_reverse_loops rest
      (by simp only [List.length_cons] at h4; omega)
      (fun c hc => hs c (by simp [hc]))
    have hg := base64_decode_group_eq s0 s1 s2 s3 w0 w1 w2 w3 f0 f1 f2 f3 (by omega) (by omega)
      (by omega) (by omega)
    refine ⟨_, base64_decode_loop_cons s0 s1 s2 s3 rest _ dec hg hdec, ?_, ?_⟩
    · simp only [List.length_append, List.length_cons, List.length_nil, hlen]
      omega
    · simp only [List.cons_append, List.nil_append]
      rw [base64_encode_loop, base64_encode_group_of_indices w0 w1 w2 w3 s0 s1 s2 s3 h0 h1 h2 h3
        t0 t1 t2 t3, henc, m0, m1, m2, m3]
      rfl

theorem decode_tmp_len_no_pad : ∀ s : List Nat, (∀ c ∈ s, c ≠ 0x3d) → decode_tmp_len s = s.length
  | [], _ => rfl
  | c :: rest, h => by
    rw [decode_tmp_len, if_pos (h c (by simp)),
      decode_tmp_len_no_pad rest (fun d hd => h d (by simp [hd]))]
    rfl

theorem base64_reverse_round_trip {t f : Nat → Option Nat} (s : List Nat)
    (h4 : s.length % 4 = 0) (hn : s.length ≤ INT_MAX)
    (hs : ∀ c ∈ s, symbol_inverts t f c = true) :
    ∃ dec, base64_decode f s = some (dec, 3 * s.length / 4) ∧ dec.length = 3 * s.length / 4 ∧
      base64_encode t dec = some (s, s.length) := by
  obtain ⟨dec, hdec, hlen, henc⟩ := base64_reverse_loops s h4 hs
  have hpad : ∀ c ∈ s, c ≠ 0x3d := fun c hc => by
    obtain ⟨_, _, _, _, _, hne⟩ := symbol_inverts_spec (hs c hc)
    exact hne
  refine ⟨dec, ?_, by omega, ?_⟩
  · unfold base64_decode
    rw [hdec, decode_tmp_len_no_pad s hpad]
    have e : s.length * 6 / 8 = 3 * s.length / 4 := by omega
    simp [e]
  · unfold base64_encode
    rw [henc, encode_out_len_eq 6 dec.length (by omega)]
    simp only [Option.bind_eq_bind, Option.some_bind]
    have e : (8 * dec.length + 4) / 6 = s.length := by omega
    rw [e, encode_pad_eq 4 4 s _ (by omega) (by omega) (by omega) (by omega) (by omega)]
    simp

/-- C25: reverse round trip on unpadded canonical text. For a byte string `s`
whose length is a multiple of 4 (and fits an `int`) and whose bytes are all
symbols of the standard base64 alphabet, `base64_decode` with `base64_to_int`
stores `3 * |s| / 4` bytes and returns that length, and `base64_encode` with
`int_to_base64` of those bytes returns `|s|` and stores `s`; the same holds for
the URL-safe pair and its alphabet with `-` and `_`. -/
theorem C25_reverse_round_trip (s : List Nat) (h4 : s.length % 4 = 0)
    (hn : s.length ≤ INT_MAX) :
    ((∀ c ∈ s, base64_symbol c) →
      ∃ dec, base64_decode base64_to_int s = some (dec, 3 * s.length / 4) ∧
        dec.length = 3 * s.length / 4 ∧
        base64_encode int_to_base64 dec = some (s, s.length)) ∧
    ((∀ c ∈ s, base64url_symbol c) →
      ∃ dec, base64_decode base64url_to_int s = some (dec, 3 * s.length / 4) ∧
        dec.length = 3 * s.length / 4 ∧
        base64_encode int_to_base64url dec = some (s, s.length)) := by
  constructor
  · intro hs
    refine base64_reverse_round_trip s h4 hn fun c hc => base64_symbol_inverts c ?_ (hs c hc)
    have := hs c hc
    unfold base64_symbol at this
    omega
  · intro hs
    refine base64_reverse_round_trip s h4 hn fun c hc => base64url_symbol_inverts c ?_ (hs c hc)
    have := hs c hc
    unfold base64url_symbol at this
    omega

/-- Witness for C25 at the text `TWFu+/9z`. -/
theorem C25_reverse_round_trip_witness :
    [0x54, 0x57, 0x46, 0x75, 0x2b, 0x2f, 0x39, 0x7a].length % 4 = 0 ∧
    [0x54, 0x57, 0x46, 0x75, 0x2b, 0x2f, 0x39, 0x7a].length ≤ INT_MAX ∧
    (∀ c ∈ [0x54, 0x57, 0x46, 0x75, 0x2b, 0x2f, 0x39, 0x7a], base64_symbol c) ∧
    ∃ dec, base64_decode base64_to_int [0x54, 0x57, 0x46, 0x75, 0x2b, 0x2f, 0x39, 0x7a] =
        some (dec, 6) ∧
      base64_encode int_to_base64 dec =
        some ([0x54, 0x57, 0x46, 0x75, 0x2b, 0x2f, 0x39, 0x7a], 8) := by
  obtain ⟨dec, h1, _, h2⟩ :=
    (C25_reverse_round_trip [0x54, 0x57, 0x46, 0x75, 0x2b, 0x2f, 0x39, 0x7a] (by decide)
      (by decide)).1 (by decide)
  exact ⟨by decide, by decide, by decide, dec, h1, h2⟩

end Convert
